import Mathlib

/-!
USB host controller core (`lib/usb/usbhostcontroller.cpp`)

A shallow embedding of `CUSBHostController`: the topology event queue with its
producers (`PortStatusChanged`, `RemoveDevice`) and its consumer
(`UpdatePlugAndPlay`), and the blocking control-transfer layer
(`ControlMessage`, `GetDescriptor`, `SetAddress`, `SetConfiguration`, `Transfer`).

Pointers are natural numbers, `0` is the null pointer.  Machine integers are
natural numbers reduced modulo `2^w` at the places where the source converts.
The collaborators (root ports, hubs, devices, timer, the concrete controller's
submission primitive) are functions on an abstract world state.  Every call the
source makes on the spin lock, the pointer list or a collaborator is recorded
in a trace, in program order.
-/

namespace USBHost

/-! ## Section 1: definitions -/

/-- Number of values of a 32-bit `unsigned`. -/
def U32 : Nat := 4294967296

/-- Unsigned 32-bit subtraction `a - b` as C++ computes it. -/
def u32sub (a b : Nat) : Nat := (a % U32 + U32 - b % U32) % U32

/-- Conversion of a 32-bit `unsigned` to `int` (two's complement). -/
def toInt32 (n : Nat) : Int :=
  if n % U32 < 2147483648 then ((n % U32 : Nat) : Int) else ((n % U32 : Nat) : Int) - 4294967296

/-- Modelled from the spec: the macro `MSEC2HZ` (circle/sysconfig.h, circle/timer.h)
is not under src/.  The spec calls the value of `MSEC2HZ (150)` "the 150-tick
grace period", so one millisecond is taken to be one tick. -/
def MSEC2HZ (msec : Nat) : Nat := msec

/-- Modelled from the spec: `REQUEST_OUT` (circle/usb/usb.h) is not under src/;
the host-to-device, standard, device-recipient request type of USB 2.0. -/
def REQUEST_OUT : Nat := 0

/-- Modelled from the spec: `GET_DESCRIPTOR` (circle/usb/usb.h) is not under src/;
the standard request code of USB 2.0. -/
def GET_DESCRIPTOR : Nat := 6

/-- Modelled from the spec: `SET_ADDRESS` (circle/usb/usb.h) is not under src/;
the standard request code of USB 2.0. -/
def SET_ADDRESS : Nat := 5

/-- Modelled from the spec: `SET_CONFIGURATION` (circle/usb/usb.h) is not under src/;
the standard request code of USB 2.0. -/
def SET_CONFIGURATION : Nat := 9

/-- The tagged union `TPortStatusEvent` (lines 27-46): the tag `Type` selects the
member of the anonymous union; `nCreatedTicks` is "for PortStatusEventDeviceRemoved
only".  The three constructors are the three values of `TPortStatusEventType`. -/
inductive TPortStatusEvent where
  | PortStatusEventFromRootPort (pRootPort : Nat)
  | PortStatusEventFromHub (pHub : Nat)
  | PortStatusEventDeviceRemoved (pDevice : Nat) (nCreatedTicks : Nat)
deriving DecidableEq

/-- The collaborator reference held by an event (the union member). -/
def TPortStatusEvent.ref : TPortStatusEvent → Nat
  | .PortStatusEventFromRootPort p => p
  | .PortStatusEventFromHub p => p
  | .PortStatusEventDeviceRemoved p _ => p

/-- Modelled from the spec: `TPtrListElement` (circle/ptrlist.h) is not under src/.
A node of the event list: `pElement` is the node's own address (what the source
holds in its `TPtrListElement *` variables), `pPtr` the event it carries. -/
structure TPtrListElement where
  pElement : Nat
  pPtr : TPortStatusEvent
deriving DecidableEq

/-- Modelled from the spec: `CPtrList` (circle/ptrlist.h) is not under src/; the
spec describes it as "an ordered sequence, insertion-order = arrival-order". -/
abbrev CPtrList := List TPtrListElement

/-- Modelled from the spec: `CPtrList::GetFirst`, the first node or null. -/
def CPtrList.GetFirst : CPtrList → Nat
  | [] => 0
  | e :: _ => e.pElement

/-- Modelled from the spec: `CPtrList::GetNext`, the node that follows `p`, or null. -/
def CPtrList.GetNext : CPtrList → Nat → Nat
  | [], _ => 0
  | e :: rest, p => if e.pElement = p then CPtrList.GetFirst rest else CPtrList.GetNext rest p

/-- Modelled from the spec: `CPtrList::GetPtr`, the pointer stored in node `p`
(`none` when `p` is not a node of the list). -/
def CPtrList.GetPtr : CPtrList → Nat → Option TPortStatusEvent
  | [], _ => none
  | e :: rest, p => if e.pElement = p then some e.pPtr else CPtrList.GetPtr rest p

/-- Modelled from the spec: `CPtrList::Remove`, unlinks node `p`. -/
def CPtrList.Remove : CPtrList → Nat → CPtrList
  | [], _ => []
  | e :: rest, p => if e.pElement = p then rest else e :: CPtrList.Remove rest p

/-- Modelled from the spec: `CPtrList::InsertAfter`, links a new node behind node
`pAfter`; with `pAfter` null the list is empty and the node becomes the first. -/
def CPtrList.InsertAfter : CPtrList → Nat → TPtrListElement → CPtrList
  | [], _, n => [n]
  | e :: rest, pAfter, n =>
    if e.pElement = pAfter then e :: n :: rest else e :: CPtrList.InsertAfter rest pAfter n

/-- Modelled from the spec: `TSetupData` (circle/usb/usb.h) is not under src/; the
setup descriptor with its five logical fields (request-type byte, request byte,
16-bit value, 16-bit index, 16-bit length). -/
structure TSetupData where
  bmRequestType : Nat
  bRequest : Nat
  wValue : Nat
  wIndex : Nat
  wLength : Nat
deriving DecidableEq

/-- Modelled from the spec: `CUSBRequest` (circle/usb/usbrequest.h) is not under
src/; the request object built by `CUSBRequest (pEndpoint, pBuffer, nBufLen,
pSetupData = 0)`, where `pSetupData = none` is the null default of a non-control
transfer. -/
structure CUSBRequest where
  pEndpoint : Nat
  pBuffer : Nat
  nBufLen : Nat
  pSetupData : Option TSetupData
deriving DecidableEq

/-- One call made by the controller, recorded in program order. -/
inductive Action where
  | Acquire
  | Release
  | GetFirst
  | GetPtr (pElement : Nat)
  | GetNext (pElement : Nat)
  | Remove (pElement : Nat)
  | InsertAfter (pAfter : Nat) (pElement : Nat)
  | RootPortHandlePortStatusChange (pRootPort : Nat)
  | HubHandlePortStatusChange (pHub : Nat)
  | ShutdownDevice (pDevice : Nat) (bResult : Bool)
  | GetTicks (nTicks : Nat)
  | DeleteDevice (pDevice : Nat)
  | SubmitBlockingRequest (URB : CUSBRequest) (nTimeoutMs : Option Nat) (bOK : Bool)
  | MsDelay (nMilliSeconds : Nat)
deriving DecidableEq

/-- A call back into the controller made by a port-status handler. -/
inductive Call where
  | PortStatusChangedRootPort (pRootPort : Nat)
  | PortStatusChangedHub (pHub : Nat)
  | RemoveDevice (pDevice : Nat)
deriving DecidableEq

/-- Modelled from the spec: the collaborator classes (root port, hub, device, timer,
concrete controller) are not under src/; they are functions on a world state `σ`.
`HandlePortStatusChange` of a root port or hub returns the new world and the
calls it made back into the controller; `ShutdownDevice` returns its result;
`DeleteDevice` is the device destructor run by `delete`; `GetTicks` reads the
timer; `SubmitBlockingRequest` returns success and the `m_nResultLen` it left in
the request. -/
structure Collaborators (σ : Type) where
  RootPortHandlePortStatusChange : Nat → σ → σ × List Call
  HubHandlePortStatusChange : Nat → σ → σ × List Call
  ShutdownDevice : Nat → σ → Bool × σ
  DeleteDevice : Nat → σ → σ
  GetTicks : σ → Nat
  MsDelay : Nat → σ → σ
  SubmitBlockingRequest : CUSBRequest → Option Nat → σ → Bool × Nat × σ

/-- The controller's state together with the world it runs in:
`s_bPlugAndPlay`, `m_bFirstUpdateCall`, `m_EventList`; `nAllocated` counts the
list nodes allocated so far (a new node gets the next address); `trace` is the
record of calls. -/
structure State (σ : Type) where
  s_bPlugAndPlay : Bool
  m_bFirstUpdateCall : Bool
  m_EventList : CPtrList
  nAllocated : Nat
  world : σ
  trace : List Action

/-- Outcome of running controller code: a value; a failed `assert`, with the
source line of the assertion and the state in which it failed; or an exhausted
iteration budget (the `while` loop of `UpdatePlugAndPlay` need not terminate when
handlers keep enqueueing). -/
inductive Outcome (σ : Type) (α : Type) where
  | ok (a : α)
  | assertionFailed (nLine : Nat) (s : State σ)
  | outOfFuel

/-- Records one call at the end of the trace. -/
def State.log {σ : Type} (s : State σ) (a : Action) : State σ :=
  { s with trace := s.trace ++ [a] }

/-- The constructor (lines 52-58): `m_bFirstUpdateCall (TRUE)`, the flag as given,
an empty event list. -/
def CUSBHostController {σ : Type} (bPlugAndPlay : Bool) (w : σ) : State σ :=
  { s_bPlugAndPlay := bPlugAndPlay, m_bFirstUpdateCall := true, m_EventList := [],
    nAllocated := 0, world := w, trace := [] }

/-- Method `IsPlugAndPlay` (lines 144-147). -/
def IsPlugAndPlay {σ : Type} (s : State σ) : Bool := s.s_bPlugAndPlay

/-- The tail search shared by the three producers (lines 230-236, 255-261, 296-302):
starting at `GetFirst`, follow `GetNext` to the null pointer, remembering the
node before; the result is `pPrevElement`. -/
def findLast : CPtrList → Nat → Nat
  | [], pPrevElement => pPrevElement
  | e :: rest, _ => findLast rest e.pElement

/-- The list calls made by the tail search: `GetFirst`, then one `GetNext` per node. -/
def findLastTrace (l : CPtrList) : List Action :=
  Action.GetFirst :: l.map (fun e => Action.GetNext e.pElement)

/-- The locked section shared by the three producers (lines 228-240, 253-265,
294-306): acquire, find the last node, `InsertAfter` it, release. -/
def appendEvent {σ : Type} (pEvent : TPortStatusEvent) (s : State σ) : State σ :=
  let pPrevElement := findLast s.m_EventList 0
  let pNew := s.nAllocated + 1
  { s with
    m_EventList := CPtrList.InsertAfter s.m_EventList pPrevElement ⟨pNew, pEvent⟩
    nAllocated := pNew
    trace := s.trace ++ [Action.Acquire] ++ findLastTrace s.m_EventList
      ++ [Action.InsertAfter pPrevElement pNew, Action.Release] }

/-- Method `PortStatusChanged (CUSBHCIRootPort *)` (lines 218-241). -/
def PortStatusChangedRootPort {σ : Type} (pRootPort : Nat) (s : State σ) : Outcome σ (State σ) :=
  if s.s_bPlugAndPlay = false then .assertionFailed 220 s
  else if pRootPort = 0 then .assertionFailed 221 s
  else .ok (appendEvent (.PortStatusEventFromRootPort pRootPort) s)

/-- Method `PortStatusChanged (CUSBStandardHub *)` (lines 243-266). -/
def PortStatusChangedHub {σ : Type} (pHub : Nat) (s : State σ) : Outcome σ (State σ) :=
  if s.s_bPlugAndPlay = false then .assertionFailed 245 s
  else if pHub = 0 then .assertionFailed 246 s
  else .ok (appendEvent (.PortStatusEventFromHub pHub) s)

/-- The statement `delete pDevice`: runs the device destructor. -/
def deleteDevice {σ : Type} (E : Collaborators σ) (pDevice : Nat) (s : State σ) : State σ :=
  { s with world := E.DeleteDevice pDevice s.world, trace := s.trace ++ [Action.DeleteDevice pDevice] }

/-- The call `pDevice->ShutdownDevice ()`: its result and the state after it. -/
def callShutdownDevice {σ : Type} (E : Collaborators σ) (pDevice : Nat) (s : State σ) :
    Bool × State σ :=
  let r := E.ShutdownDevice pDevice s.world
  (r.1, { s with world := r.2, trace := s.trace ++ [Action.ShutdownDevice pDevice r.1] })

/-- The call `CTimer::Get ()->GetTicks ()`: the 32-bit reading and the state after it. -/
def callGetTicks {σ : Type} (E : Collaborators σ) (s : State σ) : Nat × State σ :=
  let t := E.GetTicks s.world % U32
  (t, s.log (Action.GetTicks t))

/-- Method `RemoveDevice` (lines 274-307). -/
def RemoveDevice {σ : Type} (E : Collaborators σ) (pDevice : Nat) (s : State σ) :
    Outcome σ (State σ) :=
  if pDevice = 0 then .assertionFailed 276 s
  else if IsPlugAndPlay s = false then .ok (deleteDevice E pDevice s)
  else
    let r := callShutdownDevice E pDevice s
    if r.1 then .ok (deleteDevice E pDevice r.2)
    else
      let t := callGetTicks E r.2
      .ok (appendEvent (.PortStatusEventDeviceRemoved pDevice t.1) t.2)

/-- Runs the calls a handler made back into the controller, in order. -/
def runCalls {σ : Type} (E : Collaborators σ) : List Call → State σ → Outcome σ (State σ)
  | [], s => .ok s
  | c :: cs, s =>
    match (match c with
      | .PortStatusChangedRootPort p => PortStatusChangedRootPort p s
      | .PortStatusChangedHub p => PortStatusChangedHub p s
      | .RemoveDevice p => RemoveDevice E p s) with
    | .ok s1 => runCalls E cs s1
    | .assertionFailed nLine sf => .assertionFailed nLine sf
    | .outOfFuel => .outOfFuel

/-- The deadline test `GetTicks () - pEvent->nCreatedTicks >= MSEC2HZ (150)` (line 185),
on 32-bit `unsigned` values. -/
def deadlineElapsed (nTicks nCreatedTicks : Nat) : Bool :=
  decide (MSEC2HZ 150 ≤ u32sub nTicks nCreatedTicks)

/-- The `switch (pEvent->Type)` of `UpdatePlugAndPlay` (lines 167-195), run with the
lock released: the value of `bEventHandled` and the state after the handler. -/
def dispatch {σ : Type} (E : Collaborators σ) (pEvent : TPortStatusEvent) (s : State σ) :
    Outcome σ (Bool × State σ) :=
  match pEvent with
  | .PortStatusEventFromRootPort pRootPort =>
    if pRootPort = 0 then .assertionFailed 171 s
    else
      let r := E.RootPortHandlePortStatusChange pRootPort s.world
      match runCalls E r.2
          ({ s with world := r.1 }.log (Action.RootPortHandlePortStatusChange pRootPort)) with
      | .ok s1 => .ok (true, s1)
      | .assertionFailed nLine sf => .assertionFailed nLine sf
      | .outOfFuel => .outOfFuel
  | .PortStatusEventFromHub pHub =>
    if pHub = 0 then .assertionFailed 177 s
    else
      let r := E.HubHandlePortStatusChange pHub s.world
      match runCalls E r.2
          ({ s with world := r.1 }.log (Action.HubHandlePortStatusChange pHub)) with
      | .ok s1 => .ok (true, s1)
      | .assertionFailed nLine sf => .assertionFailed nLine sf
      | .outOfFuel => .outOfFuel
  | .PortStatusEventDeviceRemoved pDevice nCreatedTicks =>
    if pDevice = 0 then .assertionFailed 183 s
    else
      let r := callShutdownDevice E pDevice s
      if r.1 then .ok (true, deleteDevice E pDevice r.2)
      else
        let t := callGetTicks E r.2
        if deadlineElapsed t.1 nCreatedTicks then .ok (true, deleteDevice E pDevice t.2)
        else .ok (false, t.2)

/-- The `while (pElement != 0)` loop of `UpdatePlugAndPlay` (lines 159-211); `fuel`
bounds the number of iterations. -/
def updateLoop {σ : Type} (E : Collaborators σ) :
    Nat → Nat → Bool → State σ → Outcome σ (Bool × State σ)
  | 0, pElement, bResult, s => if pElement = 0 then .ok (bResult, s) else .outOfFuel
  | fuel + 1, pElement, bResult, s =>
    if pElement = 0 then .ok (bResult, s)
    else
      match CPtrList.GetPtr s.m_EventList pElement with
      | none => .assertionFailed 167 ((s.log (Action.GetPtr pElement)).log Action.Release)
      | some pEvent =>
        match dispatch E pEvent ((s.log (Action.GetPtr pElement)).log Action.Release) with
        | .assertionFailed nLine sf => .assertionFailed nLine sf
        | .outOfFuel => .outOfFuel
        | .ok (bEventHandled, s1) =>
          let s2 := (s1.log Action.Acquire).log (Action.GetNext pElement)
          let pNextElement := CPtrList.GetNext s2.m_EventList pElement
          if bEventHandled then
            updateLoop E fuel pNextElement true
              ({ s2 with m_EventList := CPtrList.Remove s2.m_EventList pElement }.log
                (Action.Remove pElement))
          else
            updateLoop E fuel pNextElement bResult s2

/-- Method `UpdatePlugAndPlay` (lines 149-216). -/
def UpdatePlugAndPlay {σ : Type} (E : Collaborators σ) (fuel : Nat) (s : State σ) :
    Outcome σ (Bool × State σ) :=
  if s.s_bPlugAndPlay = false then .assertionFailed 151 s
  else
    let bResult := s.m_bFirstUpdateCall
    let s1 := ({ s with m_bFirstUpdateCall := false }.log Action.Acquire).log Action.GetFirst
    match updateLoop E fuel (CPtrList.GetFirst s1.m_EventList) bResult s1 with
    | .ok (b, s2) => .ok (b, s2.log Action.Release)
    | .assertionFailed nLine sf => .assertionFailed nLine sf
    | .outOfFuel => .outOfFuel

/-- The request object `URB` that `ControlMessage` builds (lines 108-117): the
setup descriptor filled from the parameters, wrapped with the data buffer.  The
parameters are converted to their declared widths (`u8`, `u16`) on entry. -/
def controlURB (pEndpoint ucRequestType ucRequest usValue usIndex pData usDataSize : Nat) :
    CUSBRequest :=
  let pSetup : TSetupData :=
    { bmRequestType := ucRequestType % 256
      bRequest := ucRequest % 256
      wValue := usValue % 65536
      wIndex := usIndex % 65536
      wLength := usDataSize % 65536 }
  { pEndpoint := pEndpoint, pBuffer := pData, nBufLen := usDataSize % 65536,
    pSetupData := some pSetup }

/-- Method `ControlMessage` (lines 103-129): one blocking submission of `URB` with the
default timeout; the result length on success, `-1` otherwise. -/
def ControlMessage {σ : Type} (E : Collaborators σ) (pEndpoint ucRequestType ucRequest
    usValue usIndex pData usDataSize : Nat) (s : State σ) : Int × State σ :=
  let URB := controlURB pEndpoint ucRequestType ucRequest usValue usIndex pData usDataSize
  let r := E.SubmitBlockingRequest URB none s.world
  let s1 := { s with world := r.2.2 }.log (Action.SubmitBlockingRequest URB none r.1)
  if r.1 then (toInt32 r.2.1, s1) else (-1, s1)

/-- Method `GetDescriptor` (lines 65-77). -/
def GetDescriptor {σ : Type} (E : Collaborators σ) (pEndpoint ucType ucIndex pBuffer nBufSize
    ucRequestType wIndex : Nat) (s : State σ) : Int × State σ :=
  ControlMessage E pEndpoint (ucRequestType % 256) GET_DESCRIPTOR
    (((ucType % 256) <<< 8) ||| (ucIndex % 256)) (wIndex % 65536) pBuffer (nBufSize % U32) s

/-- The call `CTimer::Get ()->MsDelay (nMilliSeconds)`. -/
def callMsDelay {σ : Type} (E : Collaborators σ) (nMilliSeconds : Nat) (s : State σ) : State σ :=
  { s with world := E.MsDelay nMilliSeconds s.world,
           trace := s.trace ++ [Action.MsDelay nMilliSeconds] }

/-- Method `SetAddress` (lines 79-89). -/
def SetAddress {σ : Type} (E : Collaborators σ) (pEndpoint ucDeviceAddress : Nat)
    (s : State σ) : Bool × State σ :=
  let r := ControlMessage E pEndpoint REQUEST_OUT SET_ADDRESS (ucDeviceAddress % 256) 0 0 0 s
  if r.1 < 0 then (false, r.2)
  else (true, callMsDelay E 50 r.2)

/-- Method `SetConfiguration` (lines 91-101). -/
def SetConfiguration {σ : Type} (E : Collaborators σ) (pEndpoint ucConfigurationValue : Nat)
    (s : State σ) : Bool × State σ :=
  let r := ControlMessage E pEndpoint REQUEST_OUT SET_CONFIGURATION
    (ucConfigurationValue % 256) 0 0 0 s
  if r.1 < 0 then (false, r.2)
  else (true, callMsDelay E 50 r.2)

/-- Method `Transfer` (lines 131-142). -/
def Transfer {σ : Type} (E : Collaborators σ) (pEndpoint pBuffer nBufSize nTimeoutMs : Nat)
    (s : State σ) : Int × State σ :=
  let URB : CUSBRequest :=
    { pEndpoint := pEndpoint, pBuffer := pBuffer, nBufLen := nBufSize % U32, pSetupData := none }
  let r := E.SubmitBlockingRequest URB (some (nTimeoutMs % U32)) s.world
  let s1 := { s with world := r.2.2 }.log
    (Action.SubmitBlockingRequest URB (some (nTimeoutMs % U32)) r.1)
  if r.1 = false then (-1, s1) else (toInt32 r.2.1, s1)

/-! ### Well-formed states and the specification-side view of a pass -/

/-- The event list is well formed: node addresses are pairwise distinct, non-null
and were handed out by the allocator, and no event holds a null reference (the
producers assert this before they enqueue). -/
def WF {σ : Type} (s : State σ) : Prop :=
  (s.m_EventList.map TPtrListElement.pElement).Nodup ∧
  (∀ e ∈ s.m_EventList, 0 < e.pElement ∧ e.pElement ≤ s.nAllocated) ∧
  (∀ e ∈ s.m_EventList, e.pPtr.ref ≠ 0)

/-- No port-status handler calls back into the controller. -/
def NoEnqueue {σ : Type} (E : Collaborators σ) : Prop :=
  ∀ (p : Nat) (w : σ), (E.RootPortHandlePortStatusChange p w).2 = [] ∧
    (E.HubHandlePortStatusChange p w).2 = []

/-- The timer reads `t` in world `w` and no collaborator call moves it: a pass
started in such a world runs entirely at tick `t`. -/
def ClockFrozen {σ : Type} (E : Collaborators σ) (t : Nat) : Prop :=
  ∀ (w : σ), E.GetTicks w = t →
    (∀ p, E.GetTicks (E.RootPortHandlePortStatusChange p w).1 = t) ∧
    (∀ p, E.GetTicks (E.HubHandlePortStatusChange p w).1 = t) ∧
    (∀ d, E.GetTicks (E.ShutdownDevice d w).2 = t) ∧
    (∀ d, E.GetTicks (E.DeleteDevice d w) = t)

/-- The part of the trace of `s1` recorded after `s0`. -/
def traceSince {σ : Type} (s0 s1 : State σ) : List Action :=
  s1.trace.drop s0.trace.length

/-- The nodes dispatched in a trace: one `GetPtr` opens each loop iteration. -/
def dispatched : List Action → List Nat
  | [] => []
  | Action.GetPtr a :: tr => a :: dispatched tr
  | _ :: tr => dispatched tr

/-- The nodes linked into the list in a trace. -/
def inserted : List Action → List Nat
  | [] => []
  | Action.InsertAfter _ a :: tr => a :: inserted tr
  | _ :: tr => inserted tr

/-- The nodes unlinked from the list in a trace. -/
def removed : List Action → List Nat
  | [] => []
  | Action.Remove a :: tr => a :: removed tr
  | _ :: tr => removed tr

/-- The devices destroyed in a trace. -/
def destroyed : List Action → List Nat
  | [] => []
  | Action.DeleteDevice d :: tr => d :: destroyed tr
  | _ :: tr => destroyed tr

/-- The tag test `Type == PortStatusEventDeviceRemoved`. -/
def TPortStatusEvent.isDeviceRemoved : TPortStatusEvent → Bool
  | .PortStatusEventDeviceRemoved _ _ => true
  | _ => false

/-- Specification side: whether an event dispatched in world `w` is judged handled.
Root-port and hub events always are; a device removal is when `ShutdownDevice`
succeeds or the deadline has elapsed. -/
def judgedHandled {σ : Type} (E : Collaborators σ) (w : σ) : TPortStatusEvent → Bool
  | .PortStatusEventFromRootPort _ => true
  | .PortStatusEventFromHub _ => true
  | .PortStatusEventDeviceRemoved pDevice nCreatedTicks =>
    (E.ShutdownDevice pDevice w).1 ||
      deadlineElapsed (E.GetTicks (E.ShutdownDevice pDevice w).2 % U32) nCreatedTicks

/-- Specification side: the world after an event was dispatched in world `w`, when
handlers do not call back. -/
def worldAfterDispatch {σ : Type} (E : Collaborators σ) (w : σ) : TPortStatusEvent → σ
  | .PortStatusEventFromRootPort p => (E.RootPortHandlePortStatusChange p w).1
  | .PortStatusEventFromHub p => (E.HubHandlePortStatusChange p w).1
  | .PortStatusEventDeviceRemoved pDevice nCreatedTicks =>
    if judgedHandled E w (.PortStatusEventDeviceRemoved pDevice nCreatedTicks)
    then E.DeleteDevice pDevice (E.ShutdownDevice pDevice w).2
    else (E.ShutdownDevice pDevice w).2

/-- Specification side: the calls recorded while an event is dispatched in world
`w`, when handlers do not call back. -/
def dispatchTrace {σ : Type} (E : Collaborators σ) (w : σ) : TPortStatusEvent → List Action
  | .PortStatusEventFromRootPort p => [Action.RootPortHandlePortStatusChange p]
  | .PortStatusEventFromHub p => [Action.HubHandlePortStatusChange p]
  | .PortStatusEventDeviceRemoved pDevice nCreatedTicks =>
    if (E.ShutdownDevice pDevice w).1 then
      [Action.ShutdownDevice pDevice true, Action.DeleteDevice pDevice]
    else if deadlineElapsed (E.GetTicks (E.ShutdownDevice pDevice w).2 % U32) nCreatedTicks then
      [Action.ShutdownDevice pDevice false,
        Action.GetTicks (E.GetTicks (E.ShutdownDevice pDevice w).2 % U32),
        Action.DeleteDevice pDevice]
    else
      [Action.ShutdownDevice pDevice false,
        Action.GetTicks (E.GetTicks (E.ShutdownDevice pDevice w).2 % U32)]

/-- Specification side: the queue a pass started in world `w` leaves behind: the
events not judged handled, in their order, unchanged. -/
def remaining {σ : Type} (E : Collaborators σ) : σ → CPtrList → CPtrList
  | _, [] => []
  | w, e :: rest =>
    if judgedHandled E w e.pPtr then remaining E (worldAfterDispatch E w e.pPtr) rest
    else e :: remaining E (worldAfterDispatch E w e.pPtr) rest

/-- Specification side: the world a pass started in world `w` ends in. -/
def worldAfterPass {σ : Type} (E : Collaborators σ) : σ → CPtrList → σ
  | w, [] => w
  | w, e :: rest => worldAfterPass E (worldAfterDispatch E w e.pPtr) rest

/-- Specification side: whether a pass started in world `w` judges some event handled. -/
def anyHandled {σ : Type} (E : Collaborators σ) : σ → CPtrList → Bool
  | _, [] => false
  | w, e :: rest =>
    judgedHandled E w e.pPtr || anyHandled E (worldAfterDispatch E w e.pPtr) rest

/-- Specification side: the calls recorded by the loop of a pass started in world `w`. -/
def passTrace {σ : Type} (E : Collaborators σ) : σ → CPtrList → List Action
  | _, [] => []
  | w, e :: rest =>
    [Action.GetPtr e.pElement, Action.Release] ++ dispatchTrace E w e.pPtr ++
      [Action.Acquire, Action.GetNext e.pElement] ++
      (if judgedHandled E w e.pPtr then [Action.Remove e.pElement] else []) ++
      passTrace E (worldAfterDispatch E w e.pPtr) rest

/-- What a call made with the lock released does to the controller: the list
grows at the tail by the freshly allocated nodes `new` (each with a non-null
reference), the flags keep their values, and the trace grows by `tr`, which
dispatches and unlinks nothing and links exactly the nodes `new`. -/
def Extends {σ : Type} (s s1 : State σ) (new : CPtrList) (tr : List Action) : Prop :=
  s1.m_EventList = s.m_EventList ++ new ∧
  s1.s_bPlugAndPlay = s.s_bPlugAndPlay ∧
  s1.m_bFirstUpdateCall = s.m_bFirstUpdateCall ∧
  s1.trace = s.trace ++ tr ∧
  s1.nAllocated = s.nAllocated + new.length ∧
  new.map TPtrListElement.pElement = List.range' (s.nAllocated + 1) new.length ∧
  (∀ e ∈ new, e.pPtr.ref ≠ 0) ∧
  dispatched tr = [] ∧ removed tr = [] ∧
  inserted tr = new.map TPtrListElement.pElement

/-- The requests handed to `SubmitBlockingRequest` in a trace, each with the
timeout argument (`none` is the default argument). -/
def submitted : List Action → List (CUSBRequest × Option Nat)
  | [] => []
  | Action.SubmitBlockingRequest URB nTimeoutMs _ :: tr => (URB, nTimeoutMs) :: submitted tr
  | _ :: tr => submitted tr

/-- The `ShutdownDevice` calls in a trace, each with its result. -/
def shutdowns : List Action → List (Nat × Bool)
  | [] => []
  | Action.ShutdownDevice d r :: tr => (d, r) :: shutdowns tr
  | _ :: tr => shutdowns tr

/-- The timer readings (`GetTicks`) in a trace. -/
def tickReads : List Action → List Nat
  | [] => []
  | Action.GetTicks t :: tr => t :: tickReads tr
  | _ :: tr => tickReads tr

/-- Replays a trace against the spin lock, starting with the lock held or not.
`Acquire` needs the lock free and `Release` needs it held; the list calls
(`GetFirst`, `GetPtr`, `GetNext`, `Remove`, `InsertAfter`) need it held; the
collaborator calls `HandlePortStatusChange`, `ShutdownDevice` and the device
destruction need it free.  The result is `none` when a call breaks the discipline,
otherwise whether the lock is held at the end. -/
def lockRun : Bool → List Action → Option Bool
  | held, [] => some held
  | held, Action.Acquire :: tr => if held then none else lockRun true tr
  | held, Action.Release :: tr => if held then lockRun false tr else none
  | held, Action.GetFirst :: tr => if held then lockRun held tr else none
  | held, Action.GetPtr _ :: tr => if held then lockRun held tr else none
  | held, Action.GetNext _ :: tr => if held then lockRun held tr else none
  | held, Action.Remove _ :: tr => if held then lockRun held tr else none
  | held, Action.InsertAfter _ _ :: tr => if held then lockRun held tr else none
  | held, Action.RootPortHandlePortStatusChange _ :: tr => if held then none else lockRun held tr
  | held, Action.HubHandlePortStatusChange _ :: tr => if held then none else lockRun held tr
  | held, Action.ShutdownDevice _ _ :: tr => if held then none else lockRun held tr
  | held, Action.DeleteDevice _ :: tr => if held then none else lockRun held tr
  | held, Action.GetTicks _ :: tr => lockRun held tr
  | held, Action.SubmitBlockingRequest _ _ _ :: tr => lockRun held tr
  | held, Action.MsDelay _ :: tr => lockRun held tr

/-- One public operation on the controller, or a change of the world between two
operations (time passing, devices changing their mind). -/
inductive Operation (σ : Type) where
  | PortStatusChangedRootPort (pRootPort : Nat)
  | PortStatusChangedHub (pHub : Nat)
  | RemoveDevice (pDevice : Nat)
  | UpdatePlugAndPlay (fuel : Nat)
  | environment (f : σ → σ)

/-- Runs one operation. -/
def runOperation {σ : Type} (E : Collaborators σ) : Operation σ → State σ → Outcome σ (State σ)
  | .PortStatusChangedRootPort p, s => PortStatusChangedRootPort p s
  | .PortStatusChangedHub p, s => PortStatusChangedHub p s
  | .RemoveDevice d, s => RemoveDevice E d s
  | .UpdatePlugAndPlay fuel, s =>
    match UpdatePlugAndPlay E fuel s with
    | .ok (_, s1) => .ok s1
    | .assertionFailed nLine sf => .assertionFailed nLine sf
    | .outOfFuel => .outOfFuel
  | .environment f, s => .ok { s with world := f s.world }

/-- Runs a sequence of operations, in order, stopping at the first that fails. -/
def runOperations {σ : Type} (E : Collaborators σ) :
    List (Operation σ) → State σ → Outcome σ (State σ)
  | [], s => .ok s
  | op :: ops, s =>
    match runOperation E op s with
    | .ok s1 => runOperations E ops s1
    | .assertionFailed nLine sf => .assertionFailed nLine sf
    | .outOfFuel => .outOfFuel

/-- The source lines of the assertions on the arguments of the producers:
`PortStatusChanged` (220, 221 and 245, 246) and `RemoveDevice` (276). -/
def producerAssertions : List Nat := [220, 221, 245, 246, 276]

/-- The trace recorded between `s` and `s1` keeps the lock discipline when replayed
from lock state `h0`, and ends in lock state `h1`. -/
def LockStep {σ : Type} (h0 h1 : Bool) (s s1 : State σ) : Prop :=
  ∃ tr, s1.trace = s.trace ++ tr ∧ lockRun h0 tr = some h1

/-- The devices whose removal is queued, in queue order. -/
def queuedDevices : CPtrList → List Nat
  | [] => []
  | e :: rest =>
    match e.pPtr with
    | .PortStatusEventDeviceRemoved d _ => d :: queuedDevices rest
    | _ => queuedDevices rest

/-- The devices passed to `RemoveDevice` in a sequence of operations. -/
def removedDevices {σ : Type} : List (Operation σ) → List Nat
  | [] => []
  | .RemoveDevice d :: ops => d :: removedDevices ops
  | _ :: ops => removedDevices ops

/-- Every device destroyed so far or queued for removal is accounted for exactly
once, and is one of the devices `D` that were passed to `RemoveDevice`. -/
def Accounted {σ : Type} (D : List Nat) (s : State σ) : Prop :=
  (destroyed s.trace ++ queuedDevices s.m_EventList).Nodup ∧
  ∀ x ∈ destroyed s.trace ++ queuedDevices s.m_EventList, x ∈ D

/-- A collaborator call that serves a queued event: `HandlePortStatusChange` of a root
port or of a hub, or `ShutdownDevice` of a device. -/
inductive Served where
  | RootPort (pRootPort : Nat)
  | Hub (pHub : Nat)
  | Device (pDevice : Nat)
deriving DecidableEq

/-- The collaborator calls in a trace that serve events, in program order. -/
def served : List Action → List Served
  | [] => []
  | Action.RootPortHandlePortStatusChange p :: tr => Served.RootPort p :: served tr
  | Action.HubHandlePortStatusChange p :: tr => Served.Hub p :: served tr
  | Action.ShutdownDevice d _ :: tr => Served.Device d :: served tr
  | _ :: tr => served tr

/-- The collaborator call that serves an event: the port-status handler of its root
port or hub, or `ShutdownDevice` of its device. -/
def TPortStatusEvent.served : TPortStatusEvent → Served
  | .PortStatusEventFromRootPort p => Served.RootPort p
  | .PortStatusEventFromHub p => Served.Hub p
  | .PortStatusEventDeviceRemoved d _ => Served.Device d

/-- Whether a serving call is a port-status handler (of a root port or of a hub);
only the dispatch of a queued event calls these. -/
def Served.isPort : Served → Bool
  | .RootPort _ => true
  | .Hub _ => true
  | .Device _ => false

/-- Specification side: the calls back into the controller that the handler of an
event makes when the event is dispatched in world `w` (`ShutdownDevice` makes none). -/
def callsOf {σ : Type} (E : Collaborators σ) (w : σ) : TPortStatusEvent → List Call
  | .PortStatusEventFromRootPort p => (E.RootPortHandlePortStatusChange p w).2
  | .PortStatusEventFromHub p => (E.HubHandlePortStatusChange p w).2
  | .PortStatusEventDeviceRemoved _ _ => []

/-- Specification side: dispatched one after the other starting in world `w`, none
of the events of the list has a handler that calls back into the controller. -/
def QuietOn {σ : Type} (E : Collaborators σ) : σ → CPtrList → Prop
  | _, [] => True
  | w, e :: rest => callsOf E w e.pPtr = [] ∧ QuietOn E (worldAfterDispatch E w e.pPtr) rest

/-! ### A concrete world, used to instantiate the theorems -/

/-- A small world: the timer's tick counter and the elapsed milliseconds. -/
structure DemoWorld where
  nTicks : Nat
  nMs : Nat
deriving DecidableEq

/-- Collaborators whose handlers never call back.  Device 5 shuts down at once,
every other device refuses; submission succeeds on every endpoint but the null
one and transfers the whole buffer. -/
def demoQuiet : Collaborators DemoWorld where
  RootPortHandlePortStatusChange := fun _ w => (w, [])
  HubHandlePortStatusChange := fun _ w => (w, [])
  ShutdownDevice := fun d w => (decide (d = 5), w)
  DeleteDevice := fun _ w => w
  GetTicks := fun w => w.nTicks
  MsDelay := fun ms w => { w with nMs := w.nMs + ms }
  SubmitBlockingRequest := fun URB _ w => (decide (URB.pEndpoint ≠ 0), URB.nBufLen, w)

/-- Collaborators as `demoQuiet`, except that the handler of root port 7 reports
a status change of root port 8 while it runs. -/
def demoReentrant : Collaborators DemoWorld where
  RootPortHandlePortStatusChange := fun p w =>
    (w, if p = 7 then [Call.PortStatusChangedRootPort 8] else [])
  HubHandlePortStatusChange := fun _ w => (w, [])
  ShutdownDevice := fun d w => (decide (d = 5), w)
  DeleteDevice := fun _ w => w
  GetTicks := fun w => w.nTicks
  MsDelay := fun ms w => { w with nMs := w.nMs + ms }
  SubmitBlockingRequest := fun URB _ w => (decide (URB.pEndpoint ≠ 0), URB.nBufLen, w)

/-- A state with the given flag values and queue, an empty trace and world `w`. -/
def demoState (bFirst : Bool) (l : CPtrList) (n : Nat) (w : DemoWorld) : State DemoWorld :=
  { s_bPlugAndPlay := true, m_bFirstUpdateCall := bFirst, m_EventList := l,
    nAllocated := n, world := w, trace := [] }

/-- Three queued events `A`, `B`, `C`: the removal of device 9 requested at tick
100, a status change of root port 7, the removal of device 11 requested at tick 100. -/
def demoQueue : CPtrList :=
  [⟨1, .PortStatusEventDeviceRemoved 9 100⟩, ⟨2, .PortStatusEventFromRootPort 7⟩,
    ⟨3, .PortStatusEventDeviceRemoved 11 100⟩]

/-! ## Section 2: lemmas -/

theorem GetPtr_append_cons (pre post : CPtrList) (c : TPtrListElement)
    (h : c.pElement ∉ pre.map TPtrListElement.pElement) :
    CPtrList.GetPtr (pre ++ c :: post) c.pElement = some c.pPtr := by
  induction pre with
  | nil => simp [CPtrList.GetPtr]
  | cons x xs ih =>
    simp only [List.map_cons, List.mem_cons, not_or] at h
    have hx : ¬ x.pElement = c.pElement := fun e => h.1 e.symm
    simp [CPtrList.GetPtr, hx, ih h.2]

theorem GetNext_append_cons (pre post : CPtrList) (c : TPtrListElement)
    (h : c.pElement ∉ pre.map TPtrListElement.pElement) :
    CPtrList.GetNext (pre ++ c :: post) c.pElement = CPtrList.GetFirst post := by
  induction pre with
  | nil => simp [CPtrList.GetNext]
  | cons x xs ih =>
    simp only [List.map_cons, List.mem_cons, not_or] at h
    have hx : ¬ x.pElement = c.pElement := fun e => h.1 e.symm
    simp [CPtrList.GetNext, hx, ih h.2]

theorem Remove_append_cons (pre post : CPtrList) (c : TPtrListElement)
    (h : c.pElement ∉ pre.map TPtrListElement.pElement) :
    CPtrList.Remove (pre ++ c :: post) c.pElement = pre ++ post := by
  induction pre with
  | nil => simp [CPtrList.Remove]
  | cons x xs ih =>
    simp only [List.map_cons, List.mem_cons, not_or] at h
    have hx : ¬ x.pElement = c.pElement := fun e => h.1 e.symm
    simp [CPtrList.Remove, hx, ih h.2]

theorem findLast_mem (l : CPtrList) (p : Nat) :
    (l = [] ∧ findLast l p = p) ∨ findLast l p ∈ l.map TPtrListElement.pElement := by
  induction l generalizing p with
  | nil => left; simp [findLast]
  | cons x xs ih =>
    right
    rcases ih x.pElement with ⟨h1, h2⟩ | h
    · simp [findLast, h1]
    · simp only [findLast, List.map_cons, List.mem_cons]; right; exact h

theorem InsertAfter_findLast (l : CPtrList) (p : Nat) (n : TPtrListElement)
    (h : (l.map TPtrListElement.pElement).Nodup) :
    CPtrList.InsertAfter l (findLast l p) n = l ++ [n] := by
  induction l generalizing p with
  | nil => simp [CPtrList.InsertAfter]
  | cons x xs ih =>
    simp only [List.map_cons, List.nodup_cons] at h
    simp only [findLast, CPtrList.InsertAfter]
    rcases findLast_mem xs x.pElement with ⟨h1, h2⟩ | hm
    · subst h1; simp [findLast]
    · have hne : ¬ x.pElement = findLast xs x.pElement := fun e => h.1 (e ▸ hm)
      simp [hne, ih x.pElement h.2]

theorem dispatched_append (a b : List Action) :
    dispatched (a ++ b) = dispatched a ++ dispatched b := by
  induction a with
  | nil => rfl
  | cons x xs ih => cases x <;> simp [dispatched, ih]

theorem inserted_append (a b : List Action) :
    inserted (a ++ b) = inserted a ++ inserted b := by
  induction a with
  | nil => rfl
  | cons x xs ih => cases x <;> simp [inserted, ih]

theorem removed_append (a b : List Action) :
    removed (a ++ b) = removed a ++ removed b := by
  induction a with
  | nil => rfl
  | cons x xs ih => cases x <;> simp [removed, ih]

theorem destroyed_append (a b : List Action) :
    destroyed (a ++ b) = destroyed a ++ destroyed b := by
  induction a with
  | nil => rfl
  | cons x xs ih => cases x <;> simp [destroyed, ih]

theorem traceSince_append {σ : Type} (s s1 : State σ) (tr : List Action)
    (h : s1.trace = s.trace ++ tr) : traceSince s s1 = tr := by
  simp [traceSince, h]

theorem findLastTrace_proj (l : CPtrList) :
    dispatched (findLastTrace l) = [] ∧ inserted (findLastTrace l) = [] ∧
    removed (findLastTrace l) = [] ∧ destroyed (findLastTrace l) = [] := by
  unfold findLastTrace
  induction l with
  | nil => simp [dispatched, inserted, removed, destroyed]
  | cons x xs ih =>
    simp only [List.map_cons, dispatched, inserted, removed, destroyed] at ih ⊢
    exact ih

theorem Extends_of_world_trace {σ : Type} (s : State σ) (w : σ) (tr : List Action)
    (h1 : dispatched tr = []) (h2 : removed tr = []) (h3 : inserted tr = []) :
    Extends s { s with world := w, trace := s.trace ++ tr } [] tr := by
  simp [Extends, h1, h2, h3]

theorem Extends_trans {σ : Type} {s s1 s2 : State σ} {n1 n2 : CPtrList} {t1 t2 : List Action}
    (h1 : Extends s s1 n1 t1) (h2 : Extends s1 s2 n2 t2) :
    Extends s s2 (n1 ++ n2) (t1 ++ t2) := by
  obtain ⟨a1, a2, a3, a4, a5, a6, a7, a8, a9, a10⟩ := h1
  obtain ⟨b1, b2, b3, b4, b5, b6, b7, b8, b9, b10⟩ := h2
  refine ⟨?_, ?_, ?_, ?_, ?_, ?_, ?_, ?_, ?_, ?_⟩
  · rw [b1, a1, List.append_assoc]
  · rw [b2, a2]
  · rw [b3, a3]
  · rw [b4, a4, List.append_assoc]
  · rw [b5, a5, List.length_append]; omega
  · rw [List.map_append, a6, b6, a5, List.length_append]
    have := List.range'_append (s.nAllocated + 1) n1.length n2.length 1
    simp only [one_mul] at this
    rw [show s.nAllocated + n1.length + 1 = s.nAllocated + 1 + n1.length by omega, this,
      Nat.add_comm n1.length n2.length]
  · intro e he
    rcases List.mem_append.1 he with h | h
    · exact a7 e h
    · exact b7 e h
  · rw [dispatched_append, a8, b8]; rfl
  · rw [removed_append, a9, b9]; rfl
  · rw [inserted_append, a10, b10, List.map_append]

theorem WF_of_Extends {σ : Type} {s s1 : State σ} {new : CPtrList} {tr : List Action}
    (hwf : WF s) (h : Extends s s1 new tr) : WF s1 := by
  obtain ⟨a1, _, _, _, a5, a6, a7, _, _, _⟩ := h
  obtain ⟨w1, w2, w3⟩ := hwf
  have hnew : ∀ e ∈ new, s.nAllocated + 1 ≤ e.pElement ∧ e.pElement < s.nAllocated + 1 + new.length := by
    intro e he
    have : e.pElement ∈ new.map TPtrListElement.pElement := List.mem_map_of_mem _ he
    rw [a6] at this
    simpa using this
  refine ⟨?_, ?_, ?_⟩
  · rw [a1, List.map_append, List.nodup_append]
    refine ⟨w1, ?_, ?_⟩
    · rw [a6]; exact List.nodup_range' _ _
    · intro x hx hx2
      obtain ⟨e, he, rfl⟩ := List.mem_map.1 hx
      obtain ⟨e2, he2, he3⟩ := List.mem_map.1 hx2
      have := (w2 e he).2
      have := (hnew e2 he2).1
      omega
  · intro e he
    rw [a1] at he
    rcases List.mem_append.1 he with h | h
    · have := w2 e h; omega
    · have := hnew e h; omega
  · intro e he
    rw [a1] at he
    rcases List.mem_append.1 he with h | h
    · exact w3 e h
    · exact a7 e h

theorem appendEvent_Extends {σ : Type} (s : State σ) (ev : TPortStatusEvent)
    (hwf : WF s) (hev : ev.ref ≠ 0) :
    Extends s (appendEvent ev s) [⟨s.nAllocated + 1, ev⟩]
      ([Action.Acquire] ++ findLastTrace s.m_EventList ++
        [Action.InsertAfter (findLast s.m_EventList 0) (s.nAllocated + 1), Action.Release]) := by
  obtain ⟨h1, h2, h3, h4⟩ := findLastTrace_proj s.m_EventList
  refine ⟨?_, rfl, rfl, ?_, rfl, ?_, ?_, ?_, ?_, ?_⟩
  · simp only [appendEvent]
    exact InsertAfter_findLast _ _ _ hwf.1
  · simp [appendEvent, List.append_assoc]
  · simp [List.range']
  · simpa using hev
  · rw [dispatched_append, dispatched_append, h1]; rfl
  · rw [removed_append, removed_append, h3]; rfl
  · rw [inserted_append, inserted_append, h2]; rfl

theorem Extends_refl {σ : Type} (s : State σ) : Extends s s [] [] := by
  simp [Extends, dispatched, removed, inserted]

theorem PortStatusChangedRootPort_Extends {σ : Type} (p : Nat) (s s1 : State σ) (hwf : WF s)
    (h : PortStatusChangedRootPort p s = .ok s1) : ∃ new tr, Extends s s1 new tr := by
  unfold PortStatusChangedRootPort at h
  split at h
  · cases h
  · split at h
    · cases h
    · rename_i hp
      injection h with h
      subst h
      exact ⟨_, _, appendEvent_Extends s _ hwf (by simpa [TPortStatusEvent.ref] using hp)⟩

theorem PortStatusChangedHub_Extends {σ : Type} (p : Nat) (s s1 : State σ) (hwf : WF s)
    (h : PortStatusChangedHub p s = .ok s1) : ∃ new tr, Extends s s1 new tr := by
  unfold PortStatusChangedHub at h
  split at h
  · cases h
  · split at h
    · cases h
    · rename_i hp
      injection h with h
      subst h
      exact ⟨_, _, appendEvent_Extends s _ hwf (by simpa [TPortStatusEvent.ref] using hp)⟩

theorem deleteDevice_Extends {σ : Type} (E : Collaborators σ) (d : Nat) (s : State σ) :
    Extends s (deleteDevice E d s) [] [Action.DeleteDevice d] :=
  Extends_of_world_trace s _ _ rfl rfl rfl

theorem callShutdownDevice_Extends {σ : Type} (E : Collaborators σ) (d : Nat) (s : State σ) :
    Extends s (callShutdownDevice E d s).2 [] [Action.ShutdownDevice d (E.ShutdownDevice d s.world).1] :=
  Extends_of_world_trace s _ _ rfl rfl rfl

theorem callGetTicks_Extends {σ : Type} (E : Collaborators σ) (s : State σ) :
    Extends s (callGetTicks E s).2 [] [Action.GetTicks (E.GetTicks s.world % U32)] := by
  simp [Extends, callGetTicks, State.log, dispatched, removed, inserted]

theorem RemoveDevice_Extends {σ : Type} (E : Collaborators σ) (d : Nat) (s s1 : State σ)
    (hwf : WF s) (h : RemoveDevice E d s = .ok s1) : ∃ new tr, Extends s s1 new tr := by
  unfold RemoveDevice at h
  split at h
  · cases h
  · rename_i hd
    split at h
    · injection h with h; subst h; exact ⟨_, _, deleteDevice_Extends E d s⟩
    · simp only at h
      split at h
      · injection h with h; subst h
        exact ⟨_, _, Extends_trans (callShutdownDevice_Extends E d s) (deleteDevice_Extends E d _)⟩
      · injection h with h; subst h
        have e1 := callShutdownDevice_Extends E d s
        have e2 := callGetTicks_Extends E (callShutdownDevice E d s).2
        have e12 := Extends_trans e1 e2
        have hwf2 := WF_of_Extends hwf e12
        exact ⟨_, _, Extends_trans e12 (appendEvent_Extends _ _ hwf2
          (by simpa [TPortStatusEvent.ref] using hd))⟩

theorem runCalls_Extends {σ : Type} (E : Collaborators σ) (cs : List Call) (s s1 : State σ)
    (hwf : WF s) (h : runCalls E cs s = .ok s1) : ∃ new tr, Extends s s1 new tr := by
  induction cs generalizing s with
  | nil =>
    simp only [runCalls] at h
    injection h with h; subst h
    exact ⟨_, _, Extends_refl s⟩
  | cons c cs ih =>
    simp only [runCalls] at h
    split at h
    · rename_i s2 hc
      have h2 : ∃ new tr, Extends s s2 new tr := by
        cases c with
        | PortStatusChangedRootPort p => exact PortStatusChangedRootPort_Extends p s s2 hwf hc
        | PortStatusChangedHub p => exact PortStatusChangedHub_Extends p s s2 hwf hc
        | RemoveDevice p => exact RemoveDevice_Extends E p s s2 hwf hc
      obtain ⟨n2, t2, e2⟩ := h2
      obtain ⟨n3, t3, e3⟩ := ih s2 (WF_of_Extends hwf e2) h
      exact ⟨_, _, Extends_trans e2 e3⟩
    · cases h
    · cases h

theorem dispatch_Extends {σ : Type} (E : Collaborators σ) (ev : TPortStatusEvent)
    (s s1 : State σ) (b : Bool) (hwf : WF s) (h : dispatch E ev s = .ok (b, s1)) :
    (∃ new tr, Extends s s1 new tr) ∧ (b = false → ev.isDeviceRemoved = true) := by
  cases ev with
  | PortStatusEventFromRootPort p =>
    simp only [dispatch] at h
    split at h
    · cases h
    · split at h
      · rename_i s2 hr
        injection h with h
        injection h with hb hs
        subst hb; subst hs
        have e1 : Extends s ({ s with world := (E.RootPortHandlePortStatusChange p s.world).1 }.log
            (Action.RootPortHandlePortStatusChange p)) [] [Action.RootPortHandlePortStatusChange p] :=
          Extends_of_world_trace s _ _ rfl rfl rfl
        obtain ⟨n2, t2, e2⟩ := runCalls_Extends E _ _ _ (WF_of_Extends hwf e1) hr
        exact ⟨⟨_, _, Extends_trans e1 e2⟩, by simp⟩
      · cases h
      · cases h
  | PortStatusEventFromHub p =>
    simp only [dispatch] at h
    split at h
    · cases h
    · split at h
      · rename_i s2 hr
        injection h with h
        injection h with hb hs
        subst hb; subst hs
        have e1 : Extends s ({ s with world := (E.HubHandlePortStatusChange p s.world).1 }.log
            (Action.HubHandlePortStatusChange p)) [] [Action.HubHandlePortStatusChange p] :=
          Extends_of_world_trace s _ _ rfl rfl rfl
        obtain ⟨n2, t2, e2⟩ := runCalls_Extends E _ _ _ (WF_of_Extends hwf e1) hr
        exact ⟨⟨_, _, Extends_trans e1 e2⟩, by simp⟩
      · cases h
      · cases h
  | PortStatusEventDeviceRemoved d t0 =>
    refine ⟨?_, fun _ => rfl⟩
    simp only [dispatch] at h
    split at h
    · cases h
    · split at h
      · injection h with h
        injection h with hb hs
        subst hs
        exact ⟨_, _, Extends_trans (callShutdownDevice_Extends E d s) (deleteDevice_Extends E d _)⟩
      · have e1 := callShutdownDevice_Extends E d s
        have e2 := callGetTicks_Extends E (callShutdownDevice E d s).2
        have e12 := Extends_trans e1 e2
        split at h
        · injection h with h
          injection h with hb hs
          subst hs
          exact ⟨_, _, Extends_trans e12 (deleteDevice_Extends E d _)⟩
        · injection h with h
          injection h with hb hs
          subst hs
          exact ⟨_, _, e12⟩

theorem WF_log {σ : Type} (s : State σ) (a : Action) (hwf : WF s) : WF (s.log a) := hwf

theorem GetFirst_eq_zero_of_WF {σ : Type} (s : State σ) (pre todo : CPtrList) (hwf : WF s)
    (hl : s.m_EventList = pre ++ todo) (h0 : CPtrList.GetFirst todo = 0) : todo = [] := by
  cases todo with
  | nil => rfl
  | cons c post =>
    have := (hwf.2.1 c (by rw [hl]; simp)).1
    simp [CPtrList.GetFirst] at h0
    omega

theorem updateLoop_reentrant {σ : Type} (E : Collaborators σ) (fuel : Nat) :
    ∀ (pre todo : CPtrList) (b : Bool) (s : State σ) (b1 : Bool) (s1 : State σ),
    WF s → s.m_EventList = pre ++ todo →
    updateLoop E fuel (CPtrList.GetFirst todo) b s = .ok (b1, s1) →
    ∃ tr, s1.trace = s.trace ++ tr ∧
      dispatched tr = todo.map TPtrListElement.pElement ++ inserted tr ∧
      inserted tr = List.range' (s.nAllocated + 1) (s1.nAllocated - s.nAllocated) ∧
      s.nAllocated ≤ s1.nAllocated ∧
      (∀ e ∈ s1.m_EventList, e ∈ pre ∨ e.pPtr.isDeviceRemoved = true) ∧
      WF s1 ∧ s1.s_bPlugAndPlay = s.s_bPlugAndPlay ∧
      s1.m_bFirstUpdateCall = s.m_bFirstUpdateCall ∧
      (b1 = true ↔ b = true ∨ removed tr ≠ []) := by
  induction fuel with
  | zero =>
    intro pre todo b s b1 s1 hwf hl h
    simp only [updateLoop] at h
    split at h
    · rename_i h0
      have ht := GetFirst_eq_zero_of_WF s pre todo hwf hl h0
      subst ht
      injection h with h
      injection h with hb hs
      subst hs
      subst hb
      refine ⟨[], by simp, by simp [dispatched, inserted], by simp [inserted], le_refl _, ?_, hwf,
        rfl, rfl, by simp [removed]⟩
      intro e he
      left
      simpa [hl] using he
    · cases h
  | succ n ih =>
    intro pre todo b s b1 s1 hwf hl h
    cases todo with
    | nil =>
      simp only [updateLoop, CPtrList.GetFirst, if_true] at h
      injection h with h
      injection h with hb hs
      subst hs
      subst hb
      refine ⟨[], by simp, by simp [dispatched, inserted], by simp [inserted], le_refl _, ?_, hwf,
        rfl, rfl, by simp [removed]⟩
      intro e he
      left
      simpa [hl] using he
    | cons c post =>
      have hc0 : c.pElement ≠ 0 := by
        have := (hwf.2.1 c (by rw [hl]; simp)).1
        omega
      have hnd := hwf.1
      rw [hl, List.map_append, List.map_cons, List.nodup_append] at hnd
      have hnot : c.pElement ∉ pre.map TPtrListElement.pElement := by
        intro hm
        exact hnd.2.2 hm (by simp)
      have hget := GetPtr_append_cons pre post c hnot
      simp only [updateLoop, CPtrList.GetFirst, hc0, if_false, hl, hget] at h
      cases hd : dispatch E c.pPtr ((s.log (Action.GetPtr c.pElement)).log Action.Release) with
      | assertionFailed nLine sf => rw [hd] at h; cases h
      | outOfFuel => rw [hd] at h; cases h
      | ok r =>
        obtain ⟨bh, s2⟩ := r
        rw [hd] at h
        simp only at h
        have hwf0 : WF ((s.log (Action.GetPtr c.pElement)).log Action.Release) := hwf
        obtain ⟨⟨new, tr1, hext⟩, hdev⟩ := dispatch_Extends E _ _ _ _ hwf0 hd
        have hwf2 := WF_of_Extends hwf0 hext
        obtain ⟨x1, x2, x3, x4, x5, x6, x7, x8, x9, x10⟩ := hext
        have hl2 : s2.m_EventList = pre ++ c :: (post ++ new) := by
          rw [x1]; simp [State.log, hl]
        have hnext : CPtrList.GetNext
            ((s2.log Action.Acquire).log (Action.GetNext c.pElement)).m_EventList c.pElement
            = CPtrList.GetFirst (post ++ new) := by
          show CPtrList.GetNext s2.m_EventList c.pElement = _
          rw [hl2]; exact GetNext_append_cons pre _ c hnot
        rw [hnext] at h
        have hna : s2.nAllocated = s.nAllocated + new.length := by rw [x5]; rfl
        have htr : s2.trace = s.trace ++ ([Action.GetPtr c.pElement, Action.Release] ++ tr1) := by
          rw [x4]; simp [State.log]
        split at h
        · -- the event was handled and is unlinked
          have hrem : CPtrList.Remove
              ((s2.log Action.Acquire).log (Action.GetNext c.pElement)).m_EventList c.pElement
              = pre ++ (post ++ new) := by
            show CPtrList.Remove s2.m_EventList c.pElement = _
            rw [hl2]; exact Remove_append_cons pre _ c hnot
          rw [hrem] at h
          have hwf3 : WF (({ (s2.log Action.Acquire).log (Action.GetNext c.pElement) with
              m_EventList := pre ++ (post ++ new) } : State σ).log (Action.Remove c.pElement)) := by
            obtain ⟨w1, w2, w3⟩ := hwf2
            rw [hl2] at w1 w2 w3
            refine ⟨?_, ?_, ?_⟩
            · show ((pre ++ (post ++ new)).map TPtrListElement.pElement).Nodup
              rw [List.map_append, List.map_cons] at w1
              rw [List.map_append]
              exact List.Nodup.sublist
                (List.Sublist.append (List.Sublist.refl _) (List.sublist_cons_self _ _)) w1
            · intro e he
              have he2 : e ∈ pre ++ (post ++ new) := he
              exact w2 e (by
                rcases List.mem_append.1 he2 with h1 | h1
                · exact List.mem_append_left _ h1
                · exact List.mem_append_right _ (List.mem_cons_of_mem _ h1))
            · intro e he
              have he2 : e ∈ pre ++ (post ++ new) := he
              exact w3 e (by
                rcases List.mem_append.1 he2 with h1 | h1
                · exact List.mem_append_left _ h1
                · exact List.mem_append_right _ (List.mem_cons_of_mem _ h1))
          obtain ⟨tr, y1, y2, y3, y4, y5, y6, y7, y8, y9⟩ :=
            ih pre (post ++ new) true _ b1 s1 hwf3 rfl h
          have hna3 : (({ (s2.log Action.Acquire).log (Action.GetNext c.pElement) with
              m_EventList := pre ++ (post ++ new) } : State σ).log
              (Action.Remove c.pElement)).nAllocated = s.nAllocated + new.length := hna
          rw [hna3] at y3 y4
          refine ⟨[Action.GetPtr c.pElement, Action.Release] ++ tr1 ++
            [Action.Acquire, Action.GetNext c.pElement, Action.Remove c.pElement] ++ tr,
            ?_, ?_, ?_, by omega, y5, y6, ?_, ?_, ?_⟩
          · rw [y1]; simp [State.log, htr, List.append_assoc]
          · have d1 : dispatched [Action.GetPtr c.pElement, Action.Release] = [c.pElement] := rfl
            have d2 : dispatched [Action.Acquire, Action.GetNext c.pElement, Action.Remove c.pElement] = [] := rfl
            have i1 : inserted [Action.GetPtr c.pElement, Action.Release] = [] := rfl
            have i2 : inserted [Action.Acquire, Action.GetNext c.pElement, Action.Remove c.pElement] = [] := rfl
            rw [dispatched_append, dispatched_append, dispatched_append, d1, x8, d2, y2,
              inserted_append, inserted_append, inserted_append, i1, x10, i2]
            simp
          · have i1 : inserted [Action.GetPtr c.pElement, Action.Release] = [] := rfl
            have i2 : inserted [Action.Acquire, Action.GetNext c.pElement, Action.Remove c.pElement] = [] := rfl
            rw [inserted_append, inserted_append, inserted_append, i1, x10, i2, y3]
            simp only [List.nil_append, List.append_nil]
            rw [x6]
            have hr := List.range'_append (s.nAllocated + 1) new.length
              (s1.nAllocated - (s.nAllocated + new.length)) 1
            simp only [one_mul] at hr
            have e1 : ((s.log (Action.GetPtr c.pElement)).log Action.Release).nAllocated
                = s.nAllocated := rfl
            rw [e1, show s.nAllocated + new.length + 1 = s.nAllocated + 1 + new.length by omega, hr]
            congr 1
            omega
          · rw [y7]; exact x2
          · rw [y8]; exact x3
          · have r1 : removed [Action.GetPtr c.pElement, Action.Release] = [] := rfl
            have r2 : removed [Action.Acquire, Action.GetNext c.pElement,
              Action.Remove c.pElement] = [c.pElement] := rfl
            rw [removed_append, removed_append, removed_append, r1, x9, r2]
            have : b1 = true := y9.2 (Or.inl rfl)
            simp [this]
        · -- the event stays queued
          rename_i hbh
          have hbh2 : bh = false := by simpa using hbh
          have hwf3 : WF ((s2.log Action.Acquire).log (Action.GetNext c.pElement)) := hwf2
          have hl3 : ((s2.log Action.Acquire).log (Action.GetNext c.pElement)).m_EventList
              = (pre ++ [c]) ++ (post ++ new) := by
            show s2.m_EventList = _
            rw [hl2]; simp
          obtain ⟨tr, y1, y2, y3, y4, y5, y6, y7, y8, y9⟩ :=
            ih (pre ++ [c]) (post ++ new) b _ b1 s1 hwf3 hl3 h
          have hna3 : ((s2.log Action.Acquire).log (Action.GetNext c.pElement)).nAllocated
              = s.nAllocated + new.length := hna
          rw [hna3] at y3 y4
          refine ⟨[Action.GetPtr c.pElement, Action.Release] ++ tr1 ++
            [Action.Acquire, Action.GetNext c.pElement] ++ tr,
            ?_, ?_, ?_, by omega, ?_, y6, ?_, ?_, ?_⟩
          · rw [y1]; simp [State.log, htr, List.append_assoc]
          · have d1 : dispatched [Action.GetPtr c.pElement, Action.Release] = [c.pElement] := rfl
            have d2 : dispatched [Action.Acquire, Action.GetNext c.pElement] = [] := rfl
            have i1 : inserted [Action.GetPtr c.pElement, Action.Release] = [] := rfl
            have i2 : inserted [Action.Acquire, Action.GetNext c.pElement] = [] := rfl
            rw [dispatched_append, dispatched_append, dispatched_append, d1, x8, d2, y2,
              inserted_append, inserted_append, inserted_append, i1, x10, i2]
            simp
          · have i1 : inserted [Action.GetPtr c.pElement, Action.Release] = [] := rfl
            have i2 : inserted [Action.Acquire, Action.GetNext c.pElement] = [] := rfl
            rw [inserted_append, inserted_append, inserted_append, i1, x10, i2, y3]
            simp only [List.nil_append, List.append_nil]
            rw [x6]
            have hr := List.range'_append (s.nAllocated + 1) new.length
              (s1.nAllocated - (s.nAllocated + new.length)) 1
            simp only [one_mul] at hr
            have e1 : ((s.log (Action.GetPtr c.pElement)).log Action.Release).nAllocated
                = s.nAllocated := rfl
            rw [e1, show s.nAllocated + new.length + 1 = s.nAllocated + 1 + new.length by omega, hr]
            congr 1
            omega
          · intro e he
            rcases y5 e he with h1 | h1
            · rcases List.mem_append.1 h1 with h2 | h2
              · left; exact h2
              · right
                have : e = c := by simpa using h2
                rw [this]; exact hdev hbh2
            · right; exact h1
          · rw [y7]; exact x2
          · rw [y8]; exact x3
          · have r1 : removed [Action.GetPtr c.pElement, Action.Release] = [] := rfl
            have r2 : removed [Action.Acquire, Action.GetNext c.pElement] = [] := rfl
            rw [removed_append, removed_append, removed_append, r1, x9, r2]
            simpa using y9

theorem dispatch_quiet {σ : Type} (E : Collaborators σ) (hq : NoEnqueue E)
    (ev : TPortStatusEvent) (s : State σ) (hev : ev.ref ≠ 0) :
    dispatch E ev s = .ok (judgedHandled E s.world ev,
      { s with world := worldAfterDispatch E s.world ev,
               trace := s.trace ++ dispatchTrace E s.world ev }) := by
  cases ev with
  | PortStatusEventFromRootPort p =>
    have hp : p ≠ 0 := hev
    simp [dispatch, hp, (hq p s.world).1, runCalls, judgedHandled, worldAfterDispatch,
      dispatchTrace, State.log]
  | PortStatusEventFromHub p =>
    have hp : p ≠ 0 := hev
    simp [dispatch, hp, (hq p s.world).2, runCalls, judgedHandled, worldAfterDispatch,
      dispatchTrace, State.log]
  | PortStatusEventDeviceRemoved d t0 =>
    have hp : d ≠ 0 := hev
    simp only [dispatch, hp, if_false, callShutdownDevice, callGetTicks, deleteDevice, State.log,
      judgedHandled, worldAfterDispatch, dispatchTrace]
    by_cases h1 : (E.ShutdownDevice d s.world).1 = true
    · simp [h1]
    · by_cases h2 : deadlineElapsed (E.GetTicks (E.ShutdownDevice d s.world).2 % U32) t0 = true
      · simp [h1, h2]
      · simp [h1, h2]

theorem WF_of_sublist {σ : Type} (s s1 : State σ) (h : WF s)
    (hl : List.Sublist s1.m_EventList s.m_EventList) (hn : s1.nAllocated = s.nAllocated) :
    WF s1 := by
  obtain ⟨w1, w2, w3⟩ := h
  refine ⟨List.Nodup.sublist (List.Sublist.map _ hl) w1, ?_, ?_⟩
  · intro e he
    rw [hn]
    exact w2 e (hl.subset he)
  · intro e he
    exact w3 e (hl.subset he)

theorem updateLoop_quiet {σ : Type} (E : Collaborators σ) (hq : NoEnqueue E) (todo : CPtrList) :
    ∀ (pre : CPtrList) (fuel : Nat) (b : Bool) (s : State σ),
    WF s → s.m_EventList = pre ++ todo → todo.length ≤ fuel →
    updateLoop E fuel (CPtrList.GetFirst todo) b s =
      .ok (b || anyHandled E s.world todo,
        { s with m_EventList := pre ++ remaining E s.world todo,
                 world := worldAfterPass E s.world todo,
                 trace := s.trace ++ passTrace E s.world todo }) := by
  induction todo with
  | nil =>
    intro pre fuel b s hwf hl hf
    cases s
    simp only [List.append_nil] at hl
    subst hl
    cases fuel <;>
      simp [updateLoop, CPtrList.GetFirst, anyHandled, remaining, worldAfterPass, passTrace]
  | cons c post ih =>
    intro pre fuel b s hwf hl hf
    cases fuel with
    | zero => simp at hf
    | succ n =>
      have hc0 : c.pElement ≠ 0 := by
        have := (hwf.2.1 c (by rw [hl]; simp)).1
        omega
      have href : c.pPtr.ref ≠ 0 := hwf.2.2 c (by rw [hl]; simp)
      have hnd := hwf.1
      rw [hl, List.map_append, List.map_cons, List.nodup_append] at hnd
      have hnot : c.pElement ∉ pre.map TPtrListElement.pElement := by
        intro hm
        exact hnd.2.2 hm (by simp)
      have hget := GetPtr_append_cons pre post c hnot
      have hnext := GetNext_append_cons pre post c hnot
      have hrem := Remove_append_cons pre post c hnot
      obtain ⟨pnp, first, l, na, w, tr⟩ := s
      simp only at hl
      subst hl
      have hd := dispatch_quiet E hq c.pPtr
        ⟨pnp, first, pre ++ c :: post, na, w, tr ++ [Action.GetPtr c.pElement] ++ [Action.Release]⟩
        href
      have hfirst : CPtrList.GetFirst (c :: post) = c.pElement := rfl
      rw [hfirst]
      simp only [updateLoop, hc0, if_false, hget, State.log, hd, hnext, hrem]
      have hlen : post.length ≤ n := by simpa using hf
      by_cases hj : judgedHandled E w c.pPtr = true
      · simp only [hj, if_true]
        have hwf1 : WF (⟨pnp, first, pre ++ post, na, worldAfterDispatch E w c.pPtr,
            tr ++ [Action.GetPtr c.pElement] ++ [Action.Release] ++ dispatchTrace E w c.pPtr ++
              [Action.Acquire] ++ [Action.GetNext c.pElement] ++ [Action.Remove c.pElement]⟩ :
            State σ) :=
          WF_of_sublist _ _ hwf
            (List.Sublist.append (List.Sublist.refl pre) (List.sublist_cons_self c post)) rfl
        rw [ih pre n true _ hwf1 rfl hlen]
        simp [anyHandled, remaining, worldAfterPass, passTrace, hj]
      · simp only [hj, if_false]
        have hwf1 : WF (⟨pnp, first, pre ++ c :: post, na, worldAfterDispatch E w c.pPtr,
            tr ++ [Action.GetPtr c.pElement] ++ [Action.Release] ++ dispatchTrace E w c.pPtr ++
              [Action.Acquire] ++ [Action.GetNext c.pElement]⟩ : State σ) :=
          WF_of_sublist _ _ hwf (List.Sublist.refl _) rfl
        rw [ih (pre ++ [c]) n b _ hwf1 (by simp) hlen]
        simp [anyHandled, remaining, worldAfterPass, passTrace, hj]

theorem UpdatePlugAndPlay_quiet {σ : Type} (E : Collaborators σ) (hq : NoEnqueue E)
    (fuel : Nat) (s : State σ) (hpnp : s.s_bPlugAndPlay = true) (hwf : WF s)
    (hfuel : s.m_EventList.length ≤ fuel) :
    UpdatePlugAndPlay E fuel s =
      .ok (s.m_bFirstUpdateCall || anyHandled E s.world s.m_EventList,
        { s with m_bFirstUpdateCall := false
                 m_EventList := remaining E s.world s.m_EventList
                 world := worldAfterPass E s.world s.m_EventList
                 trace := s.trace ++ ([Action.Acquire, Action.GetFirst] ++
                   passTrace E s.world s.m_EventList ++ [Action.Release]) }) := by
  obtain ⟨pnp, first, l, na, w, tr⟩ := s
  simp only at hpnp hfuel
  subst hpnp
  have hwf1 : WF (⟨true, false, l, na, w, tr ++ [Action.Acquire] ++ [Action.GetFirst]⟩ :
      State σ) := hwf
  have h := updateLoop_quiet E hq l [] fuel first _ hwf1 rfl hfuel
  simp only [UpdatePlugAndPlay, State.log, h]
  simp [List.append_assoc]

theorem UpdatePlugAndPlay_reentrant {σ : Type} (E : Collaborators σ) (fuel : Nat)
    (s : State σ) (b : Bool) (s1 : State σ) (hwf : WF s)
    (h : UpdatePlugAndPlay E fuel s = .ok (b, s1)) :
    s.s_bPlugAndPlay = true ∧
    dispatched (traceSince s s1) =
      s.m_EventList.map TPtrListElement.pElement ++ inserted (traceSince s s1) ∧
    inserted (traceSince s s1) = List.range' (s.nAllocated + 1) (s1.nAllocated - s.nAllocated) ∧
    (∀ e ∈ s1.m_EventList, e.pPtr.isDeviceRemoved = true) ∧
    WF s1 ∧ s1.s_bPlugAndPlay = true ∧ s1.m_bFirstUpdateCall = false ∧
    (b = true ↔ s.m_bFirstUpdateCall = true ∨ removed (traceSince s s1) ≠ []) := by
  unfold UpdatePlugAndPlay at h
  split at h
  · cases h
  · rename_i hp
    have hpnp : s.s_bPlugAndPlay = true := by simpa using hp
    simp only at h
    split at h
    · rename_i b2 s2 hloop
      injection h with h
      injection h with hb hs
      subst hb; subst hs
      have hwf1 : WF (({ s with m_bFirstUpdateCall := false }.log Action.Acquire).log
          Action.GetFirst) := hwf
      obtain ⟨tr, y1, y2, y3, y4, y5, y6, y7, y8, y9⟩ :=
        updateLoop_reentrant E fuel [] _ _ _ _ _ hwf1 rfl hloop
      have htr : (s2.log Action.Release).trace =
          s.trace ++ ([Action.Acquire, Action.GetFirst] ++ tr ++ [Action.Release]) := by
        simp [State.log, y1, List.append_assoc]
      rw [traceSince_append s _ _ htr]
      have d1 : dispatched [Action.Acquire, Action.GetFirst] = [] := rfl
      have d2 : dispatched [Action.Release] = [] := rfl
      have i1 : inserted [Action.Acquire, Action.GetFirst] = [] := rfl
      have i2 : inserted [Action.Release] = [] := rfl
      have r1 : removed [Action.Acquire, Action.GetFirst] = [] := rfl
      have r2 : removed [Action.Release] = [] := rfl
      refine ⟨hpnp, ?_, ?_, ?_, y6, ?_, y8, ?_⟩
      · rw [dispatched_append, dispatched_append, inserted_append, inserted_append, d1, d2, i1,
          i2, y2]
        simp [State.log]
      · rw [inserted_append, inserted_append, i1, i2, y3]
        simp [State.log]
      · intro e he
        rcases y5 e he with h1 | h1
        · simp at h1
        · exact h1
      · show s2.s_bPlugAndPlay = true
        rw [y7]; exact hpnp
      · rw [removed_append, removed_append, r1, r2]
        simpa [State.log] using y9
    · cases h
    · cases h

theorem remaining_sublist {σ : Type} (E : Collaborators σ) (l : CPtrList) :
    ∀ w : σ, List.Sublist (remaining E w l) l := by
  induction l with
  | nil => intro w; exact List.Sublist.refl _
  | cons e rest ih =>
    intro w
    simp only [remaining]
    split
    · exact List.Sublist.cons _ (ih _)
    · exact List.Sublist.cons₂ _ (ih _)

theorem remaining_isDeviceRemoved {σ : Type} (E : Collaborators σ) (l : CPtrList) :
    ∀ w : σ, ∀ e ∈ remaining E w l, e.pPtr.isDeviceRemoved = true := by
  induction l with
  | nil => intro w e he; simp [remaining] at he
  | cons x rest ih =>
    intro w e he
    simp only [remaining] at he
    split at he
    · exact ih _ e he
    · rename_i hj
      rcases List.mem_cons.1 he with h | h
      · subst h
        cases hx : e.pPtr with
        | PortStatusEventFromRootPort p => rw [hx] at hj; simp [judgedHandled] at hj
        | PortStatusEventFromHub p => rw [hx] at hj; simp [judgedHandled] at hj
        | PortStatusEventDeviceRemoved d t0 => rfl
      · exact ih _ e h

theorem demoQuiet_NoEnqueue : NoEnqueue demoQuiet := fun _ _ => ⟨rfl, rfl⟩

theorem demoState_WF (b : Bool) (w : DemoWorld) : WF (demoState b demoQueue 3 w) := by
  simp [WF, demoState, demoQueue, TPortStatusEvent.ref]

theorem u32sub_mod_left (a b : Nat) : u32sub (a % U32) b = u32sub a b := by
  simp [u32sub, Nat.mod_mod]

theorem worldAfterDispatch_clock {σ : Type} (E : Collaborators σ) (t : Nat)
    (hc : ClockFrozen E t) (w : σ) (hw : E.GetTicks w = t) (ev : TPortStatusEvent) :
    E.GetTicks (worldAfterDispatch E w ev) = t := by
  cases ev with
  | PortStatusEventFromRootPort p => exact (hc w hw).1 p
  | PortStatusEventFromHub p => exact (hc w hw).2.1 p
  | PortStatusEventDeviceRemoved d t0 =>
    have h1 := (hc w hw).2.2.1 d
    simp only [worldAfterDispatch]
    split
    · exact (hc _ h1).2.2.2 d
    · exact h1

theorem judgedHandled_refusing {σ : Type} (E : Collaborators σ) (t d t0 : Nat)
    (hc : ClockFrozen E t) (hshut : ∀ w, (E.ShutdownDevice d w).1 = false)
    (w : σ) (hw : E.GetTicks w = t) :
    judgedHandled E w (.PortStatusEventDeviceRemoved d t0) =
      decide (MSEC2HZ 150 ≤ u32sub t t0) := by
  simp [judgedHandled, hshut w, (hc w hw).2.2.1 d, deadlineElapsed, u32sub_mod_left]

theorem destroyed_dispatchTrace {σ : Type} (E : Collaborators σ) (w : σ)
    (ev : TPortStatusEvent) :
    destroyed (dispatchTrace E w ev) =
      if ev.isDeviceRemoved = true ∧ judgedHandled E w ev = true then [ev.ref] else [] := by
  cases ev with
  | PortStatusEventFromRootPort p => simp [dispatchTrace, destroyed, TPortStatusEvent.isDeviceRemoved]
  | PortStatusEventFromHub p => simp [dispatchTrace, destroyed, TPortStatusEvent.isDeviceRemoved]
  | PortStatusEventDeviceRemoved d t0 =>
    simp only [dispatchTrace, judgedHandled, TPortStatusEvent.isDeviceRemoved,
      TPortStatusEvent.ref, true_and]
    by_cases h1 : (E.ShutdownDevice d w).1 = true
    · simp [h1, destroyed]
    · by_cases h2 : deadlineElapsed (E.GetTicks (E.ShutdownDevice d w).2 % U32) t0 = true
      · simp [h1, h2, destroyed]
      · simp [h1, h2, destroyed]

theorem destroyed_passTrace_cons {σ : Type} (E : Collaborators σ) (w : σ)
    (e : TPtrListElement) (rest : CPtrList) :
    destroyed (passTrace E w (e :: rest)) =
      destroyed (dispatchTrace E w e.pPtr) ++
        destroyed (passTrace E (worldAfterDispatch E w e.pPtr) rest) := by
  simp only [passTrace]
  have d1 : destroyed [Action.GetPtr e.pElement, Action.Release] = [] := rfl
  have d2 : destroyed [Action.Acquire, Action.GetNext e.pElement] = [] := rfl
  have d3 : destroyed (if judgedHandled E w e.pPtr = true then [Action.Remove e.pElement]
      else []) = [] := by
    split <;> rfl
  rw [destroyed_append, destroyed_append, destroyed_append, destroyed_append, d1, d2, d3]
  simp

theorem remaining_refusing_mem {σ : Type} (E : Collaborators σ) (t d t0 a : Nat)
    (hc : ClockFrozen E t) (hshut : ∀ w, (E.ShutdownDevice d w).1 = false)
    (hlt : u32sub t t0 < MSEC2HZ 150) (l : CPtrList) :
    ∀ w : σ, E.GetTicks w = t → (⟨a, .PortStatusEventDeviceRemoved d t0⟩ : TPtrListElement) ∈ l →
      (⟨a, .PortStatusEventDeviceRemoved d t0⟩ : TPtrListElement) ∈ remaining E w l := by
  induction l with
  | nil => intro w _ h; simp at h
  | cons x rest ih =>
    intro w hw hm
    have hw1 := worldAfterDispatch_clock E t hc w hw x.pPtr
    simp only [remaining]
    rcases List.mem_cons.1 hm with h | h
    · subst h
      have hj := judgedHandled_refusing E t d t0 hc hshut w hw
      have : ¬ MSEC2HZ 150 ≤ u32sub t t0 := by omega
      simp [hj, this]
    · split
      · exact ih _ hw1 h
      · exact List.mem_cons_of_mem _ (ih _ hw1 h)

theorem remaining_elapsed_not_mem {σ : Type} (E : Collaborators σ) (t d t0 a : Nat)
    (hc : ClockFrozen E t) (hshut : ∀ w, (E.ShutdownDevice d w).1 = false)
    (hge : MSEC2HZ 150 ≤ u32sub t t0) (l : CPtrList) :
    ∀ w : σ, E.GetTicks w = t →
      (⟨a, .PortStatusEventDeviceRemoved d t0⟩ : TPtrListElement) ∉ remaining E w l := by
  induction l with
  | nil => intro w _ h; simp [remaining] at h
  | cons x rest ih =>
    intro w hw hm
    have hw1 := worldAfterDispatch_clock E t hc w hw x.pPtr
    simp only [remaining] at hm
    split at hm
    · exact ih _ hw1 hm
    · rename_i hj
      rcases List.mem_cons.1 hm with h | h
      · subst h
        have hj2 := judgedHandled_refusing E t d t0 hc hshut w hw
        simp only at hj
        rw [hj2] at hj
        simp [hge] at hj
      · exact ih _ hw1 h

theorem destroyed_count_refusing {σ : Type} (E : Collaborators σ) (t d t0 a : Nat)
    (hc : ClockFrozen E t) (hshut : ∀ w, (E.ShutdownDevice d w).1 = false) (l : CPtrList) :
    ∀ w : σ, E.GetTicks w = t → (l.map TPtrListElement.pElement).Nodup →
      (∀ e ∈ l, e.pPtr.isDeviceRemoved = true → e.pPtr.ref = d →
        e = ⟨a, .PortStatusEventDeviceRemoved d t0⟩) →
      (destroyed (passTrace E w l)).count d =
        if (⟨a, .PortStatusEventDeviceRemoved d t0⟩ : TPtrListElement) ∈ l ∧
          MSEC2HZ 150 ≤ u32sub t t0 then 1 else 0 := by
  induction l with
  | nil => intro w _ _ _; simp [passTrace, destroyed]
  | cons x rest ih =>
    intro w hw hnd honly
    have hw1 := worldAfterDispatch_clock E t hc w hw x.pPtr
    rw [List.map_cons, List.nodup_cons] at hnd
    have ih1 := ih _ hw1 hnd.2 (fun e he => honly e (List.mem_cons_of_mem _ he))
    rw [destroyed_passTrace_cons, List.count_append, ih1, destroyed_dispatchTrace]
    by_cases hx : x = ⟨a, .PortStatusEventDeviceRemoved d t0⟩
    · subst hx
      have hnot : (⟨a, .PortStatusEventDeviceRemoved d t0⟩ : TPtrListElement) ∉ rest := by
        intro hm
        exact hnd.1 (List.mem_map_of_mem _ hm)
      have hj := judgedHandled_refusing E t d t0 hc hshut w hw
      simp only [hj, TPortStatusEvent.isDeviceRemoved, TPortStatusEvent.ref, hnot,
        List.mem_cons, true_or, true_and, false_and, if_false, decide_eq_true_eq]
      by_cases hge : MSEC2HZ 150 ≤ u32sub t t0
      · simp [hge]
      · simp [hge]
    · have hxd : ¬ (x.pPtr.isDeviceRemoved = true ∧ x.pPtr.ref = d) := by
        intro h
        exact hx (honly x (List.mem_cons_self _ _) h.1 h.2)
      have hmem : ((⟨a, .PortStatusEventDeviceRemoved d t0⟩ : TPtrListElement) ∈ x :: rest) ↔
          ((⟨a, .PortStatusEventDeviceRemoved d t0⟩ : TPtrListElement) ∈ rest) := by
        constructor
        · intro h
          rcases List.mem_cons.1 h with h | h
          · exact absurd h.symm hx
          · exact h
        · exact List.mem_cons_of_mem _
      have hc0 : List.count d (if x.pPtr.isDeviceRemoved = true ∧ judgedHandled E w x.pPtr = true
          then [x.pPtr.ref] else []) = 0 := by
        split
        · rename_i h
          have : ¬ x.pPtr.ref = d := fun h2 => hxd ⟨h.1, h2⟩
          rw [List.count_eq_zero]
          intro h2
          exact this (List.mem_singleton.1 h2).symm
        · simp
      rw [hc0, zero_add]
      simp only [hmem]

theorem updateLoop_null {σ : Type} (E : Collaborators σ) (fuel : Nat) (b : Bool) (s : State σ) :
    updateLoop E fuel 0 b s = .ok (b, s) := by
  cases fuel <;> simp [updateLoop]

theorem ControlMessage_trace {σ : Type} (E : Collaborators σ) (s : State σ)
    (pEndpoint ucRequestType ucRequest usValue usIndex pData usDataSize : Nat) :
    (ControlMessage E pEndpoint ucRequestType ucRequest usValue usIndex pData usDataSize s).2.trace
      = s.trace ++ [Action.SubmitBlockingRequest
        (controlURB pEndpoint ucRequestType ucRequest usValue usIndex pData usDataSize) none
        (E.SubmitBlockingRequest
          (controlURB pEndpoint ucRequestType ucRequest usValue usIndex pData usDataSize)
          none s.world).1] := by
  simp only [ControlMessage, State.log]
  split <;> rfl

theorem ControlMessage_world {σ : Type} (E : Collaborators σ) (s : State σ)
    (pEndpoint ucRequestType ucRequest usValue usIndex pData usDataSize : Nat) :
    (ControlMessage E pEndpoint ucRequestType ucRequest usValue usIndex pData usDataSize s).2.world
      = (E.SubmitBlockingRequest
          (controlURB pEndpoint ucRequestType ucRequest usValue usIndex pData usDataSize)
          none s.world).2.2 := by
  simp only [ControlMessage, State.log]
  split <;> rfl

theorem shiftLeft_or_eq (ty ix : Nat) (hI : ix < 256) : (ty <<< 8) ||| ix = 256 * ty + ix := by
  have h := Nat.mul_add_lt_is_or (show ix < 2 ^ 8 from hI) ty
  rw [Nat.shiftLeft_eq, Nat.mul_comm ty (2 ^ 8), ← h]

theorem submitted_append (a b : List Action) :
    submitted (a ++ b) = submitted a ++ submitted b := by
  induction a with
  | nil => rfl
  | cons x xs ih => cases x <;> simp [submitted, ih]

theorem settle_trace {σ : Type} (E : Collaborators σ) (s : State σ)
    (pEndpoint ucRequest v : Nat) :
    submitted (traceSince s
      (if (ControlMessage E pEndpoint REQUEST_OUT ucRequest v 0 0 0 s).1 < 0
        then (false, (ControlMessage E pEndpoint REQUEST_OUT ucRequest v 0 0 0 s).2)
        else (true, callMsDelay E 50
          (ControlMessage E pEndpoint REQUEST_OUT ucRequest v 0 0 0 s).2)).2) =
      [(controlURB pEndpoint REQUEST_OUT ucRequest v 0 0 0, none)] := by
  split
  · rw [traceSince_append s _ _ (ControlMessage_trace E s _ _ _ _ _ _ _)]
    rfl
  · have h : (callMsDelay E 50
        (ControlMessage E pEndpoint REQUEST_OUT ucRequest v 0 0 0 s).2).trace =
        s.trace ++ ([Action.SubmitBlockingRequest
          (controlURB pEndpoint REQUEST_OUT ucRequest v 0 0 0) none
          (E.SubmitBlockingRequest (controlURB pEndpoint REQUEST_OUT ucRequest v 0 0 0)
            none s.world).1] ++ [Action.MsDelay 50]) := by
      simp only [callMsDelay, ControlMessage_trace, List.append_assoc]
    rw [traceSince_append s _ _ h]
    rfl

theorem removed_dispatchTrace {σ : Type} (E : Collaborators σ) (w : σ)
    (ev : TPortStatusEvent) : removed (dispatchTrace E w ev) = [] := by
  cases ev with
  | PortStatusEventFromRootPort p => rfl
  | PortStatusEventFromHub p => rfl
  | PortStatusEventDeviceRemoved d t0 =>
    simp only [dispatchTrace]
    split
    · rfl
    · split <;> rfl

theorem removed_passTrace_cons {σ : Type} (E : Collaborators σ) (w : σ)
    (e : TPtrListElement) (rest : CPtrList) :
    removed (passTrace E w (e :: rest)) =
      (if judgedHandled E w e.pPtr = true then [e.pElement] else []) ++
        removed (passTrace E (worldAfterDispatch E w e.pPtr) rest) := by
  simp only [passTrace]
  have d1 : removed [Action.GetPtr e.pElement, Action.Release] = [] := rfl
  have d2 : removed [Action.Acquire, Action.GetNext e.pElement] = [] := rfl
  have d3 : removed (if judgedHandled E w e.pPtr = true then [Action.Remove e.pElement]
      else []) = (if judgedHandled E w e.pPtr = true then [e.pElement] else []) := by
    split <;> rfl
  rw [removed_append, removed_append, removed_append, removed_append, d1, d2, d3,
    removed_dispatchTrace]
  simp

theorem removed_passTrace_subset {σ : Type} (E : Collaborators σ) (l : CPtrList) :
    ∀ (w : σ), ∀ x ∈ removed (passTrace E w l), x ∈ l.map TPtrListElement.pElement := by
  induction l with
  | nil => intro w x hx; simp [passTrace, removed] at hx
  | cons e rest ih =>
    intro w x hx
    rw [removed_passTrace_cons] at hx
    rcases List.mem_append.1 hx with h | h
    · split at h
      · have : x = e.pElement := by simpa using h
        simp [this]
      · simp at h
    · exact List.mem_cons_of_mem _ (ih _ x h)

theorem remaining_eq_filter {σ : Type} (E : Collaborators σ) (l : CPtrList) :
    ∀ (w : σ), (l.map TPtrListElement.pElement).Nodup →
      remaining E w l =
        l.filter (fun e => decide (e.pElement ∉ removed (passTrace E w l))) := by
  induction l with
  | nil => intro w _; rfl
  | cons e rest ih =>
    intro w hnd
    rw [List.map_cons, List.nodup_cons] at hnd
    have hsub := removed_passTrace_subset E rest (worldAfterDispatch E w e.pPtr)
    have hrest : ∀ x ∈ rest, x.pElement ≠ e.pElement := by
      intro x hx heq
      exact hnd.1 (heq ▸ List.mem_map_of_mem _ hx)
    rw [removed_passTrace_cons]
    simp only [remaining]
    by_cases hj : judgedHandled E w e.pPtr = true
    · simp only [hj, if_true, List.filter_cons, List.singleton_append, List.mem_cons, true_or,
        not_true_eq_false, decide_False]
      rw [ih _ hnd.2]
      apply List.filter_congr
      intro x hx
      have := hrest x hx
      simp [this]
    · have hnot : e.pElement ∉ removed (passTrace E (worldAfterDispatch E w e.pPtr) rest) :=
        fun h => hnd.1 (hsub _ h)
      have hjf : judgedHandled E w e.pPtr = false := by simpa using hj
      rw [ih _ hnd.2]
      simp [hjf, hnot]

theorem shutdowns_append (a b : List Action) :
    shutdowns (a ++ b) = shutdowns a ++ shutdowns b := by
  induction a with
  | nil => rfl
  | cons x xs ih => cases x <;> simp [shutdowns, ih]

theorem tickReads_append (a b : List Action) :
    tickReads (a ++ b) = tickReads a ++ tickReads b := by
  induction a with
  | nil => rfl
  | cons x xs ih => cases x <;> simp [tickReads, ih]

theorem findLastTrace_proj2 (l : CPtrList) :
    shutdowns (findLastTrace l) = [] ∧ tickReads (findLastTrace l) = [] ∧
    submitted (findLastTrace l) = [] := by
  unfold findLastTrace
  induction l with
  | nil => simp [shutdowns, tickReads, submitted]
  | cons x xs ih =>
    simp only [List.map_cons, shutdowns, tickReads, submitted] at ih ⊢
    exact ih

theorem appendEvent_list {σ : Type} (s : State σ) (ev : TPortStatusEvent)
    (hnd : (s.m_EventList.map TPtrListElement.pElement).Nodup) :
    (appendEvent ev s).m_EventList = s.m_EventList ++ [⟨s.nAllocated + 1, ev⟩] := by
  simp only [appendEvent]
  exact InsertAfter_findLast _ _ _ hnd

theorem appendEvent_trace {σ : Type} (s : State σ) (ev : TPortStatusEvent) :
    (appendEvent ev s).trace = s.trace ++ ([Action.Acquire] ++ findLastTrace s.m_EventList ++
      [Action.InsertAfter (findLast s.m_EventList 0) (s.nAllocated + 1), Action.Release]) := by
  simp [appendEvent, List.append_assoc]

theorem getElem?_append_singleton_lt {α : Type} (l : List α) (x : α) (i : Nat)
    (hi : i < l.length) : (l ++ [x])[i]? = l[i]? := by
  rw [List.getElem?_append_left hi]

theorem updateLoop_step {σ : Type} (E : Collaborators σ) (n : Nat) (pre post : CPtrList)
    (c : TPtrListElement) (b : Bool) (s : State σ) (bh : Bool) (s2 : State σ)
    (hwf : WF s) (hl : s.m_EventList = pre ++ c :: post)
    (hd : dispatch E c.pPtr ((s.log (Action.GetPtr c.pElement)).log Action.Release)
      = .ok (bh, s2)) :
    ∃ (new : CPtrList) (tr1 : List Action) (s3 : State σ),
      updateLoop E (n + 1) c.pElement b s =
        updateLoop E n (CPtrList.GetFirst (post ++ new)) (b || bh) s3 ∧
      WF s3 ∧
      s3.m_EventList = (if bh = true then pre else pre ++ [c]) ++ (post ++ new) ∧
      s2.trace = s.trace ++ ([Action.GetPtr c.pElement, Action.Release] ++ tr1) ∧
      s3.trace = s2.trace ++ ([Action.Acquire, Action.GetNext c.pElement] ++
        (if bh = true then [Action.Remove c.pElement] else [])) ∧
      s3.world = s2.world ∧ s3.nAllocated = s2.nAllocated ∧
      s3.s_bPlugAndPlay = s.s_bPlugAndPlay ∧ s3.m_bFirstUpdateCall = s.m_bFirstUpdateCall ∧
      Extends ((s.log (Action.GetPtr c.pElement)).log Action.Release) s2 new tr1 := by
  have hc0 : c.pElement ≠ 0 := by
    have := (hwf.2.1 c (by rw [hl]; simp)).1
    omega
  have hnd := hwf.1
  rw [hl, List.map_append, List.map_cons, List.nodup_append] at hnd
  have hnot : c.pElement ∉ pre.map TPtrListElement.pElement := by
    intro hm
    exact hnd.2.2 hm (by simp)
  have hget : CPtrList.GetPtr s.m_EventList c.pElement = some c.pPtr := by
    rw [hl]; exact GetPtr_append_cons pre post c hnot
  have hwf0 : WF ((s.log (Action.GetPtr c.pElement)).log Action.Release) := hwf
  obtain ⟨⟨new, tr1, hext⟩, _⟩ := dispatch_Extends E _ _ _ _ hwf0 hd
  have hwf2 := WF_of_Extends hwf0 hext
  have hext0 := hext
  obtain ⟨x1, x2, x3, x4, x5, x6, x7, x8, x9, x10⟩ := hext
  have hl2 : s2.m_EventList = pre ++ c :: (post ++ new) := by
    rw [x1]; simp [State.log, hl]
  have hnext : CPtrList.GetNext s2.m_EventList c.pElement = CPtrList.GetFirst (post ++ new) := by
    rw [hl2]; exact GetNext_append_cons pre _ c hnot
  have hrem : CPtrList.Remove s2.m_EventList c.pElement = pre ++ (post ++ new) := by
    rw [hl2]; exact Remove_append_cons pre _ c hnot
  have htr : s2.trace = s.trace ++ ([Action.GetPtr c.pElement, Action.Release] ++ tr1) := by
    rw [x4]; simp [State.log]
  cases bh with
  | true =>
    refine ⟨new, tr1, ({ (s2.log Action.Acquire).log (Action.GetNext c.pElement) with
      m_EventList := pre ++ (post ++ new) } : State σ).log (Action.Remove c.pElement),
      ?_, ?_, rfl, htr, ?_, rfl, rfl, x2, x3, hext0⟩
    · simp only [updateLoop, hc0, if_false, hget, hd]
      simp only [State.log, hnext, hrem, if_true, Bool.or_true]
    · refine WF_of_sublist _ _ hwf2 ?_ rfl
      show List.Sublist (pre ++ (post ++ new)) s2.m_EventList
      rw [hl2]
      exact List.Sublist.append (List.Sublist.refl pre) (List.sublist_cons_self c _)
    · simp [State.log, List.append_assoc]
  | false =>
    refine ⟨new, tr1, (s2.log Action.Acquire).log (Action.GetNext c.pElement),
      ?_, hwf2, ?_, htr, ?_, rfl, rfl, x2, x3, hext0⟩
    · simp only [updateLoop, hc0, if_false, hget, hd]
      simp only [State.log, hnext, Bool.or_false, Bool.false_eq_true, if_false]
    · show s2.m_EventList = _
      rw [hl2]; simp
    · simp [State.log, List.append_assoc]

theorem PortStatusChangedRootPort_assert {σ : Type} (p : Nat) (s sf : State σ) (n : Nat)
    (h : PortStatusChangedRootPort p s = .assertionFailed n sf) : n ∈ producerAssertions := by
  unfold PortStatusChangedRootPort at h
  split at h
  · injection h with h1 _; subst h1; decide
  · split at h
    · injection h with h1 _; subst h1; decide
    · cases h

theorem PortStatusChangedHub_assert {σ : Type} (p : Nat) (s sf : State σ) (n : Nat)
    (h : PortStatusChangedHub p s = .assertionFailed n sf) : n ∈ producerAssertions := by
  unfold PortStatusChangedHub at h
  split at h
  · injection h with h1 _; subst h1; decide
  · split at h
    · injection h with h1 _; subst h1; decide
    · cases h

theorem RemoveDevice_assert {σ : Type} (E : Collaborators σ) (d : Nat) (s sf : State σ)
    (n : Nat) (h : RemoveDevice E d s = .assertionFailed n sf) : n ∈ producerAssertions := by
  unfold RemoveDevice at h
  split at h
  · injection h with h1 _; subst h1; decide
  · split at h
    · cases h
    · simp only at h
      split at h <;> cases h

theorem runCalls_assert {σ : Type} (E : Collaborators σ) (cs : List Call) (s sf : State σ)
    (n : Nat) (h : runCalls E cs s = .assertionFailed n sf) : n ∈ producerAssertions := by
  induction cs generalizing s with
  | nil => simp only [runCalls] at h; cases h
  | cons c cs ih =>
    simp only [runCalls] at h
    split at h
    · exact ih _ h
    · rename_i n2 sf2 hc
      injection h with h1 h2
      subst h1
      cases c with
      | PortStatusChangedRootPort p => exact PortStatusChangedRootPort_assert p s _ _ hc
      | PortStatusChangedHub p => exact PortStatusChangedHub_assert p s _ _ hc
      | RemoveDevice p => exact RemoveDevice_assert E p s _ _ hc
    · cases h

theorem dispatch_assert {σ : Type} (E : Collaborators σ) (ev : TPortStatusEvent)
    (s sf : State σ) (n : Nat) (hev : ev.ref ≠ 0)
    (h : dispatch E ev s = .assertionFailed n sf) : n ∈ producerAssertions := by
  cases ev with
  | PortStatusEventFromRootPort p =>
    have hp : p ≠ 0 := hev
    simp only [dispatch, hp, if_false] at h
    split at h
    · cases h
    · rename_i n2 sf2 hr
      injection h with h1 _
      subst h1
      exact runCalls_assert E _ _ _ _ hr
    · cases h
  | PortStatusEventFromHub p =>
    have hp : p ≠ 0 := hev
    simp only [dispatch, hp, if_false] at h
    split at h
    · cases h
    · rename_i n2 sf2 hr
      injection h with h1 _
      subst h1
      exact runCalls_assert E _ _ _ _ hr
    · cases h
  | PortStatusEventDeviceRemoved d t0 =>
    have hp : d ≠ 0 := hev
    simp only [dispatch, hp, if_false] at h
    split at h
    · cases h
    · split at h <;> cases h

theorem updateLoop_assert {σ : Type} (E : Collaborators σ) (fuel : Nat) :
    ∀ (pre todo : CPtrList) (b : Bool) (s sf : State σ) (n : Nat),
    WF s → s.m_EventList = pre ++ todo →
    updateLoop E fuel (CPtrList.GetFirst todo) b s = .assertionFailed n sf →
    n ∈ producerAssertions := by
  induction fuel with
  | zero =>
    intro pre todo b s sf n hwf hl h
    simp only [updateLoop] at h
    split at h <;> cases h
  | succ k ih =>
    intro pre todo b s sf n hwf hl h
    cases todo with
    | nil => simp [updateLoop, CPtrList.GetFirst] at h
    | cons c post =>
      have hfirst : CPtrList.GetFirst (c :: post) = c.pElement := rfl
      rw [hfirst] at h
      have href : c.pPtr.ref ≠ 0 := hwf.2.2 c (by rw [hl]; simp)
      cases hd : dispatch E c.pPtr ((s.log (Action.GetPtr c.pElement)).log Action.Release) with
      | assertionFailed n2 sf2 =>
        have hc0 : c.pElement ≠ 0 := by
          have := (hwf.2.1 c (by rw [hl]; simp)).1
          omega
        have hnd := hwf.1
        rw [hl, List.map_append, List.map_cons, List.nodup_append] at hnd
        have hnot : c.pElement ∉ pre.map TPtrListElement.pElement := by
          intro hm
          exact hnd.2.2 hm (by simp)
        have hget : CPtrList.GetPtr s.m_EventList c.pElement = some c.pPtr := by
          rw [hl]; exact GetPtr_append_cons pre post c hnot
        simp only [updateLoop, hc0, if_false, hget, hd] at h
        injection h with h1 _
        subst h1
        exact dispatch_assert E _ _ _ _ href hd
      | outOfFuel =>
        have hc0 : c.pElement ≠ 0 := by
          have := (hwf.2.1 c (by rw [hl]; simp)).1
          omega
        have hnd := hwf.1
        rw [hl, List.map_append, List.map_cons, List.nodup_append] at hnd
        have hnot : c.pElement ∉ pre.map TPtrListElement.pElement := by
          intro hm
          exact hnd.2.2 hm (by simp)
        have hget : CPtrList.GetPtr s.m_EventList c.pElement = some c.pPtr := by
          rw [hl]; exact GetPtr_append_cons pre post c hnot
        simp only [updateLoop, hc0, if_false, hget, hd] at h
        cases h
      | ok r =>
        obtain ⟨bh, s2⟩ := r
        obtain ⟨new, tr1, s3, e1, e2, e3, _⟩ :=
          updateLoop_step E k pre post c b s bh s2 hwf hl hd
        rw [e1] at h
        exact ih _ _ _ _ _ _ e2 e3 h

theorem UpdatePlugAndPlay_assert {σ : Type} (E : Collaborators σ) (fuel : Nat)
    (s sf : State σ) (n : Nat) (hwf : WF s)
    (h : UpdatePlugAndPlay E fuel s = .assertionFailed n sf) :
    n = 151 ∨ n ∈ producerAssertions := by
  unfold UpdatePlugAndPlay at h
  split at h
  · injection h with h1 _
    left; exact h1.symm
  · simp only at h
    split at h
    · cases h
    · rename_i n2 sf2 hloop
      injection h with h1 _
      subst h1
      right
      have hwf1 : WF (({ s with m_bFirstUpdateCall := false }.log Action.Acquire).log
          Action.GetFirst) := hwf
      exact updateLoop_assert E fuel [] _ _ _ _ _ hwf1 rfl hloop
    · cases h

theorem WF_new {σ : Type} (bPlugAndPlay : Bool) (w : σ) :
    WF (CUSBHostController bPlugAndPlay w) := by
  simp [WF, CUSBHostController]

theorem runOperation_WF {σ : Type} (E : Collaborators σ) (op : Operation σ) (s s1 : State σ)
    (hwf : WF s) (h : runOperation E op s = .ok s1) : WF s1 := by
  cases op with
  | PortStatusChangedRootPort p =>
    obtain ⟨_, _, e⟩ := PortStatusChangedRootPort_Extends p s s1 hwf h
    exact WF_of_Extends hwf e
  | PortStatusChangedHub p =>
    obtain ⟨_, _, e⟩ := PortStatusChangedHub_Extends p s s1 hwf h
    exact WF_of_Extends hwf e
  | RemoveDevice d =>
    obtain ⟨_, _, e⟩ := RemoveDevice_Extends E d s s1 hwf h
    exact WF_of_Extends hwf e
  | UpdatePlugAndPlay fuel =>
    simp only [runOperation] at h
    split at h
    · rename_i b s2 hu
      injection h with h
      subst h
      exact (UpdatePlugAndPlay_reentrant E fuel s b _ hwf hu).2.2.2.2.1
    · cases h
    · cases h
  | environment f =>
    simp only [runOperation] at h
    injection h with h
    subst h
    exact hwf

theorem runOperation_assert {σ : Type} (E : Collaborators σ) (op : Operation σ)
    (s sf : State σ) (n : Nat) (hwf : WF s) (h : runOperation E op s = .assertionFailed n sf) :
    n = 151 ∨ n ∈ producerAssertions := by
  cases op with
  | PortStatusChangedRootPort p => right; exact PortStatusChangedRootPort_assert p s sf n h
  | PortStatusChangedHub p => right; exact PortStatusChangedHub_assert p s sf n h
  | RemoveDevice d => right; exact RemoveDevice_assert E d s sf n h
  | UpdatePlugAndPlay fuel =>
    simp only [runOperation] at h
    split at h
    · cases h
    · rename_i n2 sf2 hu
      injection h with h1 _
      subst h1
      exact UpdatePlugAndPlay_assert E fuel s _ _ hwf hu
    · cases h
  | environment f => simp only [runOperation] at h; cases h

theorem runOperations_WF {σ : Type} (E : Collaborators σ) (ops : List (Operation σ)) :
    ∀ (s s1 : State σ), WF s → runOperations E ops s = .ok s1 → WF s1 := by
  induction ops with
  | nil =>
    intro s s1 hwf h
    simp only [runOperations] at h
    injection h with h
    subst h
    exact hwf
  | cons op ops ih =>
    intro s s1 hwf h
    simp only [runOperations] at h
    split at h
    · rename_i s2 h2
      exact ih _ _ (runOperation_WF E op s s2 hwf h2) h
    · cases h
    · cases h

theorem runOperations_assert {σ : Type} (E : Collaborators σ) (ops : List (Operation σ)) :
    ∀ (s sf : State σ) (n : Nat), WF s → runOperations E ops s = .assertionFailed n sf →
      n = 151 ∨ n ∈ producerAssertions := by
  induction ops with
  | nil => intro s sf n _ h; simp only [runOperations] at h; cases h
  | cons op ops ih =>
    intro s sf n hwf h
    simp only [runOperations] at h
    split at h
    · rename_i s2 h2
      exact ih _ _ _ (runOperation_WF E op s s2 hwf h2) h
    · rename_i n2 sf2 h2
      injection h with h1 _
      subst h1
      exact runOperation_assert E op s _ _ hwf h2
    · cases h

theorem lockRun_append (a b : List Action) :
    ∀ h : Bool, lockRun h (a ++ b) = (lockRun h a).bind (fun h1 => lockRun h1 b) := by
  induction a with
  | nil => intro h; simp [lockRun]
  | cons x xs ih =>
    intro h
    cases x <;> cases h <;> simp [lockRun, ih]

theorem lockRun_findLastTrace (l : CPtrList) : lockRun true (findLastTrace l) = some true := by
  unfold findLastTrace
  have : ∀ l : CPtrList,
      lockRun true (l.map (fun e => Action.GetNext e.pElement)) = some true := by
    intro l
    induction l with
    | nil => rfl
    | cons x xs ih => simpa [lockRun] using ih
  simpa [lockRun] using this l

theorem lockRun_producer (l : CPtrList) (a b : Nat) :
    lockRun false ([Action.Acquire] ++ findLastTrace l ++
      [Action.InsertAfter a b, Action.Release]) = some false := by
  have h1 : lockRun false ([Action.Acquire] ++ findLastTrace l ++
      [Action.InsertAfter a b, Action.Release]) =
      lockRun true (findLastTrace l ++ [Action.InsertAfter a b, Action.Release]) := rfl
  rw [h1, lockRun_append, lockRun_findLastTrace]
  rfl

theorem LockStep_refl {σ : Type} (h : Bool) (s : State σ) : LockStep h h s s :=
  ⟨[], by simp, rfl⟩

theorem LockStep_trans {σ : Type} {h0 h1 h2 : Bool} {s s1 s2 : State σ}
    (a : LockStep h0 h1 s s1) (b : LockStep h1 h2 s1 s2) : LockStep h0 h2 s s2 := by
  obtain ⟨t1, a1, a2⟩ := a
  obtain ⟨t2, b1, b2⟩ := b
  refine ⟨t1 ++ t2, by rw [b1, a1, List.append_assoc], ?_⟩
  rw [lockRun_append, a2]
  simpa using b2

theorem LockStep_of_trace {σ : Type} (h0 h1 : Bool) (s s1 : State σ) (tr : List Action)
    (ht : s1.trace = s.trace ++ tr) (hl : lockRun h0 tr = some h1) : LockStep h0 h1 s s1 :=
  ⟨tr, ht, hl⟩

theorem appendEvent_LockStep {σ : Type} (s : State σ) (ev : TPortStatusEvent) :
    LockStep false false s (appendEvent ev s) :=
  ⟨_, appendEvent_trace s ev, lockRun_producer _ _ _⟩

theorem deleteDevice_LockStep {σ : Type} (E : Collaborators σ) (d : Nat) (s : State σ) :
    LockStep false false s (deleteDevice E d s) :=
  ⟨[Action.DeleteDevice d], rfl, rfl⟩

theorem callShutdownDevice_LockStep {σ : Type} (E : Collaborators σ) (d : Nat) (s : State σ) :
    LockStep false false s (callShutdownDevice E d s).2 :=
  ⟨[Action.ShutdownDevice d (E.ShutdownDevice d s.world).1], rfl, rfl⟩

theorem callGetTicks_LockStep {σ : Type} (E : Collaborators σ) (h : Bool) (s : State σ) :
    LockStep h h s (callGetTicks E s).2 :=
  ⟨[Action.GetTicks (E.GetTicks s.world % U32)], rfl, by cases h <;> rfl⟩

theorem PortStatusChangedRootPort_LockStep {σ : Type} (p : Nat) (s s1 : State σ)
    (h : PortStatusChangedRootPort p s = .ok s1) : LockStep false false s s1 := by
  unfold PortStatusChangedRootPort at h
  split at h
  · cases h
  · split at h
    · cases h
    · injection h with h; subst h; exact appendEvent_LockStep s _

theorem PortStatusChangedHub_LockStep {σ : Type} (p : Nat) (s s1 : State σ)
    (h : PortStatusChangedHub p s = .ok s1) : LockStep false false s s1 := by
  unfold PortStatusChangedHub at h
  split at h
  · cases h
  · split at h
    · cases h
    · injection h with h; subst h; exact appendEvent_LockStep s _

theorem RemoveDevice_LockStep {σ : Type} (E : Collaborators σ) (d : Nat) (s s1 : State σ)
    (h : RemoveDevice E d s = .ok s1) : LockStep false false s s1 := by
  unfold RemoveDevice at h
  split at h
  · cases h
  · split at h
    · injection h with h; subst h; exact deleteDevice_LockStep E d s
    · simp only at h
      split at h
      · injection h with h; subst h
        exact LockStep_trans (callShutdownDevice_LockStep E d s) (deleteDevice_LockStep E d _)
      · injection h with h; subst h
        exact LockStep_trans (LockStep_trans (callShutdownDevice_LockStep E d s)
          (callGetTicks_LockStep E false _)) (appendEvent_LockStep _ _)

theorem runCalls_LockStep {σ : Type} (E : Collaborators σ) (cs : List Call) (s s1 : State σ)
    (h : runCalls E cs s = .ok s1) : LockStep false false s s1 := by
  induction cs generalizing s with
  | nil =>
    simp only [runCalls] at h
    injection h with h; subst h
    exact LockStep_refl false s
  | cons c cs ih =>
    simp only [runCalls] at h
    split at h
    · rename_i s2 hc
      have h2 : LockStep false false s s2 := by
        cases c with
        | PortStatusChangedRootPort p => exact PortStatusChangedRootPort_LockStep p s s2 hc
        | PortStatusChangedHub p => exact PortStatusChangedHub_LockStep p s s2 hc
        | RemoveDevice p => exact RemoveDevice_LockStep E p s s2 hc
      exact LockStep_trans h2 (ih s2 h)
    · cases h
    · cases h

theorem dispatch_LockStep {σ : Type} (E : Collaborators σ) (ev : TPortStatusEvent)
    (s s1 : State σ) (b : Bool) (h : dispatch E ev s = .ok (b, s1)) :
    LockStep false false s s1 := by
  cases ev with
  | PortStatusEventFromRootPort p =>
    simp only [dispatch] at h
    split at h
    · cases h
    · split at h
      · rename_i s2 hr
        injection h with h
        injection h with hb hs
        subst hs
        have e1 : LockStep false false s
            ({ s with world := (E.RootPortHandlePortStatusChange p s.world).1 }.log
              (Action.RootPortHandlePortStatusChange p)) :=
          ⟨[Action.RootPortHandlePortStatusChange p], rfl, rfl⟩
        exact LockStep_trans e1 (runCalls_LockStep E _ _ _ hr)
      · cases h
      · cases h
  | PortStatusEventFromHub p =>
    simp only [dispatch] at h
    split at h
    · cases h
    · split at h
      · rename_i s2 hr
        injection h with h
        injection h with hb hs
        subst hs
        have e1 : LockStep false false s
            ({ s with world := (E.HubHandlePortStatusChange p s.world).1 }.log
              (Action.HubHandlePortStatusChange p)) :=
          ⟨[Action.HubHandlePortStatusChange p], rfl, rfl⟩
        exact LockStep_trans e1 (runCalls_LockStep E _ _ _ hr)
      · cases h
      · cases h
  | PortStatusEventDeviceRemoved d t0 =>
    simp only [dispatch] at h
    split at h
    · cases h
    · split at h
      · injection h with h
        injection h with hb hs
        subst hs
        exact LockStep_trans (callShutdownDevice_LockStep E d s) (deleteDevice_LockStep E d _)
      · have e12 := LockStep_trans (callShutdownDevice_LockStep E d s)
          (callGetTicks_LockStep E false (callShutdownDevice E d s).2)
        split at h
        · injection h with h
          injection h with hb hs
          subst hs
          exact LockStep_trans e12 (deleteDevice_LockStep E d _)
        · injection h with h
          injection h with hb hs
          subst hs
          exact e12

theorem updateLoop_LockStep {σ : Type} (E : Collaborators σ) (fuel : Nat) :
    ∀ (p : Nat) (b : Bool) (s : State σ) (b1 : Bool) (s1 : State σ),
    updateLoop E fuel p b s = .ok (b1, s1) → LockStep true true s s1 := by
  induction fuel with
  | zero =>
    intro p b s b1 s1 h
    simp only [updateLoop] at h
    split at h
    · injection h with h
      injection h with _ hs
      subst hs
      exact LockStep_refl true s
    · cases h
  | succ n ih =>
    intro p b s b1 s1 h
    simp only [updateLoop] at h
    split at h
    · injection h with h
      injection h with _ hs
      subst hs
      exact LockStep_refl true s
    · split at h
      · cases h
      · rename_i ev hget
        split at h
        · cases h
        · cases h
        · rename_i bh s2 hd
          have e0 : LockStep true false s
              ((s.log (Action.GetPtr p)).log Action.Release) :=
            ⟨[Action.GetPtr p, Action.Release], by simp [State.log], rfl⟩
          have e1 := dispatch_LockStep E _ _ _ _ hd
          split at h
          · have e2 : LockStep false true s2
                (({ (s2.log Action.Acquire).log (Action.GetNext p) with
                  m_EventList := CPtrList.Remove
                    ((s2.log Action.Acquire).log (Action.GetNext p)).m_EventList p } :
                  State σ).log (Action.Remove p)) :=
              ⟨[Action.Acquire, Action.GetNext p, Action.Remove p], by simp [State.log], rfl⟩
            exact LockStep_trans (LockStep_trans (LockStep_trans e0 e1) e2) (ih _ _ _ _ _ h)
          · have e2 : LockStep false true s2
                ((s2.log Action.Acquire).log (Action.GetNext p)) :=
              ⟨[Action.Acquire, Action.GetNext p], by simp [State.log], rfl⟩
            exact LockStep_trans (LockStep_trans (LockStep_trans e0 e1) e2) (ih _ _ _ _ _ h)

theorem UpdatePlugAndPlay_LockStep {σ : Type} (E : Collaborators σ) (fuel : Nat)
    (s : State σ) (b : Bool) (s1 : State σ) (h : UpdatePlugAndPlay E fuel s = .ok (b, s1)) :
    LockStep false false s s1 := by
  unfold UpdatePlugAndPlay at h
  split at h
  · cases h
  · simp only at h
    split at h
    · rename_i b2 s2 hloop
      injection h with h
      injection h with _ hs
      subst hs
      have e0 : LockStep false true s
          (({ s with m_bFirstUpdateCall := false }.log Action.Acquire).log Action.GetFirst) :=
        ⟨[Action.Acquire, Action.GetFirst], by simp [State.log], rfl⟩
      have e2 : LockStep true false s2 (s2.log Action.Release) :=
        ⟨[Action.Release], rfl, rfl⟩
      exact LockStep_trans (LockStep_trans e0 (updateLoop_LockStep E fuel _ _ _ _ _ hloop)) e2
    · cases h
    · cases h

theorem updateLoop_quiet_outOfFuel {σ : Type} (E : Collaborators σ) (hq : NoEnqueue E)
    (todo : CPtrList) :
    ∀ (pre : CPtrList) (fuel : Nat) (b : Bool) (s : State σ),
    WF s → s.m_EventList = pre ++ todo → fuel < todo.length →
    updateLoop E fuel (CPtrList.GetFirst todo) b s = .outOfFuel := by
  induction todo with
  | nil => intro pre fuel b s _ _ hf; simp at hf
  | cons c post ih =>
    intro pre fuel b s hwf hl hf
    have hc0 : c.pElement ≠ 0 := by
      have := (hwf.2.1 c (by rw [hl]; simp)).1
      omega
    have hfirst : CPtrList.GetFirst (c :: post) = c.pElement := rfl
    rw [hfirst]
    cases fuel with
    | zero => simp [updateLoop, hc0]
    | succ n =>
      have href : c.pPtr.ref ≠ 0 := hwf.2.2 c (by rw [hl]; simp)
      have hnd := hwf.1
      rw [hl, List.map_append, List.map_cons, List.nodup_append] at hnd
      have hnot : c.pElement ∉ pre.map TPtrListElement.pElement := by
        intro hm
        exact hnd.2.2 hm (by simp)
      have hget := GetPtr_append_cons pre post c hnot
      have hnext := GetNext_append_cons pre post c hnot
      have hrem := Remove_append_cons pre post c hnot
      obtain ⟨pnp, first, l, na, w, tr⟩ := s
      simp only at hl
      subst hl
      have hd := dispatch_quiet E hq c.pPtr
        ⟨pnp, first, pre ++ c :: post, na, w, tr ++ [Action.GetPtr c.pElement] ++ [Action.Release]⟩
        href
      simp only [updateLoop, hc0, if_false, hget, State.log, hd, hnext, hrem]
      have hlen : n < post.length := by simpa using hf
      by_cases hj : judgedHandled E w c.pPtr = true
      · simp only [hj, if_true]
        have hwf1 : WF (⟨pnp, first, pre ++ post, na, worldAfterDispatch E w c.pPtr,
            tr ++ [Action.GetPtr c.pElement] ++ [Action.Release] ++ dispatchTrace E w c.pPtr ++
              [Action.Acquire] ++ [Action.GetNext c.pElement] ++ [Action.Remove c.pElement]⟩ :
            State σ) :=
          WF_of_sublist _ _ hwf
            (List.Sublist.append (List.Sublist.refl pre) (List.sublist_cons_self c post)) rfl
        exact ih pre n true _ hwf1 rfl hlen
      · simp only [hj, if_false]
        have hwf1 : WF (⟨pnp, first, pre ++ c :: post, na, worldAfterDispatch E w c.pPtr,
            tr ++ [Action.GetPtr c.pElement] ++ [Action.Release] ++ dispatchTrace E w c.pPtr ++
              [Action.Acquire] ++ [Action.GetNext c.pElement]⟩ : State σ) :=
          WF_of_sublist _ _ hwf (List.Sublist.refl _) rfl
        exact ih (pre ++ [c]) n b _ hwf1 (by simp) hlen

theorem UpdatePlugAndPlay_quiet_outOfFuel {σ : Type} (E : Collaborators σ) (hq : NoEnqueue E)
    (fuel : Nat) (s : State σ) (hpnp : s.s_bPlugAndPlay = true) (hwf : WF s)
    (hfuel : fuel < s.m_EventList.length) :
    UpdatePlugAndPlay E fuel s = .outOfFuel := by
  obtain ⟨pnp, first, l, na, w, tr⟩ := s
  simp only at hpnp hfuel
  subst hpnp
  have hwf1 : WF (⟨true, false, l, na, w, tr ++ [Action.Acquire] ++ [Action.GetFirst]⟩ :
      State σ) := hwf
  have h := updateLoop_quiet_outOfFuel E hq l [] fuel first _ hwf1 rfl hfuel
  simp only [UpdatePlugAndPlay, State.log, h]
  simp

theorem dispatched_dispatchTrace {σ : Type} (E : Collaborators σ) (w : σ)
    (ev : TPortStatusEvent) : dispatched (dispatchTrace E w ev) = [] := by
  cases ev with
  | PortStatusEventFromRootPort p => rfl
  | PortStatusEventFromHub p => rfl
  | PortStatusEventDeviceRemoved d t0 =>
    simp only [dispatchTrace]
    split
    · rfl
    · split <;> rfl

theorem dispatched_passTrace {σ : Type} (E : Collaborators σ) (l : CPtrList) :
    ∀ w : σ, dispatched (passTrace E w l) = l.map TPtrListElement.pElement := by
  induction l with
  | nil => intro w; rfl
  | cons e rest ih =>
    intro w
    simp only [passTrace]
    have d1 : dispatched [Action.GetPtr e.pElement, Action.Release] = [e.pElement] := rfl
    have d2 : dispatched [Action.Acquire, Action.GetNext e.pElement] = [] := rfl
    have d3 : dispatched (if judgedHandled E w e.pPtr = true then [Action.Remove e.pElement]
        else []) = [] := by
      split <;> rfl
    rw [dispatched_append, dispatched_append, dispatched_append, dispatched_append, d1, d2, d3,
      dispatched_dispatchTrace, ih]
    simp

theorem UpdatePlugAndPlay_quiet_trace {σ : Type} (E : Collaborators σ) (hq : NoEnqueue E)
    (fuel : Nat) (s : State σ) (hpnp : s.s_bPlugAndPlay = true) (hwf : WF s)
    (hfuel : s.m_EventList.length ≤ fuel) :
    ∃ b s1, UpdatePlugAndPlay E fuel s = .ok (b, s1) ∧
      s1.m_EventList = remaining E s.world s.m_EventList ∧
      s1.world = worldAfterPass E s.world s.m_EventList ∧
      s1.nAllocated = s.nAllocated ∧
      traceSince s s1 = [Action.Acquire, Action.GetFirst] ++
        passTrace E s.world s.m_EventList ++ [Action.Release] :=
  ⟨_, _, UpdatePlugAndPlay_quiet E hq fuel s hpnp hwf hfuel, rfl, rfl, rfl,
    traceSince_append _ _ _ rfl⟩

theorem queuedDevices_append (a b : CPtrList) :
    queuedDevices (a ++ b) = queuedDevices a ++ queuedDevices b := by
  induction a with
  | nil => rfl
  | cons x xs ih =>
    simp only [List.cons_append, queuedDevices]
    split <;> simp [ih]

theorem mem_queuedDevices (l : CPtrList) (d : Nat) :
    d ∈ queuedDevices l ↔ ∃ e ∈ l, ∃ t0, e.pPtr = .PortStatusEventDeviceRemoved d t0 := by
  induction l with
  | nil => simp [queuedDevices]
  | cons x xs ih =>
    simp only [queuedDevices]
    cases hx : x.pPtr with
    | PortStatusEventFromRootPort p => simp [ih, hx]
    | PortStatusEventFromHub p => simp [ih, hx]
    | PortStatusEventDeviceRemoved d2 t2 =>
      simp only [List.mem_cons, ih, exists_eq_or_imp, hx,
        TPortStatusEvent.PortStatusEventDeviceRemoved.injEq]
      constructor
      · rintro (h | h)
        · exact Or.inl ⟨t2, h.symm, rfl⟩
        · exact Or.inr h
      · rintro (⟨t, h1, _⟩ | h)
        · exact Or.inl h1.symm
        · exact Or.inr h

theorem destroyed_passTrace_subset {σ : Type} (E : Collaborators σ) (l : CPtrList) :
    ∀ (w : σ), ∀ x ∈ destroyed (passTrace E w l), x ∈ queuedDevices l := by
  induction l with
  | nil => intro w x hx; simp [passTrace, destroyed] at hx
  | cons e rest ih =>
    intro w x hx
    rw [destroyed_passTrace_cons, destroyed_dispatchTrace] at hx
    rcases List.mem_append.1 hx with h | h
    · split at h
      · rename_i hc
        have hx2 : x = e.pPtr.ref := by simpa using h
        cases he : e.pPtr with
        | PortStatusEventFromRootPort p =>
          rw [he] at hc; simp [TPortStatusEvent.isDeviceRemoved] at hc
        | PortStatusEventFromHub p =>
          rw [he] at hc; simp [TPortStatusEvent.isDeviceRemoved] at hc
        | PortStatusEventDeviceRemoved d t0 =>
          simp [queuedDevices, he, hx2, TPortStatusEvent.ref]
      · simp at h
    · have := ih _ x h
      simp only [queuedDevices]
      split
      · exact List.mem_cons_of_mem _ this
      · exact this

theorem destroyed_passTrace_perm {σ : Type} (E : Collaborators σ) (l : CPtrList) :
    ∀ (w : σ), List.Perm (destroyed (passTrace E w l) ++ queuedDevices (remaining E w l))
      (queuedDevices l) := by
  induction l with
  | nil => intro w; simp [passTrace, destroyed, remaining, queuedDevices]
  | cons e rest ih =>
    intro w
    have ih1 := ih (worldAfterDispatch E w e.pPtr)
    rw [destroyed_passTrace_cons, destroyed_dispatchTrace]
    simp only [remaining]
    cases he : e.pPtr with
    | PortStatusEventFromRootPort p =>
      simp only [he] at ih1
      simp [judgedHandled, TPortStatusEvent.isDeviceRemoved, queuedDevices, he, ih1]
    | PortStatusEventFromHub p =>
      simp only [he] at ih1
      simp [judgedHandled, TPortStatusEvent.isDeviceRemoved, queuedDevices, he, ih1]
    | PortStatusEventDeviceRemoved d t0 =>
      simp only [he] at ih1
      by_cases hj : judgedHandled E w (.PortStatusEventDeviceRemoved d t0) = true
      · simp only [hj, TPortStatusEvent.isDeviceRemoved, TPortStatusEvent.ref, and_self,
          if_true, queuedDevices, he, List.singleton_append, List.cons_append]
        exact List.Perm.cons d ih1
      · simp only [hj, TPortStatusEvent.isDeviceRemoved, and_false, if_false, queuedDevices, he,
          List.nil_append]
        exact List.Perm.trans List.perm_middle (List.Perm.cons d ih1)

theorem remaining_iff_not_destroyed {σ : Type} (E : Collaborators σ) (d t0 : Nat)
    (l : CPtrList) :
    ∀ (w : σ), (queuedDevices l).Nodup →
      ∀ e ∈ l, e.pPtr = .PortStatusEventDeviceRemoved d t0 →
        (e ∈ remaining E w l ↔ d ∉ destroyed (passTrace E w l)) := by
  induction l with
  | nil => intro w _ e he; simp at he
  | cons x rest ih =>
    intro w hnd e he hed
    have hsub := destroyed_passTrace_subset E rest (worldAfterDispatch E w x.pPtr)
    have hrs := remaining_sublist E rest (worldAfterDispatch E w x.pPtr)
    rw [destroyed_passTrace_cons, destroyed_dispatchTrace]
    simp only [remaining]
    by_cases hex : e = x
    · subst hex
      have hq : queuedDevices (e :: rest) = d :: queuedDevices rest := by
        simp [queuedDevices, hed]
      rw [hq, List.nodup_cons] at hnd
      have hnr : e ∉ rest := by
        intro hm
        exact hnd.1 ((mem_queuedDevices rest d).2 ⟨e, hm, t0, hed⟩)
      have hnd2 : d ∉ destroyed (passTrace E (worldAfterDispatch E w e.pPtr) rest) :=
        fun h => hnd.1 (hsub d h)
      by_cases hj : judgedHandled E w e.pPtr = true
      · have hnrem : e ∉ remaining E (worldAfterDispatch E w e.pPtr) rest :=
          fun h => hnr (hrs.subset h)
        simp only [hj, if_true, and_true]
        constructor
        · intro h; exact absurd h hnrem
        · intro h
          exfalso
          apply h
          rw [hed]
          simp [TPortStatusEvent.isDeviceRemoved, TPortStatusEvent.ref]
      · have hjf : judgedHandled E w e.pPtr = false := by simpa using hj
        simp only [hjf, Bool.false_eq_true, if_false, and_false, List.nil_append, List.mem_cons,
          true_or, true_iff]
        exact hnd2
    · have her : e ∈ rest := by
        rcases List.mem_cons.1 he with h | h
        · exact absurd h hex
        · exact h
      have hdr : d ∈ queuedDevices rest := (mem_queuedDevices rest d).2 ⟨e, her, t0, hed⟩
      have hnd' : (queuedDevices rest).Nodup := by
        simp only [queuedDevices] at hnd
        split at hnd
        · exact (List.nodup_cons.1 hnd).2
        · exact hnd
      have hxd : ¬ (x.pPtr.isDeviceRemoved = true ∧ x.pPtr.ref = d) := by
        rintro ⟨h1, h2⟩
        cases hx : x.pPtr with
        | PortStatusEventFromRootPort p =>
          rw [hx] at h1; simp [TPortStatusEvent.isDeviceRemoved] at h1
        | PortStatusEventFromHub p =>
          rw [hx] at h1; simp [TPortStatusEvent.isDeviceRemoved] at h1
        | PortStatusEventDeviceRemoved d2 t2 =>
          rw [hx] at h2
          have h3 : d2 = d := h2
          subst h3
          simp only [queuedDevices, hx, List.nodup_cons] at hnd
          exact hnd.1 hdr
      have ih1 := ih (worldAfterDispatch E w x.pPtr) hnd' e her hed
      have hmem : (e ∈ (if judgedHandled E w x.pPtr = true
          then remaining E (worldAfterDispatch E w x.pPtr) rest
          else x :: remaining E (worldAfterDispatch E w x.pPtr) rest)) ↔
          e ∈ remaining E (worldAfterDispatch E w x.pPtr) rest := by
        split
        · exact Iff.rfl
        · simp [hex]
      have hdd : d ∉ (if x.pPtr.isDeviceRemoved = true ∧ judgedHandled E w x.pPtr = true
          then [x.pPtr.ref] else []) := by
        split
        · rename_i hc
          intro h
          exact hxd ⟨hc.1, (List.mem_singleton.1 h).symm⟩
        · simp
      rw [hmem, ih1]
      simp [List.mem_append, hdd]

theorem Accounted_of_perm {σ : Type} (D : List Nat) (s s1 : State σ)
    (hp : List.Perm (destroyed s1.trace ++ queuedDevices s1.m_EventList)
      (destroyed s.trace ++ queuedDevices s.m_EventList))
    (h : Accounted D s) : Accounted D s1 :=
  ⟨hp.nodup_iff.2 h.1, fun x hx => h.2 x (hp.subset hx)⟩

theorem Accounted_add {σ : Type} (D : List Nat) (d : Nat) (s s1 : State σ)
    (hp : List.Perm (destroyed s1.trace ++ queuedDevices s1.m_EventList)
      (d :: (destroyed s.trace ++ queuedDevices s.m_EventList)))
    (hd : d ∉ D) (h : Accounted D s) : Accounted (d :: D) s1 := by
  refine ⟨hp.nodup_iff.2 (List.nodup_cons.2 ⟨fun hm => hd (h.2 d hm), h.1⟩), ?_⟩
  intro x hx
  rcases List.mem_cons.1 (hp.subset hx) with h1 | h1
  · rw [h1]; exact List.mem_cons_self _ _
  · exact List.mem_cons_of_mem _ (h.2 x h1)

theorem appendEvent_destroyed {σ : Type} (s : State σ) (ev : TPortStatusEvent) :
    destroyed (appendEvent ev s).trace = destroyed s.trace := by
  rw [appendEvent_trace, destroyed_append, destroyed_append, destroyed_append,
    (findLastTrace_proj s.m_EventList).2.2.2]
  simp [destroyed]

theorem runOperation_Accounted {σ : Type} (E : Collaborators σ) (hq : NoEnqueue E)
    (op : Operation σ) (D : List Nat) (s s1 : State σ) (hwf : WF s) (ha : Accounted D s)
    (hfresh : ∀ x ∈ removedDevices [op], x ∉ D) (h : runOperation E op s = .ok s1) :
    Accounted (removedDevices [op] ++ D) s1 := by
  cases op with
  | PortStatusChangedRootPort p =>
    simp only [runOperation, PortStatusChangedRootPort] at h
    split at h
    · cases h
    · split at h
      · cases h
      · injection h with h
        subst h
        refine Accounted_of_perm D s _ ?_ ha
        rw [appendEvent_destroyed, appendEvent_list s _ hwf.1, queuedDevices_append]
        simp [queuedDevices]
  | PortStatusChangedHub p =>
    simp only [runOperation, PortStatusChangedHub] at h
    split at h
    · cases h
    · split at h
      · cases h
      · injection h with h
        subst h
        refine Accounted_of_perm D s _ ?_ ha
        rw [appendEvent_destroyed, appendEvent_list s _ hwf.1, queuedDevices_append]
        simp [queuedDevices]
  | RemoveDevice d =>
    have hd : d ∉ D := hfresh d (by simp [removedDevices])
    show Accounted (d :: D) s1
    simp only [runOperation, RemoveDevice] at h
    split at h
    · cases h
    · split at h
      · injection h with h
        subst h
        refine Accounted_add D d s _ ?_ hd ha
        simp only [deleteDevice, destroyed_append]
        have : destroyed [Action.DeleteDevice d] = [d] := rfl
        rw [this, List.append_assoc]
        exact List.perm_middle
      · split at h
        · injection h with h
          subst h
          refine Accounted_add D d s _ ?_ hd ha
          simp only [deleteDevice, callShutdownDevice, destroyed_append]
          have e1 : destroyed [Action.DeleteDevice d] = [d] := rfl
          have e2 : ∀ r, destroyed [Action.ShutdownDevice d r] = [] := fun _ => rfl
          rw [e1, e2, List.append_nil, List.append_assoc]
          exact List.perm_middle
        · injection h with h
          subst h
          refine Accounted_add D d s _ ?_ hd ha
          rw [appendEvent_destroyed,
            appendEvent_list (callGetTicks E (callShutdownDevice E d s).2).2 _ hwf.1,
            queuedDevices_append]
          simp only [callGetTicks, callShutdownDevice, State.log, destroyed_append]
          have e2 : ∀ r, destroyed [Action.ShutdownDevice d r] = [] := fun _ => rfl
          have e3 : ∀ t, destroyed [Action.GetTicks t] = [] := fun _ => rfl
          rw [e2, e3]
          simp only [List.append_nil, queuedDevices]
          rw [← List.append_assoc]
          exact List.perm_append_singleton _ _
  | UpdatePlugAndPlay fuel =>
    show Accounted D s1
    simp only [runOperation] at h
    split at h
    · rename_i b s2 hu
      injection h with h
      subst h
      have hpnp : s.s_bPlugAndPlay = true := by
        by_contra hc
        have hf : s.s_bPlugAndPlay = false := by simpa using hc
        simp [UpdatePlugAndPlay, hf] at hu
      by_cases hfuel : s.m_EventList.length ≤ fuel
      · rw [UpdatePlugAndPlay_quiet E hq fuel s hpnp hwf hfuel] at hu
        injection hu with hu
        injection hu with _ hs
        subst hs
        refine Accounted_of_perm D s _ ?_ ha
        simp only [destroyed_append]
        have e1 : destroyed [Action.Acquire, Action.GetFirst] = [] := rfl
        have e2 : destroyed [Action.Release] = [] := rfl
        rw [e1, e2, List.nil_append, List.append_nil, List.append_assoc]
        exact List.Perm.append_left _ (destroyed_passTrace_perm E _ _)
      · rw [UpdatePlugAndPlay_quiet_outOfFuel E hq fuel s hpnp hwf (by omega)] at hu
        cases hu
    · cases h
    · cases h
  | environment f =>
    show Accounted D s1
    simp only [runOperation] at h
    injection h with h
    subst h
    exact ha

theorem runOperations_Accounted {σ : Type} (E : Collaborators σ) (hq : NoEnqueue E)
    (ops : List (Operation σ)) :
    ∀ (D : List Nat) (s s1 : State σ), WF s → Accounted D s →
      (removedDevices ops).Nodup → (∀ x ∈ removedDevices ops, x ∉ D) →
      runOperations E ops s = .ok s1 → ∃ D1, Accounted D1 s1 := by
  induction ops with
  | nil =>
    intro D s s1 _ ha _ _ h
    simp only [runOperations] at h
    injection h with h
    subst h
    exact ⟨D, ha⟩
  | cons op ops ih =>
    intro D s s1 hwf ha hnd hfresh h
    simp only [runOperations] at h
    split at h
    · rename_i s2 h2
      have hsplit : removedDevices (op :: ops) = removedDevices [op] ++ removedDevices ops := by
        cases op <;> simp [removedDevices]
      rw [hsplit] at hnd hfresh
      have hnd2 := List.nodup_append.1 hnd
      have ha2 := runOperation_Accounted E hq op D s s2 hwf ha
        (fun x hx => hfresh x (List.mem_append_left _ hx)) h2
      refine ih _ s2 s1 (runOperation_WF E op s s2 hwf h2) ha2 hnd2.2.1 ?_ h
      intro x hx hm
      rcases List.mem_append.1 hm with h3 | h3
      · exact hnd2.2.2 h3 hx
      · exact hfresh x (List.mem_append_right _ hx) h3
    · cases h
    · cases h

theorem Accounted_new {σ : Type} (bPlugAndPlay : Bool) (w : σ) :
    Accounted [] (CUSBHostController bPlugAndPlay w) := by
  simp [Accounted, CUSBHostController, destroyed, queuedDevices]

theorem served_append (a b : List Action) : served (a ++ b) = served a ++ served b := by
  induction a with
  | nil => rfl
  | cons x xs ih => cases x <;> simp [served, ih]

theorem served_dispatchTrace {σ : Type} (E : Collaborators σ) (w : σ)
    (ev : TPortStatusEvent) : served (dispatchTrace E w ev) = [ev.served] := by
  cases ev with
  | PortStatusEventFromRootPort p => rfl
  | PortStatusEventFromHub p => rfl
  | PortStatusEventDeviceRemoved d t0 =>
    simp only [dispatchTrace]
    split
    · rfl
    · split <;> rfl

theorem served_passTrace {σ : Type} (E : Collaborators σ) (l : CPtrList) :
    ∀ w : σ, served (passTrace E w l) = l.map (fun e => e.pPtr.served) := by
  induction l with
  | nil => intro w; rfl
  | cons e rest ih =>
    intro w
    simp only [passTrace]
    have d1 : served [Action.GetPtr e.pElement, Action.Release] = [] := rfl
    have d2 : served [Action.Acquire, Action.GetNext e.pElement] = [] := rfl
    have d3 : served (if judgedHandled E w e.pPtr = true then [Action.Remove e.pElement]
        else []) = [] := by
      split <;> rfl
    rw [served_append, served_append, served_append, served_append, d1, d2, d3,
      served_dispatchTrace, ih]
    simp

theorem remaining_length_le {σ : Type} (E : Collaborators σ) (l : CPtrList) (w : σ) :
    (remaining E w l).length ≤ l.length :=
  (remaining_sublist E l w).length_le

theorem anyHandled_iff_length {σ : Type} (E : Collaborators σ) (l : CPtrList) :
    ∀ w : σ, anyHandled E w l = true ↔ (remaining E w l).length < l.length := by
  induction l with
  | nil => intro w; simp [anyHandled, remaining]
  | cons e rest ih =>
    intro w
    have hle := remaining_length_le E rest (worldAfterDispatch E w e.pPtr)
    simp only [anyHandled, remaining, Bool.or_eq_true]
    by_cases hj : judgedHandled E w e.pPtr = true
    · simp only [hj, true_or, if_true, List.length_cons, true_iff]
      omega
    · have hjf : judgedHandled E w e.pPtr = false := by simpa using hj
      simp only [hjf, Bool.false_eq_true, false_or, if_false, List.length_cons, ih]
      omega

theorem anyHandled_iff_ne {σ : Type} (E : Collaborators σ) (l : CPtrList) (w : σ) :
    anyHandled E w l = true ↔ remaining E w l ≠ l := by
  rw [anyHandled_iff_length]
  constructor
  · intro h heq
    rw [heq] at h
    omega
  · intro h
    have hs := remaining_sublist E l w
    rcases Nat.lt_or_ge (remaining E w l).length l.length with h1 | h1
    · exact h1
    · exact absurd (hs.eq_of_length_le h1) h

theorem dispatch_quietAt {σ : Type} (E : Collaborators σ) (ev : TPortStatusEvent)
    (s : State σ) (hev : ev.ref ≠ 0) (hc : callsOf E s.world ev = []) :
    dispatch E ev s = .ok (judgedHandled E s.world ev,
      { s with world := worldAfterDispatch E s.world ev,
               trace := s.trace ++ dispatchTrace E s.world ev }) := by
  cases ev with
  | PortStatusEventFromRootPort p =>
    have hp : p ≠ 0 := hev
    have hc2 : (E.RootPortHandlePortStatusChange p s.world).2 = [] := hc
    simp [dispatch, hp, hc2, runCalls, judgedHandled, worldAfterDispatch, dispatchTrace, State.log]
  | PortStatusEventFromHub p =>
    have hp : p ≠ 0 := hev
    have hc2 : (E.HubHandlePortStatusChange p s.world).2 = [] := hc
    simp [dispatch, hp, hc2, runCalls, judgedHandled, worldAfterDispatch, dispatchTrace, State.log]
  | PortStatusEventDeviceRemoved d t0 =>
    have hp : d ≠ 0 := hev
    simp only [dispatch, hp, if_false, callShutdownDevice, callGetTicks, deleteDevice, State.log,
      judgedHandled, worldAfterDispatch, dispatchTrace]
    by_cases h1 : (E.ShutdownDevice d s.world).1 = true
    · simp [h1]
    · by_cases h2 : deadlineElapsed (E.GetTicks (E.ShutdownDevice d s.world).2 % U32) t0 = true
      · simp [h1, h2]
      · simp [h1, h2]

theorem updateLoop_quietOn {σ : Type} (E : Collaborators σ) (todo : CPtrList) :
    ∀ (pre post : CPtrList) (fuel : Nat) (b : Bool) (s : State σ),
    WF s → s.m_EventList = pre ++ (todo ++ post) → QuietOn E s.world todo →
    updateLoop E (fuel + todo.length) (CPtrList.GetFirst (todo ++ post)) b s =
      updateLoop E fuel (CPtrList.GetFirst post) (b || anyHandled E s.world todo)
        { s with m_EventList := pre ++ (remaining E s.world todo ++ post),
                 world := worldAfterPass E s.world todo,
                 trace := s.trace ++ passTrace E s.world todo } := by
  induction todo with
  | nil =>
    intro pre post fuel b s hwf hl hq
    cases s
    simp only [List.nil_append] at hl
    subst hl
    simp [anyHandled, remaining, worldAfterPass, passTrace]
  | cons c rest ih =>
    intro pre post fuel b s hwf hl hq
    have hc0 : c.pElement ≠ 0 := by
      have := (hwf.2.1 c (by rw [hl]; simp)).1
      omega
    have href : c.pPtr.ref ≠ 0 := hwf.2.2 c (by rw [hl]; simp)
    have hnd := hwf.1
    rw [hl, List.cons_append, List.map_append, List.map_cons, List.nodup_append] at hnd
    have hnot : c.pElement ∉ pre.map TPtrListElement.pElement := by
      intro hm
      exact hnd.2.2 hm (by simp)
    have hget := GetPtr_append_cons pre (rest ++ post) c hnot
    have hnext := GetNext_append_cons pre (rest ++ post) c hnot
    have hrem := Remove_append_cons pre (rest ++ post) c hnot
    obtain ⟨pnp, first, l, na, w, tr⟩ := s
    simp only [List.cons_append] at hl
    subst hl
    obtain ⟨hq1, hq2⟩ := hq
    have hd := dispatch_quietAt E c.pPtr
      ⟨pnp, first, pre ++ c :: (rest ++ post), na, w,
        tr ++ [Action.GetPtr c.pElement] ++ [Action.Release]⟩ href hq1
    have hfirst : CPtrList.GetFirst ((c :: rest) ++ post) = c.pElement := rfl
    have hfuel : fuel + (c :: rest).length = (fuel + rest.length) + 1 := by
      simp [Nat.add_assoc]
    rw [hfirst, hfuel]
    simp only [updateLoop, hc0, if_false, hget, State.log, hd, hnext, hrem]
    by_cases hj : judgedHandled E w c.pPtr = true
    · simp only [hj, if_true]
      have hwf1 : WF (⟨pnp, first, pre ++ (rest ++ post), na, worldAfterDispatch E w c.pPtr,
          tr ++ [Action.GetPtr c.pElement] ++ [Action.Release] ++ dispatchTrace E w c.pPtr ++
            [Action.Acquire] ++ [Action.GetNext c.pElement] ++ [Action.Remove c.pElement]⟩ :
          State σ) :=
        WF_of_sublist _ _ hwf
          (List.Sublist.append (List.Sublist.refl pre) (List.sublist_cons_self c _)) rfl
      rw [ih pre post fuel true _ hwf1 rfl hq2]
      simp [anyHandled, remaining, worldAfterPass, passTrace, hj]
    · simp only [hj, if_false]
      have hwf1 : WF (⟨pnp, first, pre ++ c :: (rest ++ post), na, worldAfterDispatch E w c.pPtr,
          tr ++ [Action.GetPtr c.pElement] ++ [Action.Release] ++ dispatchTrace E w c.pPtr ++
            [Action.Acquire] ++ [Action.GetNext c.pElement]⟩ : State σ) :=
        WF_of_sublist _ _ hwf (List.Sublist.refl _) rfl
      rw [ih (pre ++ [c]) post fuel b _ hwf1 (by simp) hq2]
      simp [anyHandled, remaining, worldAfterPass, passTrace, hj]

theorem remaining_append {σ : Type} (E : Collaborators σ) (l1 l2 : CPtrList) :
    ∀ w : σ, remaining E w (l1 ++ l2) =
      remaining E w l1 ++ remaining E (worldAfterPass E w l1) l2 := by
  induction l1 with
  | nil => intro w; rfl
  | cons e rest ih =>
    intro w
    have h := ih (worldAfterDispatch E w e.pPtr)
    show remaining E w (e :: (rest ++ l2)) = _
    simp only [remaining, worldAfterPass]
    rw [h]
    split <;> simp

theorem worldAfterPass_append {σ : Type} (E : Collaborators σ) (l1 l2 : CPtrList) :
    ∀ w : σ, worldAfterPass E w (l1 ++ l2) =
      worldAfterPass E (worldAfterPass E w l1) l2 := by
  induction l1 with
  | nil => intro w; rfl
  | cons e rest ih =>
    intro w
    have h := ih (worldAfterDispatch E w e.pPtr)
    show worldAfterPass E w (e :: (rest ++ l2)) = _
    simp only [worldAfterPass]
    rw [h]

theorem passTrace_append {σ : Type} (E : Collaborators σ) (l1 l2 : CPtrList) :
    ∀ w : σ, passTrace E w (l1 ++ l2) =
      passTrace E w l1 ++ passTrace E (worldAfterPass E w l1) l2 := by
  induction l1 with
  | nil => intro w; rfl
  | cons e rest ih =>
    intro w
    have h := ih (worldAfterDispatch E w e.pPtr)
    show passTrace E w (e :: (rest ++ l2)) = _
    simp only [passTrace, worldAfterPass]
    rw [h]
    simp only [List.append_assoc]

theorem updateLoop_reenqueue_step {σ : Type} (E : Collaborators σ) (n : Nat)
    (pre post : CPtrList) (a p p2 : Nat) (b : Bool) (s : State σ) (hwf : WF s)
    (hpnp : s.s_bPlugAndPlay = true)
    (hl : s.m_EventList = pre ++ ⟨a, .PortStatusEventFromRootPort p⟩ :: post)
    (hcall : (E.RootPortHandlePortStatusChange p s.world).2 = [Call.PortStatusChangedRootPort p2])
    (hp2 : p2 ≠ 0) :
    updateLoop E (n + 1) a b s =
      updateLoop E n
        (CPtrList.GetFirst (post ++ [⟨s.nAllocated + 1, .PortStatusEventFromRootPort p2⟩])) true
        { s with
          m_EventList := pre ++ (post ++ [⟨s.nAllocated + 1, .PortStatusEventFromRootPort p2⟩])
          nAllocated := s.nAllocated + 1
          world := (E.RootPortHandlePortStatusChange p s.world).1
          trace := s.trace ++ ([Action.GetPtr a, Action.Release,
              Action.RootPortHandlePortStatusChange p] ++
            ([Action.Acquire] ++ findLastTrace s.m_EventList ++
              [Action.InsertAfter (findLast s.m_EventList 0) (s.nAllocated + 1),
                Action.Release]) ++
            [Action.Acquire, Action.GetNext a, Action.Remove a]) } := by
  obtain ⟨pnp, first, l, na, w, tr⟩ := s
  simp only at hl hpnp hcall
  subst hl
  subst hpnp
  have hc0 : a ≠ 0 := by
    have := (hwf.2.1 ⟨a, .PortStatusEventFromRootPort p⟩ (by simp)).1
    simp only at this
    omega
  have hp : p ≠ 0 := hwf.2.2 ⟨a, .PortStatusEventFromRootPort p⟩ (by simp)
  have hnd := hwf.1
  have hnd2 := hnd
  simp only [List.map_append, List.map_cons, List.nodup_append] at hnd2
  have hnot : a ∉ pre.map TPtrListElement.pElement := by
    intro hm
    exact hnd2.2.2 hm (by simp)
  have hget : CPtrList.GetPtr (pre ++ ⟨a, .PortStatusEventFromRootPort p⟩ :: post) a =
      some (.PortStatusEventFromRootPort p) :=
    GetPtr_append_cons pre post ⟨a, .PortStatusEventFromRootPort p⟩ hnot
  have hnext : CPtrList.GetNext (pre ++ ⟨a, .PortStatusEventFromRootPort p⟩ ::
      (post ++ [⟨na + 1, .PortStatusEventFromRootPort p2⟩])) a =
      CPtrList.GetFirst (post ++ [⟨na + 1, .PortStatusEventFromRootPort p2⟩]) :=
    GetNext_append_cons pre _ ⟨a, .PortStatusEventFromRootPort p⟩ hnot
  have hrem : CPtrList.Remove (pre ++ ⟨a, .PortStatusEventFromRootPort p⟩ ::
      (post ++ [⟨na + 1, .PortStatusEventFromRootPort p2⟩])) a =
      pre ++ (post ++ [⟨na + 1, .PortStatusEventFromRootPort p2⟩]) :=
    Remove_append_cons pre _ ⟨a, .PortStatusEventFromRootPort p⟩ hnot
  have hins := InsertAfter_findLast (pre ++ ⟨a, .PortStatusEventFromRootPort p⟩ :: post) 0
    ⟨na + 1, .PortStatusEventFromRootPort p2⟩ hnd
  have hd : dispatch E (.PortStatusEventFromRootPort p)
      (⟨true, first, pre ++ ⟨a, .PortStatusEventFromRootPort p⟩ :: post, na, w,
        tr ++ [Action.GetPtr a] ++ [Action.Release]⟩ : State σ) =
      .ok (true, ⟨true, first,
        pre ++ ⟨a, .PortStatusEventFromRootPort p⟩ ::
          (post ++ [⟨na + 1, .PortStatusEventFromRootPort p2⟩]), na + 1,
        (E.RootPortHandlePortStatusChange p w).1,
        tr ++ [Action.GetPtr a] ++ [Action.Release] ++
          [Action.RootPortHandlePortStatusChange p] ++ [Action.Acquire] ++
          findLastTrace (pre ++ ⟨a, .PortStatusEventFromRootPort p⟩ :: post) ++
          [Action.InsertAfter (findLast (pre ++ ⟨a, .PortStatusEventFromRootPort p⟩ :: post) 0)
            (na + 1), Action.Release]⟩) := by
    simp only [dispatch, hp, if_false, hcall, runCalls, PortStatusChangedRootPort, hp2,
      State.log, appendEvent, hins]
    simp
  simp only [updateLoop, hc0, if_false, hget, State.log, hd, hnext, hrem, if_true]
  simp [List.append_assoc]

theorem QuietOn_append {σ : Type} (E : Collaborators σ) (l1 l2 : CPtrList) :
    ∀ w : σ, QuietOn E w l1 → QuietOn E (worldAfterPass E w l1) l2 → QuietOn E w (l1 ++ l2) := by
  induction l1 with
  | nil => intro w _ h; exact h
  | cons e rest ih =>
    intro w h1 h2
    exact ⟨h1.1, ih _ h1.2 h2⟩

theorem QuietOn_of_NoEnqueue {σ : Type} (E : Collaborators σ) (hq : NoEnqueue E)
    (l : CPtrList) : ∀ w : σ, QuietOn E w l := by
  induction l with
  | nil => intro w; trivial
  | cons e rest ih =>
    intro w
    refine ⟨?_, ih _⟩
    cases h : e.pPtr with
    | PortStatusEventFromRootPort p => exact (hq p w).1
    | PortStatusEventFromHub p => exact (hq p w).2
    | PortStatusEventDeviceRemoved d t => rfl

theorem WF_append_new {σ : Type} (s s1 : State σ) (ev : TPortStatusEvent) (l : CPtrList)
    (hwf : WF s) (hev : ev.ref ≠ 0) (hsub : List.Sublist l s.m_EventList)
    (h1 : s1.m_EventList = l ++ [⟨s.nAllocated + 1, ev⟩])
    (h2 : s1.nAllocated = s.nAllocated + 1) : WF s1 := by
  obtain ⟨w1, w2, w3⟩ := hwf
  refine ⟨?_, ?_, ?_⟩
  · rw [h1, List.map_append, List.nodup_append]
    refine ⟨List.Nodup.sublist (List.Sublist.map _ hsub) w1, by simp, ?_⟩
    intro x hx hx2
    obtain ⟨e, he, rfl⟩ := List.mem_map.1 hx
    have := (w2 e (hsub.subset he)).2
    simp only [List.map_cons, List.map_nil, List.mem_singleton] at hx2
    omega
  · intro e he
    rw [h1] at he
    rw [h2]
    rcases List.mem_append.1 he with h | h
    · have := w2 e (hsub.subset h)
      omega
    · simp only [List.mem_singleton] at h
      subst h
      simp
  · intro e he
    rw [h1] at he
    rcases List.mem_append.1 he with h | h
    · exact w3 e (hsub.subset h)
    · simp only [List.mem_singleton] at h
      subst h
      exact hev

theorem UpdatePlugAndPlay_reenqueue {σ : Type} (E : Collaborators σ) (s : State σ)
    (pre post : CPtrList) (a p p2 : Nat)
    (hpnp : s.s_bPlugAndPlay = true) (hwf : WF s)
    (hl : s.m_EventList = pre ++ ⟨a, .PortStatusEventFromRootPort p⟩ :: post)
    (hpre : QuietOn E s.world pre)
    (hcall : (E.RootPortHandlePortStatusChange p (worldAfterPass E s.world pre)).2 =
      [Call.PortStatusChangedRootPort p2])
    (hp2 : p2 ≠ 0)
    (hpost : QuietOn E (E.RootPortHandlePortStatusChange p (worldAfterPass E s.world pre)).1 post)
    (hnew : (E.RootPortHandlePortStatusChange p2 (worldAfterPass E
      (E.RootPortHandlePortStatusChange p (worldAfterPass E s.world pre)).1 post)).2 = [])
    (fuel : Nat) (hfuel : s.m_EventList.length + 1 ≤ fuel) :
    UpdatePlugAndPlay E fuel s = .ok (true,
      { s with
        m_bFirstUpdateCall := false
        m_EventList := remaining E s.world pre ++
          remaining E (E.RootPortHandlePortStatusChange p (worldAfterPass E s.world pre)).1 post
        nAllocated := s.nAllocated + 1
        world := (E.RootPortHandlePortStatusChange p2 (worldAfterPass E
          (E.RootPortHandlePortStatusChange p (worldAfterPass E s.world pre)).1 post)).1
        trace := s.trace ++ ([Action.Acquire, Action.GetFirst] ++ passTrace E s.world pre ++
          [Action.GetPtr a, Action.Release, Action.RootPortHandlePortStatusChange p] ++
          ([Action.Acquire] ++
            findLastTrace (remaining E s.world pre ++
              ⟨a, .PortStatusEventFromRootPort p⟩ :: post) ++
            [Action.InsertAfter (findLast (remaining E s.world pre ++
              ⟨a, .PortStatusEventFromRootPort p⟩ :: post) 0) (s.nAllocated + 1),
              Action.Release]) ++
          [Action.Acquire, Action.GetNext a, Action.Remove a] ++
          passTrace E (E.RootPortHandlePortStatusChange p (worldAfterPass E s.world pre)).1 post ++
          [Action.GetPtr (s.nAllocated + 1), Action.Release,
            Action.RootPortHandlePortStatusChange p2,
            Action.Acquire, Action.GetNext (s.nAllocated + 1),
            Action.Remove (s.nAllocated + 1)] ++
          [Action.Release]) }) := by
  obtain ⟨pnp, first, l, na, w, tr⟩ := s
  simp only at hpnp hl hpre hcall hpost hnew hfuel
  subst hl
  subst hpnp
  obtain ⟨f, rfl⟩ : ∃ f, fuel = ((f + (post ++
      [(⟨na + 1, .PortStatusEventFromRootPort p2⟩ : TPtrListElement)]).length) + 1) +
      pre.length := by
    refine ⟨fuel - (pre.length + post.length + 2), ?_⟩
    simp only [List.length_append, List.length_cons, List.length_nil] at hfuel ⊢
    omega
  have hwf1 : WF (⟨true, false, pre ++ ⟨a, .PortStatusEventFromRootPort p⟩ :: post, na, w,
      tr ++ [Action.Acquire] ++ [Action.GetFirst]⟩ : State σ) := hwf
  have e1 := updateLoop_quietOn E pre [] (⟨a, .PortStatusEventFromRootPort p⟩ :: post)
    ((f + (post ++ [(⟨na + 1, .PortStatusEventFromRootPort p2⟩ : TPtrListElement)]).length) + 1)
    first _ hwf1 rfl hpre
  simp only [List.nil_append] at e1
  have hwf2 : WF (⟨true, false, remaining E w pre ++ ⟨a, .PortStatusEventFromRootPort p⟩ :: post,
      na, worldAfterPass E w pre,
      tr ++ [Action.Acquire] ++ [Action.GetFirst] ++ passTrace E w pre⟩ : State σ) :=
    WF_of_sublist _ _ hwf
      (List.Sublist.append (remaining_sublist E pre w) (List.Sublist.refl _)) rfl
  have e2 := updateLoop_reenqueue_step E
    (f + (post ++ [(⟨na + 1, .PortStatusEventFromRootPort p2⟩ : TPtrListElement)]).length)
    (remaining E w pre) post a p p2 (first || anyHandled E w pre) _ hwf2 rfl rfl hcall hp2
  simp only at e2
  have hwf3 : WF (⟨true, false,
      remaining E w pre ++ (post ++ [⟨na + 1, .PortStatusEventFromRootPort p2⟩]), na + 1,
      (E.RootPortHandlePortStatusChange p (worldAfterPass E w pre)).1,
      tr ++ [Action.Acquire] ++ [Action.GetFirst] ++ passTrace E w pre ++
        ([Action.GetPtr a, Action.Release, Action.RootPortHandlePortStatusChange p] ++
          ([Action.Acquire] ++
            findLastTrace (remaining E w pre ++ ⟨a, .PortStatusEventFromRootPort p⟩ :: post) ++
            [Action.InsertAfter (findLast (remaining E w pre ++
              ⟨a, .PortStatusEventFromRootPort p⟩ :: post) 0) (na + 1), Action.Release]) ++
          [Action.Acquire, Action.GetNext a, Action.Remove a])⟩ : State σ) := by
    refine WF_append_new _ _ (.PortStatusEventFromRootPort p2) (remaining E w pre ++ post)
      hwf hp2 ?_ (by simp) rfl
    exact List.Sublist.append (remaining_sublist E pre w) (List.sublist_cons_self _ post)
  have hq3 : QuietOn E (E.RootPortHandlePortStatusChange p (worldAfterPass E w pre)).1
      (post ++ [⟨na + 1, .PortStatusEventFromRootPort p2⟩]) :=
    QuietOn_append E post _ _ hpost ⟨hnew, trivial⟩
  have e3 := updateLoop_quietOn E (post ++ [⟨na + 1, .PortStatusEventFromRootPort p2⟩])
    (remaining E w pre) [] f true _ hwf3 (by simp) hq3
  simp only [List.append_nil] at e3
  have hfirst : CPtrList.GetFirst ((⟨a, .PortStatusEventFromRootPort p⟩ : TPtrListElement)
      :: post) = a := rfl
  have hnil : CPtrList.GetFirst ([] : CPtrList) = 0 := rfl
  rw [hfirst, e2, e3, hnil, updateLoop_null] at e1
  simp only [UpdatePlugAndPlay, State.log, e1]
  simp [remaining_append, worldAfterPass_append, passTrace_append, remaining, worldAfterPass,
    passTrace, judgedHandled, worldAfterDispatch, dispatchTrace, List.append_assoc]

theorem served_findLastTrace (l : CPtrList) : served (findLastTrace l) = [] := by
  unfold findLastTrace
  induction l with
  | nil => rfl
  | cons x xs ih =>
    simp only [List.map_cons, served] at ih ⊢
    exact ih

theorem inserted_dispatchTrace {σ : Type} (E : Collaborators σ) (w : σ)
    (ev : TPortStatusEvent) : inserted (dispatchTrace E w ev) = [] := by
  cases ev with
  | PortStatusEventFromRootPort p => rfl
  | PortStatusEventFromHub p => rfl
  | PortStatusEventDeviceRemoved d t0 =>
    simp only [dispatchTrace]
    split
    · rfl
    · split <;> rfl

theorem inserted_passTrace {σ : Type} (E : Collaborators σ) (l : CPtrList) :
    ∀ w : σ, inserted (passTrace E w l) = [] := by
  induction l with
  | nil => intro w; rfl
  | cons e rest ih =>
    intro w
    simp only [passTrace]
    have d1 : inserted [Action.GetPtr e.pElement, Action.Release] = [] := rfl
    have d2 : inserted [Action.Acquire, Action.GetNext e.pElement] = [] := rfl
    have d3 : inserted (if judgedHandled E w e.pPtr = true then [Action.Remove e.pElement]
        else []) = [] := by
      split <;> rfl
    rw [inserted_append, inserted_append, inserted_append, inserted_append, d1, d2, d3,
      inserted_dispatchTrace, ih]
    rfl

theorem isPort_served (ev : TPortStatusEvent) :
    ev.served.isPort = !ev.isDeviceRemoved := by
  cases ev <;> rfl

theorem appendEvent_served {σ : Type} (s : State σ) (ev : TPortStatusEvent) :
    ∃ tr, (appendEvent ev s).trace = s.trace ++ tr ∧ served tr = [] := by
  refine ⟨_, appendEvent_trace s ev, ?_⟩
  rw [served_append, served_append, served_findLastTrace]
  rfl

theorem RemoveDevice_served {σ : Type} (E : Collaborators σ) (d : Nat) (s s1 : State σ)
    (h : RemoveDevice E d s = .ok s1) :
    ∃ tr, s1.trace = s.trace ++ tr ∧ (served tr).filter Served.isPort = [] := by
  unfold RemoveDevice at h
  split at h
  · cases h
  · split at h
    · injection h with h; subst h
      exact ⟨[Action.DeleteDevice d], rfl, rfl⟩
    · simp only at h
      split at h
      · injection h with h; subst h
        exact ⟨[Action.ShutdownDevice d (E.ShutdownDevice d s.world).1, Action.DeleteDevice d],
          by simp [deleteDevice, callShutdownDevice], rfl⟩
      · injection h with h; subst h
        obtain ⟨tr, h1, h2⟩ := appendEvent_served (callGetTicks E (callShutdownDevice E d s).2).2
          (.PortStatusEventDeviceRemoved d (callGetTicks E (callShutdownDevice E d s).2).1)
        refine ⟨[Action.ShutdownDevice d (E.ShutdownDevice d s.world).1,
          Action.GetTicks (E.GetTicks (E.ShutdownDevice d s.world).2 % U32)] ++ tr, ?_, ?_⟩
        · rw [h1]
          simp [callGetTicks, callShutdownDevice, State.log]
        · rw [served_append, h2]
          rfl

theorem runCalls_served {σ : Type} (E : Collaborators σ) (cs : List Call) :
    ∀ (s s1 : State σ), runCalls E cs s = .ok s1 →
      ∃ tr, s1.trace = s.trace ++ tr ∧ (served tr).filter Served.isPort = [] := by
  induction cs with
  | nil =>
    intro s s1 h
    simp only [runCalls] at h
    injection h with h; subst h
    exact ⟨[], by simp, rfl⟩
  | cons c cs ih =>
    intro s s1 h
    simp only [runCalls] at h
    split at h
    · rename_i s2 hc
      have h2 : ∃ tr, s2.trace = s.trace ++ tr ∧ (served tr).filter Served.isPort = [] := by
        cases c with
        | PortStatusChangedRootPort p =>
          simp only [PortStatusChangedRootPort] at hc
          split at hc
          · cases hc
          · split at hc
            · cases hc
            · injection hc with hc; subst hc
              obtain ⟨tr, h1, h2⟩ := appendEvent_served s (.PortStatusEventFromRootPort p)
              exact ⟨tr, h1, by rw [h2]; rfl⟩
        | PortStatusChangedHub p =>
          simp only [PortStatusChangedHub] at hc
          split at hc
          · cases hc
          · split at hc
            · cases hc
            · injection hc with hc; subst hc
              obtain ⟨tr, h1, h2⟩ := appendEvent_served s (.PortStatusEventFromHub p)
              exact ⟨tr, h1, by rw [h2]; rfl⟩
        | RemoveDevice p => exact RemoveDevice_served E p s s2 hc
      obtain ⟨t2, e2, f2⟩ := h2
      obtain ⟨t3, e3, f3⟩ := ih s2 s1 h
      refine ⟨t2 ++ t3, by rw [e3, e2, List.append_assoc], ?_⟩
      rw [served_append, List.filter_append, f2, f3]
      rfl
    · cases h
    · cases h

theorem dispatch_served {σ : Type} (E : Collaborators σ) (ev : TPortStatusEvent)
    (s s1 : State σ) (b : Bool) (h : dispatch E ev s = .ok (b, s1)) :
    ∃ tr rest, s1.trace = s.trace ++ tr ∧ served tr = ev.served :: rest ∧
      rest.filter Served.isPort = [] := by
  cases ev with
  | PortStatusEventFromRootPort p =>
    simp only [dispatch] at h
    split at h
    · cases h
    · split at h
      · rename_i s2 hr
        injection h with h
        injection h with hb hs
        subst hb; subst hs
        obtain ⟨t2, e2, f2⟩ := runCalls_served E _ _ _ hr
        refine ⟨[Action.RootPortHandlePortStatusChange p] ++ t2, served t2, ?_, ?_, f2⟩
        · rw [e2]; simp [State.log]
        · rw [served_append]; rfl
      · cases h
      · cases h
  | PortStatusEventFromHub p =>
    simp only [dispatch] at h
    split at h
    · cases h
    · split at h
      · rename_i s2 hr
        injection h with h
        injection h with hb hs
        subst hb; subst hs
        obtain ⟨t2, e2, f2⟩ := runCalls_served E _ _ _ hr
        refine ⟨[Action.HubHandlePortStatusChange p] ++ t2, served t2, ?_, ?_, f2⟩
        · rw [e2]; simp [State.log]
        · rw [served_append]; rfl
      · cases h
      · cases h
  | PortStatusEventDeviceRemoved d t0 =>
    simp only [dispatch] at h
    split at h
    · cases h
    · split at h
      · injection h with h
        injection h with hb hs
        subst hs
        exact ⟨[Action.ShutdownDevice d (E.ShutdownDevice d s.world).1, Action.DeleteDevice d],
          [], by simp [deleteDevice, callShutdownDevice], rfl, rfl⟩
      · split at h
        · injection h with h
          injection h with hb hs
          subst hs
          exact ⟨[Action.ShutdownDevice d (E.ShutdownDevice d s.world).1,
            Action.GetTicks (E.GetTicks (E.ShutdownDevice d s.world).2 % U32),
            Action.DeleteDevice d], [],
            by simp [deleteDevice, callShutdownDevice, callGetTicks, State.log], rfl, rfl⟩
        · injection h with h
          injection h with hb hs
          subst hs
          exact ⟨[Action.ShutdownDevice d (E.ShutdownDevice d s.world).1,
            Action.GetTicks (E.GetTicks (E.ShutdownDevice d s.world).2 % U32)], [],
            by simp [callShutdownDevice, callGetTicks, State.log], rfl, rfl⟩

theorem filter_not_removed_cons_keep (c : TPtrListElement) (L : CPtrList) (R : List Nat)
    (hc : c.pElement ∉ R) :
    (c :: L).filter (fun e => decide (e.pElement ∉ R)) =
      c :: L.filter (fun e => decide (e.pElement ∉ R)) := by
  simp [List.filter_cons, hc]

theorem filter_not_removed_cons_drop (c : TPtrListElement) (L : CPtrList) (R : List Nat)
    (hc : c.pElement ∉ L.map TPtrListElement.pElement) :
    (c :: L).filter (fun e => decide (e.pElement ∉ c.pElement :: R)) =
      L.filter (fun e => decide (e.pElement ∉ R)) := by
  have h1 : decide (c.pElement ∉ c.pElement :: R) = false := by simp
  rw [List.filter_cons, h1]
  simp only [Bool.false_eq_true, if_false]
  apply List.filter_congr
  intro x hx
  have hne : x.pElement ≠ c.pElement := by
    intro heq
    exact hc (heq ▸ List.mem_map_of_mem _ hx)
  simp [hne]

theorem updateLoop_served {σ : Type} (E : Collaborators σ) (fuel : Nat) :
    ∀ (pre todo : CPtrList) (b : Bool) (s : State σ) (b1 : Bool) (s1 : State σ),
    WF s → s.m_EventList = pre ++ todo →
    updateLoop E fuel (CPtrList.GetFirst todo) b s = .ok (b1, s1) →
    ∃ (added : CPtrList) (tr : List Action), s1.trace = s.trace ++ tr ∧
      added.map TPtrListElement.pElement = inserted tr ∧
      (served tr).filter Served.isPort =
        ((todo ++ added).filter (fun e => !e.pPtr.isDeviceRemoved)).map
          (fun e => e.pPtr.served) ∧
      List.Sublist ((todo ++ added).map (fun e => e.pPtr.served)) (served tr) ∧
      s1.m_EventList =
        pre ++ (todo ++ added).filter (fun e => decide (e.pElement ∉ removed tr)) ∧
      (∀ x ∈ removed tr, x ∈ (todo ++ added).map TPtrListElement.pElement) := by
  induction fuel with
  | zero =>
    intro pre todo b s b1 s1 hwf hl h
    simp only [updateLoop] at h
    split at h
    · rename_i h0
      have ht := GetFirst_eq_zero_of_WF s pre todo hwf hl h0
      subst ht
      injection h with h
      injection h with hb hs
      subst hs
      exact ⟨[], [], by simp, rfl, rfl, List.Sublist.refl _, by simpa using hl,
        by intro x hx; simp [removed] at hx⟩
    · cases h
  | succ n ih =>
    intro pre todo b s b1 s1 hwf hl h
    cases todo with
    | nil =>
      simp only [updateLoop, CPtrList.GetFirst, if_true] at h
      injection h with h
      injection h with hb hs
      subst hs
      exact ⟨[], [], by simp, rfl, rfl, List.Sublist.refl _, by simpa using hl,
        by intro x hx; simp [removed] at hx⟩
    | cons c post =>
      have hc0 : c.pElement ≠ 0 := by
        have := (hwf.2.1 c (by rw [hl]; simp)).1
        omega
      have hcle : c.pElement ≤ s.nAllocated := (hwf.2.1 c (by rw [hl]; simp)).2
      have hnd := hwf.1
      rw [hl, List.map_append, List.map_cons, List.nodup_append] at hnd
      have hnot : c.pElement ∉ pre.map TPtrListElement.pElement := by
        intro hm
        exact hnd.2.2 hm (by simp)
      have hget : CPtrList.GetPtr s.m_EventList c.pElement = some c.pPtr := by
        rw [hl]; exact GetPtr_append_cons pre post c hnot
      have hfirst : CPtrList.GetFirst (c :: post) = c.pElement := rfl
      rw [hfirst] at h
      cases hd : dispatch E c.pPtr ((s.log (Action.GetPtr c.pElement)).log Action.Release) with
      | assertionFailed nLine sf =>
        simp only [updateLoop, hc0, if_false, hget, hd] at h
        cases h
      | outOfFuel =>
        simp only [updateLoop, hc0, if_false, hget, hd] at h
        cases h
      | ok r =>
        obtain ⟨bh, s2⟩ := r
        obtain ⟨new, tr1, s3, hstep, hwf3, hl3, htr2, htr3, _, hna3, _, _, hext⟩ :=
          updateLoop_step E n pre post c b s bh s2 hwf hl hd
        rw [hstep] at h
        have hwf0 : WF ((s.log (Action.GetPtr c.pElement)).log Action.Release) := hwf
        have hwf2 := WF_of_Extends hwf0 hext
        obtain ⟨x1, _, _, x4, x5, _, _, _, x9, x10⟩ := hext
        obtain ⟨trd, rest, hd1, hd2, hd3⟩ := dispatch_served E _ _ _ _ hd
        have htrd : tr1 = trd := List.append_cancel_left (x4.symm.trans hd1)
        subst htrd
        have hl2 : s2.m_EventList = pre ++ c :: (post ++ new) := by
          rw [x1]; simp [State.log, hl]
        have hcpost : c.pElement ∉ (post ++ new).map TPtrListElement.pElement := by
          have w1 := hwf2.1
          rw [hl2, List.map_append, List.map_cons, List.nodup_append, List.nodup_cons] at w1
          exact w1.2.1.1
        have hna : s3.nAllocated = s.nAllocated + new.length := by
          rw [hna3, x5]; rfl
        obtain ⟨added, tr, z1, z2, z3, z4, z5, z6⟩ := ih _ (post ++ new) (b || bh) s3 b1 s1 hwf3 hl3 h
        obtain ⟨tr0, y1, _, y3, _⟩ := updateLoop_reentrant E n _ (post ++ new) (b || bh) s3 b1 s1
          hwf3 hl3 h
        have htr0 : tr = tr0 := List.append_cancel_left (z1.symm.trans y1)
        subst htr0
        have hcadded : c.pElement ∉ added.map TPtrListElement.pElement := by
          rw [z2, y3]
          intro hm
          have := (List.mem_range'_1.1 hm).1
          omega
        have hcall : c.pElement ∉ ((post ++ new) ++ added).map TPtrListElement.pElement := by
          rw [List.map_append]
          intro hm
          rcases List.mem_append.1 hm with h1 | h1
          · exact hcpost h1
          · exact hcadded h1
        have hcrem : c.pElement ∉ removed tr := fun hm => hcall (z6 _ hm)
        have hsv1 : served [Action.GetPtr c.pElement, Action.Release] = [] := rfl
        have hin1 : inserted [Action.GetPtr c.pElement, Action.Release] = [] := rfl
        have hrm1 : removed [Action.GetPtr c.pElement, Action.Release] = [] := rfl
        have hport : (served tr1).filter Served.isPort =
            (if c.pPtr.isDeviceRemoved = true then [] else [c.pPtr.served]) := by
          rw [hd2, List.filter_cons, hd3, isPort_served]
          cases c.pPtr.isDeviceRemoved <;> simp
        have hlist : (c :: post ++ (new ++ added)) = c :: ((post ++ new) ++ added) := by
          simp [List.append_assoc]
        cases bh with
        | true =>
          simp only [if_true] at hl3 htr3
          refine ⟨new ++ added, [Action.GetPtr c.pElement, Action.Release] ++ tr1 ++
            [Action.Acquire, Action.GetNext c.pElement, Action.Remove c.pElement] ++ tr,
            ?_, ?_, ?_, ?_, ?_, ?_⟩
          · rw [z1, htr3, htr2]; simp [List.append_assoc]
          · have i2 : inserted [Action.Acquire, Action.GetNext c.pElement,
                Action.Remove c.pElement] = [] := rfl
            rw [inserted_append, inserted_append, inserted_append, hin1, x10, i2, ← z2]
            simp
          · have s2 : served [Action.Acquire, Action.GetNext c.pElement,
                Action.Remove c.pElement] = [] := rfl
            rw [served_append, served_append, served_append, hsv1, s2, hlist]
            simp only [List.nil_append, List.append_nil, List.filter_append, hport, z3,
              List.filter_cons]
            cases c.pPtr.isDeviceRemoved <;> simp
          · have s2 : served [Action.Acquire, Action.GetNext c.pElement,
                Action.Remove c.pElement] = [] := rfl
            rw [served_append, served_append, served_append, hsv1, s2, hlist, hd2]
            simp only [List.nil_append, List.append_nil, List.map_cons, List.cons_append]
            exact List.Sublist.cons₂ _ (List.Sublist.trans z4 (List.sublist_append_right _ _))
          · have r2 : removed [Action.Acquire, Action.GetNext c.pElement,
                Action.Remove c.pElement] = [c.pElement] := rfl
            rw [removed_append, removed_append, removed_append, hrm1, x9, r2, hlist]
            simp only [List.nil_append, List.singleton_append]
            rw [filter_not_removed_cons_drop c _ _ hcall, z5]
            simp
          · intro x hx
            have r2 : removed [Action.Acquire, Action.GetNext c.pElement,
                Action.Remove c.pElement] = [c.pElement] := rfl
            rw [removed_append, removed_append, removed_append, hrm1, x9, r2] at hx
            simp only [List.nil_append, List.singleton_append, List.mem_cons] at hx
            rw [hlist, List.map_cons]
            rcases hx with h1 | h1
            · rw [h1]; exact List.mem_cons_self _ _
            · exact List.mem_cons_of_mem _ (z6 x h1)
        | false =>
          simp only [Bool.false_eq_true, if_false, List.append_nil] at hl3 htr3
          refine ⟨new ++ added, [Action.GetPtr c.pElement, Action.Release] ++ tr1 ++
            [Action.Acquire, Action.GetNext c.pElement] ++ tr,
            ?_, ?_, ?_, ?_, ?_, ?_⟩
          · rw [z1, htr3, htr2]; simp [List.append_assoc]
          · have i2 : inserted [Action.Acquire, Action.GetNext c.pElement] = [] := rfl
            rw [inserted_append, inserted_append, inserted_append, hin1, x10, i2, ← z2]
            simp
          · have s2 : served [Action.Acquire, Action.GetNext c.pElement] = [] := rfl
            rw [served_append, served_append, served_append, hsv1, s2, hlist]
            simp only [List.nil_append, List.append_nil, List.filter_append, hport, z3,
              List.filter_cons]
            cases c.pPtr.isDeviceRemoved <;> simp
          · have s2 : served [Action.Acquire, Action.GetNext c.pElement] = [] := rfl
            rw [served_append, served_append, served_append, hsv1, s2, hlist, hd2]
            simp only [List.nil_append, List.append_nil, List.map_cons, List.cons_append]
            exact List.Sublist.cons₂ _ (List.Sublist.trans z4 (List.sublist_append_right _ _))
          · have r2 : removed [Action.Acquire, Action.GetNext c.pElement] = [] := rfl
            rw [removed_append, removed_append, removed_append, hrm1, x9, r2, hlist]
            simp only [List.nil_append, List.append_nil]
            rw [filter_not_removed_cons_keep c _ _ hcrem, z5]
            simp
          · intro x hx
            have r2 : removed [Action.Acquire, Action.GetNext c.pElement] = [] := rfl
            rw [removed_append, removed_append, removed_append, hrm1, x9, r2] at hx
            simp only [List.nil_append, List.append_nil] at hx
            rw [hlist, List.map_cons]
            exact List.mem_cons_of_mem _ (z6 x hx)

theorem UpdatePlugAndPlay_served {σ : Type} (E : Collaborators σ) (fuel : Nat)
    (s : State σ) (b : Bool) (s1 : State σ) (hwf : WF s)
    (h : UpdatePlugAndPlay E fuel s = .ok (b, s1)) :
    ∃ added : CPtrList,
      added.map TPtrListElement.pElement = inserted (traceSince s s1) ∧
      (served (traceSince s s1)).filter Served.isPort =
        ((s.m_EventList ++ added).filter (fun e => !e.pPtr.isDeviceRemoved)).map
          (fun e => e.pPtr.served) ∧
      List.Sublist ((s.m_EventList ++ added).map (fun e => e.pPtr.served))
        (served (traceSince s s1)) ∧
      s1.m_EventList = (s.m_EventList ++ added).filter
        (fun e => decide (e.pElement ∉ removed (traceSince s s1))) ∧
      (∀ x ∈ removed (traceSince s s1),
        x ∈ (s.m_EventList ++ added).map TPtrListElement.pElement) := by
  unfold UpdatePlugAndPlay at h
  split at h
  · cases h
  · simp only at h
    split at h
    · rename_i b2 s2 hloop
      injection h with h
      injection h with hb hs
      subst hb; subst hs
      have hwf1 : WF (({ s with m_bFirstUpdateCall := false }.log Action.Acquire).log
          Action.GetFirst) := hwf
      obtain ⟨added, tr, z1, z2, z3, z4, z5, z6⟩ :=
        updateLoop_served E fuel [] _ _ _ _ _ hwf1 rfl hloop
      have htr : (s2.log Action.Release).trace =
          s.trace ++ ([Action.Acquire, Action.GetFirst] ++ tr ++ [Action.Release]) := by
        simp [State.log, z1, List.append_assoc]
      rw [traceSince_append s _ _ htr]
      have i1 : inserted [Action.Acquire, Action.GetFirst] = [] := rfl
      have i2 : inserted [Action.Release] = [] := rfl
      have r1 : removed [Action.Acquire, Action.GetFirst] = [] := rfl
      have r2 : removed [Action.Release] = [] := rfl
      have v1 : served [Action.Acquire, Action.GetFirst] = [] := rfl
      have v2 : served [Action.Release] = [] := rfl
      have hi : inserted ([Action.Acquire, Action.GetFirst] ++ tr ++ [Action.Release]) =
          inserted tr := by
        rw [inserted_append, inserted_append, i1, i2]; simp
      have hr : removed ([Action.Acquire, Action.GetFirst] ++ tr ++ [Action.Release]) =
          removed tr := by
        rw [removed_append, removed_append, r1, r2]; simp
      have hv : served ([Action.Acquire, Action.GetFirst] ++ tr ++ [Action.Release]) =
          served tr := by
        rw [served_append, served_append, v1, v2]; simp
      rw [hi, hr, hv]
      refine ⟨added, z2, z3, z4, ?_, z6⟩
      show s2.m_EventList = _
      rw [z5]
      rfl
    · cases h
    · cases h

theorem filter_not_removed_length (L : CPtrList) (R : List Nat)
    (hR : ∀ x ∈ R, x ∈ L.map TPtrListElement.pElement) :
    (L.filter (fun e => decide (e.pElement ∉ R))).length < L.length ↔ R ≠ [] := by
  constructor
  · intro h hnil
    subst hnil
    simp at h
  · intro h
    rcases R with _ | ⟨x, xs⟩
    · exact absurd rfl h
    · obtain ⟨e, he, hex⟩ := List.mem_map.1 (hR x (List.mem_cons_self _ _))
      have hlt : (L.filter (fun e => decide (e.pElement ∉ x :: xs))).length < L.length := by
        rw [List.length_filter_lt_length_iff_exists]
        exact ⟨e, he, by simp [hex]⟩
      exact hlt

/-! ## Section 3: the claims -/

/-- C1 (FIFO-with-filtering): with plug-and-play enabled and handlers that enqueue
nothing, a pass over any well-formed queue returns, and the queue it leaves is
exactly the events not judged handled (`remaining`): the original queue without
the nodes the pass unlinked, a subsequence in the original order with unchanged
contents; every event left is a pending device removal. -/
theorem C1_fifo_with_filtering {σ : Type} (E : Collaborators σ) (fuel : Nat) (s : State σ)
    (hpnp : s.s_bPlugAndPlay = true) (hwf : WF s) (hq : NoEnqueue E)
    (hfuel : s.m_EventList.length ≤ fuel) :
    ∃ b s1, UpdatePlugAndPlay E fuel s = .ok (b, s1) ∧
      s1.m_EventList = remaining E s.world s.m_EventList ∧
      s1.m_EventList = s.m_EventList.filter
        (fun e => decide (e.pElement ∉ removed (traceSince s s1))) ∧
      List.Sublist s1.m_EventList s.m_EventList ∧
      (∀ e ∈ s1.m_EventList, e.pPtr.isDeviceRemoved = true) := by
  refine ⟨_, _, UpdatePlugAndPlay_quiet E hq fuel s hpnp hwf hfuel, rfl, ?_,
    remaining_sublist E _ _, remaining_isDeviceRemoved E _ _⟩
  have htr : traceSince s { s with
      m_bFirstUpdateCall := false
      m_EventList := remaining E s.world s.m_EventList
      world := worldAfterPass E s.world s.m_EventList
      trace := s.trace ++ ([Action.Acquire, Action.GetFirst] ++
        passTrace E s.world s.m_EventList ++ [Action.Release]) }
      = [Action.Acquire, Action.GetFirst] ++ passTrace E s.world s.m_EventList ++
        [Action.Release] := traceSince_append _ _ _ rfl
  have d1 : removed [Action.Acquire, Action.GetFirst] = [] := rfl
  have d2 : removed [Action.Release] = [] := rfl
  rw [htr, removed_append, removed_append, d1, d2, List.nil_append, List.append_nil]
  exact remaining_eq_filter E _ _ hwf.1

/-- Witness for C1: the queue `[A, B, C]` in which only the root-port event `B` is
handled (both removals are refused and only 20 ticks old) becomes `[A, C]`. -/
theorem C1_fifo_with_filtering_witness :
    ∃ b s1, UpdatePlugAndPlay demoQuiet 3 (demoState false demoQueue 3 ⟨120, 0⟩) = .ok (b, s1) ∧
      s1.m_EventList = [⟨1, .PortStatusEventDeviceRemoved 9 100⟩,
        ⟨3, .PortStatusEventDeviceRemoved 11 100⟩] := by
  obtain ⟨b, s1, h1, h2, _, _, _⟩ := C1_fifo_with_filtering demoQuiet 3
    (demoState false demoQueue 3 ⟨120, 0⟩) rfl (demoState_WF _ _) demoQuiet_NoEnqueue
    (by decide)
  exact ⟨b, s1, h1, by rw [h2]; decide⟩

/-- C2 (deferred removal bound): let the queue hold the removal event of device `d`
stamped `t0` (and no other removal event for `d`), let `ShutdownDevice` of `d`
refuse on every call, and let a pass run at timer reading `t` with handlers that
enqueue nothing.  The pass returns.  While the 32-bit difference `t - t0` is below
`MSEC2HZ (150)` the event is still queued afterwards and the pass does not destroy
`d`; once the difference has reached `MSEC2HZ (150)` the pass destroys `d` exactly
once and the event is gone from the queue.  `MSEC2HZ (150)` is 150 ticks. -/
theorem C2_deferred_removal_bound {σ : Type} (E : Collaborators σ) (fuel : Nat) (s : State σ)
    (a d t0 t : Nat)
    (hpnp : s.s_bPlugAndPlay = true) (hwf : WF s) (hq : NoEnqueue E)
    (hfuel : s.m_EventList.length ≤ fuel)
    (hmem : (⟨a, .PortStatusEventDeviceRemoved d t0⟩ : TPtrListElement) ∈ s.m_EventList)
    (honly : ∀ e ∈ s.m_EventList, e.pPtr.isDeviceRemoved = true → e.pPtr.ref = d →
      e = ⟨a, .PortStatusEventDeviceRemoved d t0⟩)
    (hshut : ∀ w, (E.ShutdownDevice d w).1 = false)
    (hclock : ClockFrozen E t) (hnow : E.GetTicks s.world = t) :
    ∃ b s1, UpdatePlugAndPlay E fuel s = .ok (b, s1) ∧
      (u32sub t t0 < MSEC2HZ 150 →
        (⟨a, .PortStatusEventDeviceRemoved d t0⟩ : TPtrListElement) ∈ s1.m_EventList ∧
        d ∉ destroyed (traceSince s s1)) ∧
      (MSEC2HZ 150 ≤ u32sub t t0 →
        (∀ e ∈ s1.m_EventList, e.pElement ≠ a) ∧
        (destroyed (traceSince s s1)).count d = 1) ∧
      MSEC2HZ 150 = 150 := by
  refine ⟨_, _, UpdatePlugAndPlay_quiet E hq fuel s hpnp hwf hfuel, ?_, ?_, rfl⟩
  · intro hlt
    have htr : traceSince s { s with
        m_bFirstUpdateCall := false
        m_EventList := remaining E s.world s.m_EventList
        world := worldAfterPass E s.world s.m_EventList
        trace := s.trace ++ ([Action.Acquire, Action.GetFirst] ++
          passTrace E s.world s.m_EventList ++ [Action.Release]) }
        = [Action.Acquire, Action.GetFirst] ++ passTrace E s.world s.m_EventList ++
          [Action.Release] := traceSince_append _ _ _ rfl
    refine ⟨remaining_refusing_mem E t d t0 a hclock hshut hlt _ _ hnow hmem, ?_⟩
    rw [htr, destroyed_append, destroyed_append]
    have hcount := destroyed_count_refusing E t d t0 a hclock hshut s.m_EventList s.world hnow
      hwf.1 honly
    have hng : ¬ MSEC2HZ 150 ≤ u32sub t t0 := by omega
    simp only [hng, and_false, if_false] at hcount
    have hnot := List.count_eq_zero.1 hcount
    intro hd
    rcases List.mem_append.1 hd with h | h
    · rcases List.mem_append.1 h with h | h
      · simp [destroyed] at h
      · exact hnot h
    · simp [destroyed] at h
  · intro hge
    have htr : traceSince s { s with
        m_bFirstUpdateCall := false
        m_EventList := remaining E s.world s.m_EventList
        world := worldAfterPass E s.world s.m_EventList
        trace := s.trace ++ ([Action.Acquire, Action.GetFirst] ++
          passTrace E s.world s.m_EventList ++ [Action.Release]) }
        = [Action.Acquire, Action.GetFirst] ++ passTrace E s.world s.m_EventList ++
          [Action.Release] := traceSince_append _ _ _ rfl
    refine ⟨?_, ?_⟩
    · intro e he hea
      have he1 : e ∈ remaining E s.world s.m_EventList := he
      have hel : e ∈ s.m_EventList := (remaining_sublist E _ _).subset he1
      have heq : e = ⟨a, .PortStatusEventDeviceRemoved d t0⟩ := by
        have hinj := List.inj_on_of_nodup_map hwf.1
        exact hinj hel hmem hea
      rw [heq] at he1
      exact remaining_elapsed_not_mem E t d t0 a hclock hshut hge _ _ hnow he1
    · rw [htr, destroyed_append, destroyed_append]
      have hcount := destroyed_count_refusing E t d t0 a hclock hshut s.m_EventList s.world
        hnow hwf.1 honly
      simp only [hmem, hge, and_self, if_true] at hcount
      have d1 : destroyed [Action.Acquire, Action.GetFirst] = [] := rfl
      have d2 : destroyed [Action.Release] = [] := rfl
      rw [d1, d2]
      simpa using hcount

/-- Witness for C2: device 9 refuses to shut down and its removal was requested at
tick 100.  A pass at tick 120 keeps the event and does not destroy the device; a
pass at tick 250 destroys the device once and unlinks the event. -/
theorem C2_deferred_removal_bound_witness :
    (∃ b s1, UpdatePlugAndPlay demoQuiet 3 (demoState false demoQueue 3 ⟨120, 0⟩) = .ok (b, s1) ∧
      (⟨1, .PortStatusEventDeviceRemoved 9 100⟩ : TPtrListElement) ∈ s1.m_EventList ∧
      9 ∉ destroyed (traceSince (demoState false demoQueue 3 ⟨120, 0⟩) s1)) ∧
    (∃ b s1, UpdatePlugAndPlay demoQuiet 3 (demoState false demoQueue 3 ⟨250, 0⟩) = .ok (b, s1) ∧
      (∀ e ∈ s1.m_EventList, e.pElement ≠ 1) ∧
      (destroyed (traceSince (demoState false demoQueue 3 ⟨250, 0⟩) s1)).count 9 = 1) := by
  constructor
  · obtain ⟨b, s1, h1, h2, _⟩ := C2_deferred_removal_bound demoQuiet 3
      (demoState false demoQueue 3 ⟨120, 0⟩) 1 9 100 120 rfl (demoState_WF _ _)
      demoQuiet_NoEnqueue (by decide) (by decide) (by decide) (fun _ => rfl)
      (fun _ h => ⟨fun _ => h, fun _ => h, fun _ => h, fun _ => h⟩) rfl
    exact ⟨b, s1, h1, h2 (by decide)⟩
  · obtain ⟨b, s1, h1, _, h3⟩ := C2_deferred_removal_bound demoQuiet 3
      (demoState false demoQueue 3 ⟨250, 0⟩) 1 9 100 250 rfl (demoState_WF _ _)
      demoQuiet_NoEnqueue (by decide) (by decide) (by decide) (fun _ => rfl)
      (fun _ h => ⟨fun _ => h, fun _ => h, fun _ => h, fun _ => h⟩) rfl
    exact ⟨b, s1, h1, h3.1 (by decide)⟩

/-- C3 (immediate removal): for a non-null device `d` and any queue, when
plug-and-play is disabled, or it is enabled and `ShutdownDevice` of `d` succeeds,
`RemoveDevice` returns after destroying `d` exactly once, links no node, and leaves
the event queue as it was.  With plug-and-play disabled `ShutdownDevice` is not
called: the destruction is the only call made. -/
theorem C3_immediate_removal {σ : Type} (E : Collaborators σ) (s : State σ) (d : Nat)
    (hd : d ≠ 0)
    (h : s.s_bPlugAndPlay = false ∨
      (s.s_bPlugAndPlay = true ∧ (E.ShutdownDevice d s.world).1 = true)) :
    ∃ s1, RemoveDevice E d s = .ok s1 ∧
      s1.m_EventList = s.m_EventList ∧
      destroyed (traceSince s s1) = [d] ∧
      inserted (traceSince s s1) = [] ∧
      (s.s_bPlugAndPlay = false → traceSince s s1 = [Action.DeleteDevice d]) ∧
      (s.s_bPlugAndPlay = true →
        traceSince s s1 = [Action.ShutdownDevice d true, Action.DeleteDevice d]) := by
  rcases h with h | ⟨h1, h2⟩
  · refine ⟨deleteDevice E d s, ?_, rfl, ?_, ?_, ?_, ?_⟩
    · simp [RemoveDevice, hd, IsPlugAndPlay, h]
    · rw [traceSince_append s _ [Action.DeleteDevice d] rfl]; rfl
    · rw [traceSince_append s _ [Action.DeleteDevice d] rfl]; rfl
    · intro _; exact traceSince_append s _ [Action.DeleteDevice d] rfl
    · intro h3; rw [h] at h3; cases h3
  · have htr : (deleteDevice E d (callShutdownDevice E d s).2).trace =
        s.trace ++ [Action.ShutdownDevice d true, Action.DeleteDevice d] := by
      simp [deleteDevice, callShutdownDevice, h2]
    refine ⟨deleteDevice E d (callShutdownDevice E d s).2, ?_, rfl, ?_, ?_, ?_, ?_⟩
    · simp [RemoveDevice, hd, IsPlugAndPlay, h1, callShutdownDevice, h2]
    · rw [traceSince_append s _ _ htr]; rfl
    · rw [traceSince_append s _ _ htr]; rfl
    · intro h3; rw [h1] at h3; cases h3
    · intro _; exact traceSince_append s _ _ htr

/-- Witness for C3: device 5 shuts down at once, so it is destroyed inside
`RemoveDevice` and the queue `[A, B, C]` is unchanged. -/
theorem C3_immediate_removal_witness :
    ∃ s1, RemoveDevice demoQuiet 5 (demoState false demoQueue 3 ⟨120, 0⟩) = .ok s1 ∧
      s1.m_EventList = demoQueue ∧
      destroyed (traceSince (demoState false demoQueue 3 ⟨120, 0⟩) s1) = [5] := by
  obtain ⟨s1, h1, h2, h3, _⟩ := C3_immediate_removal demoQuiet
    (demoState false demoQueue 3 ⟨120, 0⟩) 5 (by decide) (Or.inr ⟨rfl, rfl⟩)
  exact ⟨s1, h1, h2, h3⟩

/-- C4 (first-call priming): a pass on a freshly constructed controller (flag
`m_bFirstUpdateCall` set, empty queue) returns `true`.  For every well-formed state
and handlers that enqueue nothing, a pass returns; its result is the flag or-ed
with "some event was judged handled" (`anyHandled`), it leaves the queue of the
events not judged handled (`remaining`), its trace is `passTrace` and its world the
one the handlers leave; some event is judged handled exactly when the queue got
shorter.  So the first call returns `true` whatever the queue holds, and a later
call returns `true` exactly when an event was judged handled and unlinked, `false`
when every event stayed queued and on the empty queue.  For every pass that
returns, also with handlers that call back: the flag is cleared, the result is
`true` when the flag was set, and with the flag clear it is `true` exactly when a
node was unlinked; the queue at return is the queue at the start followed by the
events enqueued during the pass, without the unlinked nodes, so the result is
`true` exactly when the queue at return is shorter than that. -/
theorem C4_first_call_priming {σ : Type} (E : Collaborators σ) (fuel : Nat) (s : State σ)
    (hpnp : s.s_bPlugAndPlay = true) (hwf : WF s) :
    (∀ w : σ, ∃ s1, UpdatePlugAndPlay E fuel (CUSBHostController true w) = .ok (true, s1) ∧
      s1.m_bFirstUpdateCall = false) ∧
    (NoEnqueue E → s.m_EventList.length ≤ fuel →
      ∃ b s1, UpdatePlugAndPlay E fuel s = .ok (b, s1)) ∧
    (NoEnqueue E → s.m_EventList.length ≤ fuel →
      ∃ s1, UpdatePlugAndPlay E fuel s =
          .ok (s.m_bFirstUpdateCall || anyHandled E s.world s.m_EventList, s1) ∧
        s1.m_EventList = remaining E s.world s.m_EventList ∧
        s1.world = worldAfterPass E s.world s.m_EventList ∧
        traceSince s s1 = [Action.Acquire, Action.GetFirst] ++
          passTrace E s.world s.m_EventList ++ [Action.Release] ∧
        s1.m_bFirstUpdateCall = false ∧
        (anyHandled E s.world s.m_EventList = true ↔
          s1.m_EventList.length < s.m_EventList.length) ∧
        (anyHandled E s.world s.m_EventList = true ↔ s1.m_EventList ≠ s.m_EventList) ∧
        (anyHandled E s.world s.m_EventList = true ↔ removed (traceSince s s1) ≠ []) ∧
        (s.m_bFirstUpdateCall = true → UpdatePlugAndPlay E fuel s = .ok (true, s1)) ∧
        (s.m_bFirstUpdateCall = false → s1.m_EventList = s.m_EventList →
          UpdatePlugAndPlay E fuel s = .ok (false, s1))) ∧
    (s.m_EventList = [] → ∃ s1, UpdatePlugAndPlay E fuel s = .ok (s.m_bFirstUpdateCall, s1)) ∧
    (∀ b s1, UpdatePlugAndPlay E fuel s = .ok (b, s1) →
      s1.m_bFirstUpdateCall = false ∧
      (s.m_bFirstUpdateCall = true → b = true) ∧
      (s.m_bFirstUpdateCall = false → (b = true ↔ removed (traceSince s s1) ≠ [])) ∧
      ∃ added : CPtrList,
        added.map TPtrListElement.pElement = inserted (traceSince s s1) ∧
        s1.m_EventList = (s.m_EventList ++ added).filter
          (fun e => decide (e.pElement ∉ removed (traceSince s s1))) ∧
        (s.m_bFirstUpdateCall = false →
          (b = true ↔ s1.m_EventList.length < s.m_EventList.length + added.length))) := by
  refine ⟨?_, ?_, ?_, ?_, ?_⟩
  · intro w
    refine ⟨⟨true, false, [], 0, w, [Action.Acquire, Action.GetFirst, Action.Release]⟩, ?_, rfl⟩
    simp only [UpdatePlugAndPlay, CUSBHostController, State.log, CPtrList.GetFirst]
    rw [updateLoop_null]
    simp
  · intro hq hfuel
    exact ⟨_, _, UpdatePlugAndPlay_quiet E hq fuel s hpnp hwf hfuel⟩
  · intro hq hfuel
    have hu := UpdatePlugAndPlay_quiet E hq fuel s hpnp hwf hfuel
    have hlen := anyHandled_iff_length E s.m_EventList s.world
    have hne := anyHandled_iff_ne E s.m_EventList s.world
    have htr : traceSince s { s with
        m_bFirstUpdateCall := false
        m_EventList := remaining E s.world s.m_EventList
        world := worldAfterPass E s.world s.m_EventList
        trace := s.trace ++ ([Action.Acquire, Action.GetFirst] ++
          passTrace E s.world s.m_EventList ++ [Action.Release]) }
        = [Action.Acquire, Action.GetFirst] ++ passTrace E s.world s.m_EventList ++
          [Action.Release] := traceSince_append _ _ _ rfl
    refine ⟨_, hu, rfl, rfl, htr, rfl, hlen, hne, ?_, ?_, ?_⟩
    · have hrem := remaining_eq_filter E s.m_EventList s.world hwf.1
      have d1 : removed [Action.Acquire, Action.GetFirst] = [] := rfl
      have d2 : removed [Action.Release] = [] := rfl
      rw [htr, removed_append, removed_append, d1, d2, List.nil_append, List.append_nil, hne]
      constructor
      · intro h hnil
        apply h
        rw [hrem, hnil]
        simp
      · intro h heq
        apply h
        have hsub := removed_passTrace_subset E s.m_EventList s.world
        rw [hrem] at heq
        have hall := List.filter_eq_self.1 heq
        rcases hx : removed (passTrace E s.world s.m_EventList) with _ | ⟨x, xs⟩
        · rfl
        · exfalso
          have hxm : x ∈ removed (passTrace E s.world s.m_EventList) := by
            rw [hx]; exact List.mem_cons_self _ _
          obtain ⟨e, he, hex⟩ := List.mem_map.1 (hsub x hxm)
          have := hall e he
          simp only [decide_eq_true_eq] at this
          exact this (hex ▸ hxm)
    · intro hf
      rw [hu, hf]
      rfl
    · intro hf heq
      have hnot : ¬ anyHandled E s.world s.m_EventList = true := fun h => hne.1 h heq
      have hfa : anyHandled E s.world s.m_EventList = false := by simpa using hnot
      rw [hu, hf, hfa]
      rfl
  · intro hl
    refine ⟨{ s with m_bFirstUpdateCall := false
                     trace := s.trace ++ [Action.Acquire, Action.GetFirst, Action.Release] }, ?_⟩
    simp only [UpdatePlugAndPlay, hpnp, State.log, hl, CPtrList.GetFirst]
    rw [updateLoop_null]
    simp [hl, hpnp]
  · intro b s1 h
    obtain ⟨_, _, _, _, _, _, h7, h8⟩ := UpdatePlugAndPlay_reentrant E fuel s b s1 hwf h
    have h9 : s.m_bFirstUpdateCall = false → (b = true ↔ removed (traceSince s s1) ≠ []) := by
      intro hf
      rw [h8, hf]
      simp
    obtain ⟨added, a1, _, _, a4, a5⟩ := UpdatePlugAndPlay_served E fuel s b s1 hwf h
    refine ⟨h7, fun hf => h8.2 (Or.inl hf), h9, added, a1, a4, fun hf => ?_⟩
    have hlen := filter_not_removed_length (s.m_EventList ++ added)
      (removed (traceSince s s1)) a5
    rw [← a4, List.length_append] at hlen
    rw [hlen]
    exact h9 hf

/-- Witness for C4: a later call (flag clear) over `[A, B, C]` at tick 120 calls the
handlers of all three events, handles the root-port event `B`, returns `true` and
leaves `[A, C]`; a later call over the queue `[A]` asks device 9 to shut down, leaves
the event pending, returns `false` and leaves `[A]`; the first call over the same
queue returns `true` and also leaves `[A]`. -/
theorem C4_first_call_priming_witness :
    (∃ s1, UpdatePlugAndPlay demoQuiet 3 (demoState false demoQueue 3 ⟨120, 0⟩) = .ok (true, s1) ∧
      s1.m_EventList = [⟨1, .PortStatusEventDeviceRemoved 9 100⟩,
        ⟨3, .PortStatusEventDeviceRemoved 11 100⟩] ∧
      s1.m_bFirstUpdateCall = false ∧
      traceSince (demoState false demoQueue 3 ⟨120, 0⟩) s1 =
        [Action.Acquire, Action.GetFirst,
         Action.GetPtr 1, Action.Release, Action.ShutdownDevice 9 false, Action.GetTicks 120,
         Action.Acquire, Action.GetNext 1,
         Action.GetPtr 2, Action.Release, Action.RootPortHandlePortStatusChange 7,
         Action.Acquire, Action.GetNext 2, Action.Remove 2,
         Action.GetPtr 3, Action.Release, Action.ShutdownDevice 11 false, Action.GetTicks 120,
         Action.Acquire, Action.GetNext 3,
         Action.Release]) ∧
    (∃ s1, UpdatePlugAndPlay demoQuiet 1
        (demoState false [⟨1, .PortStatusEventDeviceRemoved 9 100⟩] 1 ⟨120, 0⟩) =
          .ok (false, s1) ∧
      s1.m_EventList = [⟨1, .PortStatusEventDeviceRemoved 9 100⟩] ∧
      traceSince (demoState false [⟨1, .PortStatusEventDeviceRemoved 9 100⟩] 1 ⟨120, 0⟩) s1 =
        [Action.Acquire, Action.GetFirst,
         Action.GetPtr 1, Action.Release, Action.ShutdownDevice 9 false, Action.GetTicks 120,
         Action.Acquire, Action.GetNext 1,
         Action.Release]) ∧
    (∃ s1, UpdatePlugAndPlay demoQuiet 1
        (demoState true [⟨1, .PortStatusEventDeviceRemoved 9 100⟩] 1 ⟨120, 0⟩) =
          .ok (true, s1) ∧
      s1.m_EventList = [⟨1, .PortStatusEventDeviceRemoved 9 100⟩] ∧
      s1.m_bFirstUpdateCall = false) := by
  refine ⟨?_, ?_, ?_⟩
  · obtain ⟨s1, h1, h2, _, h4, h5, _⟩ := (C4_first_call_priming demoQuiet 3
      (demoState false demoQueue 3 ⟨120, 0⟩) rfl (demoState_WF _ _)).2.2.1
      demoQuiet_NoEnqueue (by decide)
    exact ⟨s1, h1, by rw [h2]; decide, h5, by rw [h4]; decide⟩
  · obtain ⟨s1, h1, h2, _, h4, _⟩ := (C4_first_call_priming demoQuiet 1
      (demoState false [⟨1, .PortStatusEventDeviceRemoved 9 100⟩] 1 ⟨120, 0⟩) rfl
      (by simp [WF, demoState, TPortStatusEvent.ref])).2.2.1 demoQuiet_NoEnqueue (by decide)
    exact ⟨s1, h1, by rw [h2]; decide, by rw [h4]; decide⟩
  · obtain ⟨s1, h1, h2, _, _, h5, _⟩ := (C4_first_call_priming demoQuiet 1
      (demoState true [⟨1, .PortStatusEventDeviceRemoved 9 100⟩] 1 ⟨120, 0⟩) rfl
      (by simp [WF, demoState, TPortStatusEvent.ref])).2.2.1 demoQuiet_NoEnqueue (by decide)
    exact ⟨s1, h1, by rw [h2]; decide, h5⟩

/-- C5, as stated, fails: the handler of root port 7 reports a status change of root
port 8 while the pass dispatches it.  The new node 2 is linked during the pass, is
dispatched in the same pass (the handler of root port 8 is called), and the queue is
empty when the pass returns: the new event is not left for a subsequent pass. -/
theorem C5_reentrant_enqueue_counterexample :
    ∃ b s1, UpdatePlugAndPlay demoReentrant 2
        (demoState false [⟨1, .PortStatusEventFromRootPort 7⟩] 1 ⟨0, 0⟩) = .ok (b, s1) ∧
      inserted s1.trace = [2] ∧ dispatched s1.trace = [1, 2] ∧ s1.m_EventList = [] ∧
      b = true ∧
      s1.trace =
        [Action.Acquire, Action.GetFirst,
         Action.GetPtr 1, Action.Release, Action.RootPortHandlePortStatusChange 7,
         Action.Acquire, Action.GetFirst, Action.GetNext 1, Action.InsertAfter 1 2,
         Action.Release,
         Action.Acquire, Action.GetNext 1, Action.Remove 1,
         Action.GetPtr 2, Action.Release, Action.RootPortHandlePortStatusChange 8,
         Action.Acquire, Action.GetNext 2, Action.Remove 2,
         Action.Release] :=
  ⟨_, _, rfl, rfl, rfl, rfl, rfl, rfl⟩

/-- C5, amended.  In every pass that returns, the nodes are dispatched in queue
order: first the nodes queued when the pass started, then the nodes linked during
the pass (by handlers calling back), in the order they were linked; no node is
dispatched twice, and only device removals are queued when the pass returns.  The
serving collaborator of each of these events (the handler of its root port or hub,
`ShutdownDevice` of its device) is called, in this order; the port-status handlers
are called for these events only, once per root-port or hub event; and the queue at
return is these events without the unlinked nodes.
When the handler of one queued root-port event calls `PortStatusChanged` for root
port `p2` and no other handler of the pass calls back, a pass over `n` events
returns when it is given `n + 1` loop iterations, with result `true`.  Its trace is:
the quiet pass over the events before; the dispatch of the root-port event, whose
handler runs the producer (tail search over the queue of that moment, `InsertAfter`
its last node); the unlinking of the root-port event; the quiet pass over the events
behind; the dispatch of the new node, which calls the handler of `p2`, and its
unlinking.  So every event queued at the start is served exactly once, in order,
then the new event is served, in the same pass; the queue at return holds the events
not judged handled of those queued at the start, and not the new one. -/
theorem C5_reentrant_enqueue_same_pass {σ : Type} (E : Collaborators σ) (s : State σ)
    (hwf : WF s) :
    (∀ (fuel : Nat) (b : Bool) (s1 : State σ), UpdatePlugAndPlay E fuel s = .ok (b, s1) →
      dispatched (traceSince s s1) =
        s.m_EventList.map TPtrListElement.pElement ++ inserted (traceSince s s1) ∧
      (dispatched (traceSince s s1)).Nodup ∧
      (∀ e ∈ s.m_EventList, (dispatched (traceSince s s1)).count e.pElement = 1) ∧
      (∀ p ∈ inserted (traceSince s s1), (dispatched (traceSince s s1)).count p = 1) ∧
      (∀ e ∈ s1.m_EventList, e.pPtr.isDeviceRemoved = true) ∧
      ∃ added : CPtrList,
        added.map TPtrListElement.pElement = inserted (traceSince s s1) ∧
        dispatched (traceSince s s1) =
          (s.m_EventList ++ added).map TPtrListElement.pElement ∧
        (served (traceSince s s1)).filter Served.isPort =
          ((s.m_EventList ++ added).filter (fun e => !e.pPtr.isDeviceRemoved)).map
            (fun e => e.pPtr.served) ∧
        List.Sublist ((s.m_EventList ++ added).map (fun e => e.pPtr.served))
          (served (traceSince s s1)) ∧
        s1.m_EventList = (s.m_EventList ++ added).filter
          (fun e => decide (e.pElement ∉ removed (traceSince s s1)))) ∧
    (∀ (pre post : CPtrList) (a p p2 : Nat),
      s.s_bPlugAndPlay = true →
      s.m_EventList = pre ++ ⟨a, .PortStatusEventFromRootPort p⟩ :: post →
      QuietOn E s.world pre →
      (E.RootPortHandlePortStatusChange p (worldAfterPass E s.world pre)).2 =
        [Call.PortStatusChangedRootPort p2] →
      p2 ≠ 0 →
      QuietOn E (E.RootPortHandlePortStatusChange p (worldAfterPass E s.world pre)).1 post →
      (E.RootPortHandlePortStatusChange p2 (worldAfterPass E
        (E.RootPortHandlePortStatusChange p (worldAfterPass E s.world pre)).1 post)).2 = [] →
      ∀ fuel, s.m_EventList.length + 1 ≤ fuel →
        ∃ s1, UpdatePlugAndPlay E fuel s = .ok (true, s1) ∧
          traceSince s s1 =
            [Action.Acquire, Action.GetFirst] ++ passTrace E s.world pre ++
            [Action.GetPtr a, Action.Release, Action.RootPortHandlePortStatusChange p] ++
            ([Action.Acquire] ++
              findLastTrace (remaining E s.world pre ++
                ⟨a, .PortStatusEventFromRootPort p⟩ :: post) ++
              [Action.InsertAfter (findLast (remaining E s.world pre ++
                ⟨a, .PortStatusEventFromRootPort p⟩ :: post) 0) (s.nAllocated + 1),
                Action.Release]) ++
            [Action.Acquire, Action.GetNext a, Action.Remove a] ++
            passTrace E (E.RootPortHandlePortStatusChange p (worldAfterPass E s.world pre)).1
              post ++
            [Action.GetPtr (s.nAllocated + 1), Action.Release,
              Action.RootPortHandlePortStatusChange p2,
              Action.Acquire, Action.GetNext (s.nAllocated + 1),
              Action.Remove (s.nAllocated + 1)] ++
            [Action.Release] ∧
          s1.m_EventList = remaining E s.world pre ++
            remaining E (E.RootPortHandlePortStatusChange p (worldAfterPass E s.world pre)).1
              post ∧
          s1.world = (E.RootPortHandlePortStatusChange p2 (worldAfterPass E
            (E.RootPortHandlePortStatusChange p (worldAfterPass E s.world pre)).1 post)).1 ∧
          inserted (traceSince s s1) = [s.nAllocated + 1] ∧
          dispatched (traceSince s s1) =
            s.m_EventList.map TPtrListElement.pElement ++ [s.nAllocated + 1] ∧
          served (traceSince s s1) =
            s.m_EventList.map (fun e => e.pPtr.served) ++ [Served.RootPort p2] ∧
          (∀ e ∈ s1.m_EventList, e ∈ s.m_EventList ∧ e.pElement ≠ s.nAllocated + 1 ∧
            e.pPtr.isDeviceRemoved = true)) := by
  constructor
  · intro fuel b s1 h
    obtain ⟨_, h2, h3, h4, _, _, _, _⟩ := UpdatePlugAndPlay_reentrant E fuel s b s1 hwf h
    have hnd : (dispatched (traceSince s s1)).Nodup := by
      rw [h2, List.nodup_append]
      refine ⟨hwf.1, ?_, ?_⟩
      · rw [h3]; exact List.nodup_range' _ _
      · intro x hx hx2
        obtain ⟨e, he, rfl⟩ := List.mem_map.1 hx
        have h5 := (hwf.2.1 e he).2
        rw [h3] at hx2
        have h6 := List.mem_range'_1.1 hx2
        omega
    obtain ⟨added, a1, a2, a3, a4, _⟩ := UpdatePlugAndPlay_served E fuel s b s1 hwf h
    refine ⟨h2, hnd, ?_, ?_, h4, added, a1, ?_, a2, a3, a4⟩
    · intro e he
      have hm : e.pElement ∈ dispatched (traceSince s s1) := by
        rw [h2]
        exact List.mem_append_left _ (List.mem_map_of_mem _ he)
      exact List.count_eq_one_of_mem hnd hm
    · intro p hp
      have hm : p ∈ dispatched (traceSince s s1) := by
        rw [h2]
        exact List.mem_append_right _ hp
      exact List.count_eq_one_of_mem hnd hm
    · rw [h2, List.map_append, a1]
  · intro pre post a p p2 hpnp hl hpre hcall hp2 hpost hnew fuel hfuel
    have hu := UpdatePlugAndPlay_reenqueue E s pre post a p p2 hpnp hwf hl hpre hcall hp2 hpost
      hnew fuel hfuel
    refine ⟨_, hu, traceSince_append _ _ _ rfl, rfl, rfl, ?_, ?_, ?_, ?_⟩
    · rw [traceSince_append _ _ _ rfl]
      simp only [inserted_append, inserted_passTrace, (findLastTrace_proj _).2.1]
      rfl
    · rw [traceSince_append _ _ _ rfl, hl]
      simp only [dispatched_append, dispatched_passTrace, (findLastTrace_proj _).1]
      simp [dispatched]
    · rw [traceSince_append _ _ _ rfl, hl]
      simp only [served_append, served_passTrace, served_findLastTrace]
      simp [served, TPortStatusEvent.served]
    · intro e he
      have he2 : e ∈ remaining E s.world pre ∨ e ∈ remaining E
          (E.RootPortHandlePortStatusChange p (worldAfterPass E s.world pre)).1 post :=
        List.mem_append.1 he
      have hmem : e ∈ s.m_EventList := by
        rw [hl]
        rcases he2 with h | h
        · exact List.mem_append_left _ ((remaining_sublist E pre _).subset h)
        · exact List.mem_append_right _
            (List.mem_cons_of_mem _ ((remaining_sublist E post _).subset h))
      refine ⟨hmem, ?_, ?_⟩
      · have := (hwf.2.1 e hmem).2
        omega
      · rcases he2 with h | h
        · exact remaining_isDeviceRemoved E pre _ e h
        · exact remaining_isDeviceRemoved E post _ e h

/-- Witness for C5 (amended): the pass over `[A, B, C]` at tick 120, where the handler
of `B` (root port 7) enqueues a root-port-8 event as node 4: the pass returns with
four iterations, serves `A`, `B`, `C` and then the new event, and leaves `[A, C]`. -/
theorem C5_reentrant_enqueue_same_pass_witness :
    ∃ s1, UpdatePlugAndPlay demoReentrant 4 (demoState false demoQueue 3 ⟨120, 0⟩) =
        .ok (true, s1) ∧
      traceSince (demoState false demoQueue 3 ⟨120, 0⟩) s1 =
        [Action.Acquire, Action.GetFirst,
         Action.GetPtr 1, Action.Release, Action.ShutdownDevice 9 false, Action.GetTicks 120,
         Action.Acquire, Action.GetNext 1,
         Action.GetPtr 2, Action.Release, Action.RootPortHandlePortStatusChange 7,
         Action.Acquire, Action.GetFirst, Action.GetNext 1, Action.GetNext 2, Action.GetNext 3,
         Action.InsertAfter 3 4, Action.Release,
         Action.Acquire, Action.GetNext 2, Action.Remove 2,
         Action.GetPtr 3, Action.Release, Action.ShutdownDevice 11 false, Action.GetTicks 120,
         Action.Acquire, Action.GetNext 3,
         Action.GetPtr 4, Action.Release, Action.RootPortHandlePortStatusChange 8,
         Action.Acquire, Action.GetNext 4, Action.Remove 4,
         Action.Release] ∧
      s1.m_EventList = [⟨1, .PortStatusEventDeviceRemoved 9 100⟩,
        ⟨3, .PortStatusEventDeviceRemoved 11 100⟩] ∧
      dispatched (traceSince (demoState false demoQueue 3 ⟨120, 0⟩) s1) = [1, 2, 3, 4] ∧
      served (traceSince (demoState false demoQueue 3 ⟨120, 0⟩) s1) =
        [Served.Device 9, Served.RootPort 7, Served.Device 11, Served.RootPort 8] := by
  obtain ⟨s1, h1, h2, h3, _, _, h6, h7, _⟩ :=
    (C5_reentrant_enqueue_same_pass demoReentrant (demoState false demoQueue 3 ⟨120, 0⟩)
      (demoState_WF _ _)).2
      [⟨1, .PortStatusEventDeviceRemoved 9 100⟩] [⟨3, .PortStatusEventDeviceRemoved 11 100⟩]
      2 7 8 rfl rfl ⟨rfl, trivial⟩ rfl (by decide) ⟨rfl, trivial⟩ rfl 4 (by decide)
  refine ⟨s1, h1, ?_, ?_, ?_, ?_⟩
  · rw [h2]; decide
  · rw [h3]; decide
  · rw [h6]; rfl
  · rw [h7]; rfl

/-- C6 (setup-packet shape): for 8-bit `ucRequestType`, `ucRequest` and 16-bit
`usValue`, `usIndex`, `usDataSize`, `ControlMessage` makes exactly one call, the
submission of a request whose setup descriptor carries the five inputs unchanged,
and whose buffer pointer and buffer length are `pData` and `usDataSize`. -/
theorem C6_setup_packet_shape {σ : Type} (E : Collaborators σ) (s : State σ)
    (pEndpoint ucRequestType ucRequest usValue usIndex pData usDataSize : Nat)
    (h1 : ucRequestType < 256) (h2 : ucRequest < 256) (h3 : usValue < 65536)
    (h4 : usIndex < 65536) (h5 : usDataSize < 65536) :
    ∃ bOK, traceSince s (ControlMessage E pEndpoint ucRequestType ucRequest usValue usIndex
        pData usDataSize s).2 =
      [Action.SubmitBlockingRequest
        { pEndpoint := pEndpoint, pBuffer := pData, nBufLen := usDataSize,
          pSetupData := some { bmRequestType := ucRequestType, bRequest := ucRequest,
                               wValue := usValue, wIndex := usIndex, wLength := usDataSize } }
        none bOK] := by
  have hU : controlURB pEndpoint ucRequestType ucRequest usValue usIndex pData usDataSize =
      { pEndpoint := pEndpoint, pBuffer := pData, nBufLen := usDataSize,
        pSetupData := some { bmRequestType := ucRequestType, bRequest := ucRequest,
                             wValue := usValue, wIndex := usIndex, wLength := usDataSize } } := by
    simp only [controlURB, Nat.mod_eq_of_lt h1, Nat.mod_eq_of_lt h2, Nat.mod_eq_of_lt h3,
      Nat.mod_eq_of_lt h4, Nat.mod_eq_of_lt h5]
  refine ⟨(E.SubmitBlockingRequest
    (controlURB pEndpoint ucRequestType ucRequest usValue usIndex pData usDataSize)
    none s.world).1, ?_⟩
  rw [traceSince_append s _ _ (ControlMessage_trace E s _ _ _ _ _ _ _), hU]

/-- Witness for C6: the standard "get device descriptor" request, 18 bytes. -/
theorem C6_setup_packet_shape_witness :
    submitted (traceSince (demoState false [] 0 ⟨0, 0⟩)
      (ControlMessage demoQuiet 1 128 6 256 0 4096 18 (demoState false [] 0 ⟨0, 0⟩)).2) =
      [(⟨1, 4096, 18, some ⟨128, 6, 256, 0, 18⟩⟩, none)] := by
  obtain ⟨bOK, h⟩ := C6_setup_packet_shape demoQuiet (demoState false [] 0 ⟨0, 0⟩)
    1 128 6 256 0 4096 18 (by decide) (by decide) (by decide) (by decide) (by decide)
  rw [h]
  rfl

/-- C7: `ControlMessage` submits exactly one request, `URB` with the default
timeout.  It returns the request's result length (as `int`) when the submission
reports success and `-1` when it reports failure.  Hence, if a successful
submission reports a non-negative length, the return value is negative exactly
when the submission failed. -/
theorem C7_control_message_result {σ : Type} (E : Collaborators σ) (s : State σ)
    (pEndpoint ucRequestType ucRequest usValue usIndex pData usDataSize : Nat)
    (bOK : Bool) (nResultLen : Nat) (w : σ)
    (hsub : E.SubmitBlockingRequest
      (controlURB pEndpoint ucRequestType ucRequest usValue usIndex pData usDataSize)
      none s.world = (bOK, nResultLen, w)) :
    submitted (traceSince s (ControlMessage E pEndpoint ucRequestType ucRequest usValue
        usIndex pData usDataSize s).2) =
      [(controlURB pEndpoint ucRequestType ucRequest usValue usIndex pData usDataSize, none)] ∧
    (bOK = true →
      (ControlMessage E pEndpoint ucRequestType ucRequest usValue usIndex pData
        usDataSize s).1 = toInt32 nResultLen) ∧
    (bOK = false →
      (ControlMessage E pEndpoint ucRequestType ucRequest usValue usIndex pData
        usDataSize s).1 = -1) ∧
    ((bOK = true → 0 ≤ toInt32 nResultLen) →
      ((ControlMessage E pEndpoint ucRequestType ucRequest usValue usIndex pData
        usDataSize s).1 < 0 ↔ bOK = false)) := by
  refine ⟨?_, ?_, ?_, ?_⟩
  · rw [traceSince_append s _ _ (ControlMessage_trace E s _ _ _ _ _ _ _)]
    rfl
  · intro h
    simp [ControlMessage, hsub, h]
  · intro h
    simp [ControlMessage, hsub, h]
  · intro h
    cases bOK with
    | true =>
      have h0 := h rfl
      simp only [ControlMessage, hsub, if_true]
      constructor
      · intro hneg; omega
      · intro hf; cases hf
    | false => simp [ControlMessage, hsub]

/-- Witness for C7: on endpoint 1 the submission succeeds and reports 18 bytes, so
18 is returned; on the null endpoint it fails and the sentinel `-1` is returned. -/
theorem C7_control_message_result_witness :
    (ControlMessage demoQuiet 1 128 6 256 0 4096 18 (demoState false [] 0 ⟨0, 0⟩)).1 = 18 ∧
    (ControlMessage demoQuiet 0 128 6 256 0 4096 18 (demoState false [] 0 ⟨0, 0⟩)).1 = -1 :=
  ⟨(C7_control_message_result demoQuiet (demoState false [] 0 ⟨0, 0⟩) 1 128 6 256 0 4096 18
      true 18 ⟨0, 0⟩ rfl).2.1 rfl,
   (C7_control_message_result demoQuiet (demoState false [] 0 ⟨0, 0⟩) 0 128 6 256 0 4096 18
      false 18 ⟨0, 0⟩ rfl).2.2.1 rfl⟩

/-- C8: for 8-bit `ucType` and `ucIndex` (and any request type, language id, buffer
and size) `GetDescriptor` is the `ControlMessage` call with `bRequest =
GET_DESCRIPTOR`, `wValue = (ucType << 8) | ucIndex` and `wIndex` the language id,
and returns its result.  That `wValue` fits 16 bits, its high byte is `ucType` and
its low byte `ucIndex`; hence distinct (type, index) pairs give distinct values.
The request submitted carries exactly this `wValue`. -/
theorem C8_get_descriptor {σ : Type} (E : Collaborators σ) (s : State σ)
    (pEndpoint ucType ucIndex pBuffer nBufSize ucRequestType wIndex : Nat)
    (hT : ucType < 256) (hI : ucIndex < 256) :
    GetDescriptor E pEndpoint ucType ucIndex pBuffer nBufSize ucRequestType wIndex s =
      ControlMessage E pEndpoint ucRequestType GET_DESCRIPTOR ((ucType <<< 8) ||| ucIndex)
        wIndex pBuffer nBufSize s ∧
    ((ucType <<< 8) ||| ucIndex) < 65536 ∧
    ((ucType <<< 8) ||| ucIndex) / 256 = ucType ∧
    ((ucType <<< 8) ||| ucIndex) % 256 = ucIndex ∧
    (∀ ty ix : Nat, ty < 256 → ix < 256 →
      ((ty <<< 8) ||| ix) = ((ucType <<< 8) ||| ucIndex) → ty = ucType ∧ ix = ucIndex) ∧
    submitted (traceSince s
      (GetDescriptor E pEndpoint ucType ucIndex pBuffer nBufSize ucRequestType wIndex s).2) =
      [(⟨pEndpoint, pBuffer, nBufSize % 65536,
          some ⟨ucRequestType % 256, GET_DESCRIPTOR, (ucType <<< 8) ||| ucIndex,
            wIndex % 65536, nBufSize % 65536⟩⟩, none)] := by
  have hv := shiftLeft_or_eq ucType ucIndex hI
  have hlt : ((ucType <<< 8) ||| ucIndex) < 65536 := by rw [hv]; omega
  have hU : controlURB pEndpoint (ucRequestType % 256) GET_DESCRIPTOR
      (((ucType % 256) <<< 8) ||| (ucIndex % 256)) (wIndex % 65536) pBuffer (nBufSize % U32) =
      controlURB pEndpoint ucRequestType GET_DESCRIPTOR ((ucType <<< 8) ||| ucIndex) wIndex
        pBuffer nBufSize := by
    have e1 : nBufSize % U32 % 65536 = nBufSize % 65536 := by unfold U32; omega
    simp only [controlURB, Nat.mod_eq_of_lt hT, Nat.mod_eq_of_lt hI, Nat.mod_mod, e1]
  have hG : GetDescriptor E pEndpoint ucType ucIndex pBuffer nBufSize ucRequestType wIndex s =
      ControlMessage E pEndpoint ucRequestType GET_DESCRIPTOR ((ucType <<< 8) ||| ucIndex)
        wIndex pBuffer nBufSize s := by
    simp only [GetDescriptor, ControlMessage, hU]
  refine ⟨hG, hlt, by rw [hv]; omega, by rw [hv]; omega, ?_, ?_⟩
  · intro ty ix _ hix h
    rw [hv, shiftLeft_or_eq ty ix hix] at h
    omega
  · rw [hG, traceSince_append s _ _ (ControlMessage_trace E s _ _ _ _ _ _ _)]
    simp only [controlURB, Nat.mod_eq_of_lt hlt, GET_DESCRIPTOR]
    rfl

/-- Witness for C8: the device descriptor (type 1, index 0) gives `wValue = 256`, a
string descriptor (type 3, index 2) with language id `0x409` gives `wValue = 770`. -/
theorem C8_get_descriptor_witness :
    submitted (traceSince (demoState false [] 0 ⟨0, 0⟩)
      (GetDescriptor demoQuiet 1 3 2 4096 64 128 1033 (demoState false [] 0 ⟨0, 0⟩)).2) =
      [(⟨1, 4096, 64, some ⟨128, 6, 770, 1033, 64⟩⟩, none)] := by
  rw [(C8_get_descriptor demoQuiet (demoState false [] 0 ⟨0, 0⟩) 1 3 2 4096 64 128 1033
    (by decide) (by decide)).2.2.2.2.2]
  rfl

/-- C9 (settle timing): let `now` measure elapsed milliseconds, and let
`MsDelay (ms)` advance it by at least `ms`.  Whenever `SetAddress` or
`SetConfiguration` returns `TRUE`, its submission succeeded and at least 50 ms lie
between the world in which the submission completed and the world at return. -/
theorem C9_settle_timing {σ : Type} (E : Collaborators σ) (now : σ → Nat)
    (hdelay : ∀ (ms : Nat) (w : σ), now w + ms ≤ now (E.MsDelay ms w))
    (s : State σ) (pEndpoint v : Nat) :
    ((SetAddress E pEndpoint v s).1 = true →
      (E.SubmitBlockingRequest (controlURB pEndpoint REQUEST_OUT SET_ADDRESS (v % 256) 0 0 0)
        none s.world).1 = true ∧
      now (E.SubmitBlockingRequest (controlURB pEndpoint REQUEST_OUT SET_ADDRESS (v % 256) 0 0 0)
        none s.world).2.2 + 50 ≤ now (SetAddress E pEndpoint v s).2.world) ∧
    ((SetConfiguration E pEndpoint v s).1 = true →
      (E.SubmitBlockingRequest
        (controlURB pEndpoint REQUEST_OUT SET_CONFIGURATION (v % 256) 0 0 0)
        none s.world).1 = true ∧
      now (E.SubmitBlockingRequest
        (controlURB pEndpoint REQUEST_OUT SET_CONFIGURATION (v % 256) 0 0 0)
        none s.world).2.2 + 50 ≤ now (SetConfiguration E pEndpoint v s).2.world) := by
  have key : ∀ ucRequest : Nat,
      ((if (ControlMessage E pEndpoint REQUEST_OUT ucRequest (v % 256) 0 0 0 s).1 < 0
        then (false, (ControlMessage E pEndpoint REQUEST_OUT ucRequest (v % 256) 0 0 0 s).2)
        else (true, callMsDelay E 50
          (ControlMessage E pEndpoint REQUEST_OUT ucRequest (v % 256) 0 0 0 s).2)).1 = true →
      (E.SubmitBlockingRequest (controlURB pEndpoint REQUEST_OUT ucRequest (v % 256) 0 0 0)
        none s.world).1 = true ∧
      now (E.SubmitBlockingRequest (controlURB pEndpoint REQUEST_OUT ucRequest (v % 256) 0 0 0)
        none s.world).2.2 + 50 ≤
        now (if (ControlMessage E pEndpoint REQUEST_OUT ucRequest (v % 256) 0 0 0 s).1 < 0
          then (false, (ControlMessage E pEndpoint REQUEST_OUT ucRequest (v % 256) 0 0 0 s).2)
          else (true, callMsDelay E 50
            (ControlMessage E pEndpoint REQUEST_OUT ucRequest (v % 256) 0 0 0 s).2)).2.world) := by
    intro ucRequest
    split
    · intro h; cases h
    · rename_i hneg
      intro _
      refine ⟨?_, ?_⟩
      · by_contra hf
        apply hneg
        have hf2 : (E.SubmitBlockingRequest
            (controlURB pEndpoint REQUEST_OUT ucRequest (v % 256) 0 0 0) none s.world).1
            = false := by simpa using hf
        simp [ControlMessage, hf2]
      · show _ ≤ now (E.MsDelay 50
          (ControlMessage E pEndpoint REQUEST_OUT ucRequest (v % 256) 0 0 0 s).2.world)
        rw [ControlMessage_world]
        exact hdelay 50 _
  exact ⟨key SET_ADDRESS, key SET_CONFIGURATION⟩

/-- Witness for C9: in the demo world `MsDelay` advances the millisecond clock by
its argument; a successful `SetAddress` started at 7 ms returns at 57 ms or later. -/
theorem C9_settle_timing_witness :
    (SetAddress demoQuiet 1 3 (demoState false [] 0 ⟨0, 7⟩)).1 = true ∧
    57 ≤ (SetAddress demoQuiet 1 3 (demoState false [] 0 ⟨0, 7⟩)).2.world.nMs :=
  ⟨rfl, ((C9_settle_timing demoQuiet DemoWorld.nMs (fun _ _ => Nat.le_refl _)
    (demoState false [] 0 ⟨0, 7⟩) 1 3).1 rfl).2⟩

/-- C10: for an 8-bit value `v`, `SetAddress` submits exactly one request: the
control message with `bmRequestType = REQUEST_OUT`, `bRequest = SET_ADDRESS`,
`wValue = v`, `wIndex = 0`, `wLength = 0` and a null, empty data buffer;
`SetConfiguration` does the same with `bRequest = SET_CONFIGURATION`.  Each returns
`FALSE` exactly when that control message returns a negative value, in particular
whenever the submission fails, and `TRUE` otherwise. -/
theorem C10_set_address_configuration {σ : Type} (E : Collaborators σ) (s : State σ)
    (pEndpoint v : Nat) (hv : v < 256) :
    (submitted (traceSince s (SetAddress E pEndpoint v s).2) =
        [(⟨pEndpoint, 0, 0, some ⟨REQUEST_OUT, SET_ADDRESS, v, 0, 0⟩⟩, none)] ∧
      ((SetAddress E pEndpoint v s).1 = false ↔
        (ControlMessage E pEndpoint REQUEST_OUT SET_ADDRESS v 0 0 0 s).1 < 0) ∧
      ((E.SubmitBlockingRequest ⟨pEndpoint, 0, 0, some ⟨REQUEST_OUT, SET_ADDRESS, v, 0, 0⟩⟩
          none s.world).1 = false → (SetAddress E pEndpoint v s).1 = false)) ∧
    (submitted (traceSince s (SetConfiguration E pEndpoint v s).2) =
        [(⟨pEndpoint, 0, 0, some ⟨REQUEST_OUT, SET_CONFIGURATION, v, 0, 0⟩⟩, none)] ∧
      ((SetConfiguration E pEndpoint v s).1 = false ↔
        (ControlMessage E pEndpoint REQUEST_OUT SET_CONFIGURATION v 0 0 0 s).1 < 0) ∧
      ((E.SubmitBlockingRequest
          ⟨pEndpoint, 0, 0, some ⟨REQUEST_OUT, SET_CONFIGURATION, v, 0, 0⟩⟩
          none s.world).1 = false → (SetConfiguration E pEndpoint v s).1 = false)) := by
  have key : ∀ ucRequest : Nat, ucRequest < 256 →
      (submitted (traceSince s
        (if (ControlMessage E pEndpoint REQUEST_OUT ucRequest v 0 0 0 s).1 < 0
          then (false, (ControlMessage E pEndpoint REQUEST_OUT ucRequest v 0 0 0 s).2)
          else (true, callMsDelay E 50
            (ControlMessage E pEndpoint REQUEST_OUT ucRequest v 0 0 0 s).2)).2) =
        [(⟨pEndpoint, 0, 0, some ⟨REQUEST_OUT, ucRequest, v, 0, 0⟩⟩, none)] ∧
      ((if (ControlMessage E pEndpoint REQUEST_OUT ucRequest v 0 0 0 s).1 < 0
          then (false, (ControlMessage E pEndpoint REQUEST_OUT ucRequest v 0 0 0 s).2)
          else (true, callMsDelay E 50
            (ControlMessage E pEndpoint REQUEST_OUT ucRequest v 0 0 0 s).2)).1 = false ↔
        (ControlMessage E pEndpoint REQUEST_OUT ucRequest v 0 0 0 s).1 < 0) ∧
      ((E.SubmitBlockingRequest ⟨pEndpoint, 0, 0, some ⟨REQUEST_OUT, ucRequest, v, 0, 0⟩⟩
          none s.world).1 = false →
        (if (ControlMessage E pEndpoint REQUEST_OUT ucRequest v 0 0 0 s).1 < 0
          then (false, (ControlMessage E pEndpoint REQUEST_OUT ucRequest v 0 0 0 s).2)
          else (true, callMsDelay E 50
            (ControlMessage E pEndpoint REQUEST_OUT ucRequest v 0 0 0 s).2)).1 = false)) := by
    intro ucRequest hr
    have hU : controlURB pEndpoint REQUEST_OUT ucRequest v 0 0 0 =
        ⟨pEndpoint, 0, 0, some ⟨REQUEST_OUT, ucRequest, v, 0, 0⟩⟩ := by
      have hv2 : v < 65536 := by omega
      simp [controlURB, Nat.mod_eq_of_lt hv2, Nat.mod_eq_of_lt hr, REQUEST_OUT]
    refine ⟨?_, ?_, ?_⟩
    · rw [settle_trace, hU]
    · split <;> simp_all
    · intro hf
      have hneg : (ControlMessage E pEndpoint REQUEST_OUT ucRequest v 0 0 0 s).1 < 0 := by
        simp [ControlMessage, hU, hf]
      simp [hneg]
  have hmod : v % 256 = v := Nat.mod_eq_of_lt hv
  have h1 := key SET_ADDRESS (by decide)
  have h2 := key SET_CONFIGURATION (by decide)
  simp only [SetAddress, SetConfiguration, hmod]
  exact ⟨h1, h2⟩

/-- Witness for C10: `SetAddress` with address 3 on endpoint 1 succeeds, on the null
endpoint the submission fails and `FALSE` is returned. -/
theorem C10_set_address_configuration_witness :
    submitted (traceSince (demoState false [] 0 ⟨0, 0⟩)
      (SetAddress demoQuiet 1 3 (demoState false [] 0 ⟨0, 0⟩)).2) =
      [(⟨1, 0, 0, some ⟨0, 5, 3, 0, 0⟩⟩, none)] ∧
    (SetAddress demoQuiet 0 3 (demoState false [] 0 ⟨0, 0⟩)).1 = false :=
  ⟨(C10_set_address_configuration demoQuiet (demoState false [] 0 ⟨0, 0⟩) 1 3 (by decide)).1.1,
   (C10_set_address_configuration demoQuiet (demoState false [] 0 ⟨0, 0⟩) 0 3
    (by decide)).1.2.2 rfl⟩

/-- C11: for a 32-bit buffer size and timeout, `Transfer` submits exactly one
request, which carries no setup descriptor, the caller's buffer and length, and is
submitted with the caller's timeout `nTimeoutMs`.  It returns `-1` when the
submission reports failure (a timeout is reported as failure) and the request's
result length (as `int`) otherwise. -/
theorem C11_transfer {σ : Type} (E : Collaborators σ) (s : State σ)
    (pEndpoint pBuffer nBufSize nTimeoutMs : Nat) (bOK : Bool) (nResultLen : Nat) (w : σ)
    (hB : nBufSize < U32) (hT : nTimeoutMs < U32)
    (hsub : E.SubmitBlockingRequest ⟨pEndpoint, pBuffer, nBufSize, none⟩ (some nTimeoutMs)
      s.world = (bOK, nResultLen, w)) :
    traceSince s (Transfer E pEndpoint pBuffer nBufSize nTimeoutMs s).2 =
      [Action.SubmitBlockingRequest ⟨pEndpoint, pBuffer, nBufSize, none⟩ (some nTimeoutMs) bOK] ∧
    submitted (traceSince s (Transfer E pEndpoint pBuffer nBufSize nTimeoutMs s).2) =
      [(⟨pEndpoint, pBuffer, nBufSize, none⟩, some nTimeoutMs)] ∧
    (bOK = false → (Transfer E pEndpoint pBuffer nBufSize nTimeoutMs s).1 = -1) ∧
    (bOK = true →
      (Transfer E pEndpoint pBuffer nBufSize nTimeoutMs s).1 = toInt32 nResultLen) := by
  have htr : (Transfer E pEndpoint pBuffer nBufSize nTimeoutMs s).2.trace = s.trace ++
      [Action.SubmitBlockingRequest ⟨pEndpoint, pBuffer, nBufSize, none⟩ (some nTimeoutMs)
        bOK] := by
    simp only [Transfer, Nat.mod_eq_of_lt hB, Nat.mod_eq_of_lt hT, hsub, State.log]
    split <;> rfl
  refine ⟨traceSince_append s _ _ htr, ?_, ?_, ?_⟩
  · rw [traceSince_append s _ _ htr]; rfl
  · intro h
    simp [Transfer, Nat.mod_eq_of_lt hB, Nat.mod_eq_of_lt hT, hsub, h]
  · intro h
    simp [Transfer, Nat.mod_eq_of_lt hB, Nat.mod_eq_of_lt hT, hsub, h]

/-- Witness for C11: a 512-byte transfer with a 100 ms timeout on endpoint 2
succeeds and returns 512; on the null endpoint it fails and returns `-1`. -/
theorem C11_transfer_witness :
    (Transfer demoQuiet 2 4096 512 100 (demoState false [] 0 ⟨0, 0⟩)).1 = 512 ∧
    (Transfer demoQuiet 0 4096 512 100 (demoState false [] 0 ⟨0, 0⟩)).1 = -1 ∧
    submitted (traceSince (demoState false [] 0 ⟨0, 0⟩)
      (Transfer demoQuiet 2 4096 512 100 (demoState false [] 0 ⟨0, 0⟩)).2) =
      [(⟨2, 4096, 512, none⟩, some 100)] :=
  ⟨(C11_transfer demoQuiet (demoState false [] 0 ⟨0, 0⟩) 2 4096 512 100 true 512 ⟨0, 0⟩
      (by decide) (by decide) rfl).2.2.2 rfl,
   (C11_transfer demoQuiet (demoState false [] 0 ⟨0, 0⟩) 0 4096 512 100 false 512 ⟨0, 0⟩
      (by decide) (by decide) rfl).2.2.1 rfl,
   (C11_transfer demoQuiet (demoState false [] 0 ⟨0, 0⟩) 2 4096 512 100 true 512 ⟨0, 0⟩
      (by decide) (by decide) rfl).2.1⟩

/-- C12 (tail append): with plug-and-play enabled and a non-null reference, on every
queue (a list with pairwise distinct node addresses) `PortStatusChanged` of a root
port returns and turns the queue `q` into `q ++ [RootPortChanged]`, and
`PortStatusChanged` of a hub turns it into `q ++ [HubChanged]`: the new event is
last, the length grows by one, and every earlier position holds what it held. -/
theorem C12_tail_append {σ : Type} (s : State σ) (p : Nat)
    (hpnp : s.s_bPlugAndPlay = true) (hp : p ≠ 0)
    (hnd : (s.m_EventList.map TPtrListElement.pElement).Nodup) :
    (∃ s1, PortStatusChangedRootPort p s = .ok s1 ∧
      s1.m_EventList = s.m_EventList ++ [⟨s.nAllocated + 1, .PortStatusEventFromRootPort p⟩] ∧
      s1.m_EventList.length = s.m_EventList.length + 1 ∧
      s1.m_EventList.getLast? = some ⟨s.nAllocated + 1, .PortStatusEventFromRootPort p⟩ ∧
      (∀ i, i < s.m_EventList.length → s1.m_EventList[i]? = s.m_EventList[i]?)) ∧
    (∃ s1, PortStatusChangedHub p s = .ok s1 ∧
      s1.m_EventList = s.m_EventList ++ [⟨s.nAllocated + 1, .PortStatusEventFromHub p⟩] ∧
      s1.m_EventList.length = s.m_EventList.length + 1 ∧
      s1.m_EventList.getLast? = some ⟨s.nAllocated + 1, .PortStatusEventFromHub p⟩ ∧
      (∀ i, i < s.m_EventList.length → s1.m_EventList[i]? = s.m_EventList[i]?)) := by
  constructor
  · refine ⟨appendEvent (.PortStatusEventFromRootPort p) s, ?_, appendEvent_list s _ hnd, ?_,
      ?_, ?_⟩
    · simp [PortStatusChangedRootPort, hpnp, hp]
    · rw [appendEvent_list s _ hnd]; simp
    · rw [appendEvent_list s _ hnd]; simp
    · intro i hi
      rw [appendEvent_list s _ hnd]
      exact getElem?_append_singleton_lt _ _ i hi
  · refine ⟨appendEvent (.PortStatusEventFromHub p) s, ?_, appendEvent_list s _ hnd, ?_,
      ?_, ?_⟩
    · simp [PortStatusChangedHub, hpnp, hp]
    · rw [appendEvent_list s _ hnd]; simp
    · rw [appendEvent_list s _ hnd]; simp
    · intro i hi
      rw [appendEvent_list s _ hnd]
      exact getElem?_append_singleton_lt _ _ i hi

/-- Witness for C12: a status change of root port 7 reported on the queue
`[A, B, C]` gives `[A, B, C, RootPortChanged 7]`. -/
theorem C12_tail_append_witness :
    ∃ s1, PortStatusChangedRootPort 7 (demoState false demoQueue 3 ⟨0, 0⟩) = .ok s1 ∧
      s1.m_EventList = demoQueue ++ [⟨4, .PortStatusEventFromRootPort 7⟩] := by
  obtain ⟨s1, h1, h2, _⟩ := (C12_tail_append (demoState false demoQueue 3 ⟨0, 0⟩) 7 rfl
    (by decide) (by decide)).1
  exact ⟨s1, h1, h2⟩

/-- C13 (deferred removal enqueue): with plug-and-play enabled, a non-null device `d`
whose `ShutdownDevice` returns false, and any queue (pairwise distinct node
addresses), `RemoveDevice` returns after calling `ShutdownDevice` exactly once and
reading the timer once, destroys nothing, and turns the queue `q` into
`q ++ [DeviceRemoved d t]` where `t` is that timer reading; every earlier position
holds what it held. -/
theorem C13_deferred_removal_enqueue {σ : Type} (E : Collaborators σ) (s : State σ) (d : Nat)
    (hpnp : s.s_bPlugAndPlay = true) (hd : d ≠ 0)
    (hshut : (E.ShutdownDevice d s.world).1 = false)
    (hnd : (s.m_EventList.map TPtrListElement.pElement).Nodup) :
    ∃ s1, RemoveDevice E d s = .ok s1 ∧
      s1.m_EventList = s.m_EventList ++ [⟨s.nAllocated + 1,
        .PortStatusEventDeviceRemoved d (E.GetTicks (E.ShutdownDevice d s.world).2 % U32)⟩] ∧
      shutdowns (traceSince s s1) = [(d, false)] ∧
      tickReads (traceSince s s1) = [E.GetTicks (E.ShutdownDevice d s.world).2 % U32] ∧
      destroyed (traceSince s s1) = [] ∧
      (∀ i, i < s.m_EventList.length → s1.m_EventList[i]? = s.m_EventList[i]?) := by
  have hs : RemoveDevice E d s = .ok (appendEvent
      (.PortStatusEventDeviceRemoved d (E.GetTicks (E.ShutdownDevice d s.world).2 % U32))
      (callGetTicks E (callShutdownDevice E d s).2).2) := by
    simp [RemoveDevice, hd, IsPlugAndPlay, hpnp, callShutdownDevice, hshut, callGetTicks]
  have hl : (appendEvent
      (.PortStatusEventDeviceRemoved d (E.GetTicks (E.ShutdownDevice d s.world).2 % U32))
      (callGetTicks E (callShutdownDevice E d s).2).2).m_EventList =
      s.m_EventList ++ [⟨s.nAllocated + 1,
        .PortStatusEventDeviceRemoved d (E.GetTicks (E.ShutdownDevice d s.world).2 % U32)⟩] :=
    appendEvent_list _ _ hnd
  have htr : (appendEvent
      (.PortStatusEventDeviceRemoved d (E.GetTicks (E.ShutdownDevice d s.world).2 % U32))
      (callGetTicks E (callShutdownDevice E d s).2).2).trace =
      s.trace ++ ([Action.ShutdownDevice d false,
        Action.GetTicks (E.GetTicks (E.ShutdownDevice d s.world).2 % U32)] ++
        ([Action.Acquire] ++ findLastTrace s.m_EventList ++
          [Action.InsertAfter (findLast s.m_EventList 0) (s.nAllocated + 1),
            Action.Release])) := by
    rw [appendEvent_trace]
    simp [callGetTicks, callShutdownDevice, State.log, hshut, List.append_assoc]
  obtain ⟨p1, p2, _⟩ := findLastTrace_proj2 s.m_EventList
  obtain ⟨_, _, _, p4⟩ := findLastTrace_proj s.m_EventList
  refine ⟨_, hs, hl, ?_, ?_, ?_, ?_⟩
  · rw [traceSince_append s _ _ htr, shutdowns_append, shutdowns_append, shutdowns_append, p1]
    rfl
  · rw [traceSince_append s _ _ htr, tickReads_append, tickReads_append, tickReads_append, p2]
    rfl
  · rw [traceSince_append s _ _ htr, destroyed_append, destroyed_append, destroyed_append, p4]
    rfl
  · intro i hi
    rw [hl]
    exact getElem?_append_singleton_lt _ _ i hi

/-- Witness for C13: device 9 refuses to shut down; its removal at tick 120 appends
`DeviceRemoved 9 120` to `[A, B, C]`. -/
theorem C13_deferred_removal_enqueue_witness :
    ∃ s1, RemoveDevice demoQuiet 9 (demoState false demoQueue 3 ⟨120, 0⟩) = .ok s1 ∧
      s1.m_EventList = demoQueue ++ [⟨4, .PortStatusEventDeviceRemoved 9 120⟩] := by
  obtain ⟨s1, h1, h2, _⟩ := C13_deferred_removal_enqueue demoQuiet
    (demoState false demoQueue 3 ⟨120, 0⟩) 9 rfl (by decide) rfl (by decide)
  exact ⟨s1, h1, h2⟩

/-- C14 (plug-and-play guard): with plug-and-play disabled, both `PortStatusChanged`
overloads and `UpdatePlugAndPlay` fail at their first assertion (lines 220, 245,
151), for every argument, collaborator and iteration budget, and the state in
which they fail is the state they were called in: queue, first-update flag and
trace are untouched, so no handler was invoked.  `RemoveDevice` of a non-null
device does not fail: it destroys the device and returns. -/
theorem C14_plug_and_play_guard {σ : Type} (E : Collaborators σ) (fuel : Nat) (s : State σ)
    (p d : Nat) (hpnp : s.s_bPlugAndPlay = false) :
    PortStatusChangedRootPort p s = .assertionFailed 220 s ∧
    PortStatusChangedHub p s = .assertionFailed 245 s ∧
    UpdatePlugAndPlay E fuel s = .assertionFailed 151 s ∧
    (d ≠ 0 → RemoveDevice E d s = .ok (deleteDevice E d s)) := by
  refine ⟨?_, ?_, ?_, ?_⟩
  · simp [PortStatusChangedRootPort, hpnp]
  · simp [PortStatusChangedHub, hpnp]
  · simp [UpdatePlugAndPlay, hpnp]
  · intro hd
    simp [RemoveDevice, hd, IsPlugAndPlay, hpnp]

/-- Witness for C14: on a controller built with plug-and-play disabled, a pass
fails at line 151 in the state it was called in. -/
theorem C14_plug_and_play_guard_witness :
    UpdatePlugAndPlay demoQuiet 3 (CUSBHostController false (⟨0, 0⟩ : DemoWorld)) =
      .assertionFailed 151 (CUSBHostController false (⟨0, 0⟩ : DemoWorld)) :=
  (C14_plug_and_play_guard demoQuiet 3 (CUSBHostController false (⟨0, 0⟩ : DemoWorld)) 7 9
    rfl).2.2.1

/-- C15 (null-free queue invariant): the well-formedness invariant `WF`, which says
that every queued event holds a non-null reference (and that node addresses are
distinct), holds for a new controller and is preserved by each public operation
that returns: both `PortStatusChanged` overloads, `RemoveDevice`,
`UpdatePlugAndPlay`.  Hence in every state reached from a new controller by public
operations each queued event has one of the three tags and a non-null reference,
and when such a run fails an assertion it is the plug-and-play assertion of
`UpdatePlugAndPlay` (line 151) or an argument assertion of a producer, never the
assertions of the dispatch at lines 167, 171, 177 and 183. -/
theorem C15_null_free_queue {σ : Type} (E : Collaborators σ) (bPlugAndPlay : Bool) (w : σ)
    (ops : List (Operation σ)) :
    WF (CUSBHostController bPlugAndPlay w) ∧
    (∀ (op : Operation σ) (s s1 : State σ), WF s → runOperation E op s = .ok s1 → WF s1) ∧
    (∀ s : State σ, runOperations E ops (CUSBHostController bPlugAndPlay w) = .ok s →
      ∀ e ∈ s.m_EventList, e.pPtr.ref ≠ 0 ∧
        ((∃ p, e.pPtr = .PortStatusEventFromRootPort p) ∨
         (∃ p, e.pPtr = .PortStatusEventFromHub p) ∨
         (∃ d t, e.pPtr = .PortStatusEventDeviceRemoved d t))) ∧
    (∀ (n : Nat) (sf : State σ),
      runOperations E ops (CUSBHostController bPlugAndPlay w) = .assertionFailed n sf →
      (n = 151 ∨ n ∈ producerAssertions) ∧ n ≠ 167 ∧ n ≠ 171 ∧ n ≠ 177 ∧ n ≠ 183) := by
  refine ⟨WF_new _ _, fun op s s1 => runOperation_WF E op s s1, ?_, ?_⟩
  · intro s h e he
    have hwf := runOperations_WF E ops _ s (WF_new _ _) h
    refine ⟨hwf.2.2 e he, ?_⟩
    cases e.pPtr with
    | PortStatusEventFromRootPort p => exact Or.inl ⟨p, rfl⟩
    | PortStatusEventFromHub p => exact Or.inr (Or.inl ⟨p, rfl⟩)
    | PortStatusEventDeviceRemoved d t => exact Or.inr (Or.inr ⟨d, t, rfl⟩)
  · intro n sf h
    have hn := runOperations_assert E ops _ sf n (WF_new _ _) h
    refine ⟨hn, ?_⟩
    rcases hn with h1 | h1
    · subst h1; decide
    · simp only [producerAssertions, List.mem_cons, List.mem_singleton, List.not_mem_nil,
        or_false] at h1
      omega

/-- Witness for C15: a status change of root port 7, the removal of the refusing
device 9 and a pass (in which the handler of root port 7 enqueues root port 8)
leave a queue whose only event, the pending removal of device 9, holds a non-null
reference. -/
theorem C15_null_free_queue_witness :
    ∃ s, runOperations demoReentrant
        [.PortStatusChangedRootPort 7, .RemoveDevice 9, .UpdatePlugAndPlay 5]
        (CUSBHostController true (⟨120, 0⟩ : DemoWorld)) = .ok s ∧
      s.m_EventList = [⟨2, .PortStatusEventDeviceRemoved 9 120⟩] ∧
      ∀ e ∈ s.m_EventList, e.pPtr.ref ≠ 0 := by
  refine ⟨_, rfl, rfl, fun e he => ?_⟩
  exact ((C15_null_free_queue demoReentrant true (⟨120, 0⟩ : DemoWorld)
    [.PortStatusChangedRootPort 7, .RemoveDevice 9, .UpdatePlugAndPlay 5]).2.2.1 _ rfl e he).1

/-- C16 (lock discipline): the trace of every `UpdatePlugAndPlay` call that returns,
replayed by `lockRun` from a free lock, is accepted and ends with the lock free.
`lockRun` accepts a trace only if every `HandlePortStatusChange`, `ShutdownDevice`
and device destruction happens with the lock free, every `GetFirst`, `GetPtr`,
`GetNext`, `Remove` and `InsertAfter` with the lock held, every `Acquire` with the
lock free and every `Release` with the lock held (so they alternate, starting with
an `Acquire`).  The same holds for `RemoveDevice`.  The trace of a producer's
locked section is exactly: one `Acquire`, the tail search, one `InsertAfter` of the
new node behind the last node, one `Release`. -/
theorem C16_lock_discipline {σ : Type} (E : Collaborators σ) (fuel : Nat) (s : State σ)
    (p d : Nat) :
    (∀ b s1, UpdatePlugAndPlay E fuel s = .ok (b, s1) →
      lockRun false (traceSince s s1) = some false) ∧
    (∀ s1, PortStatusChangedRootPort p s = .ok s1 →
      traceSince s s1 = [Action.Acquire] ++ findLastTrace s.m_EventList ++
        [Action.InsertAfter (findLast s.m_EventList 0) (s.nAllocated + 1), Action.Release]) ∧
    (∀ s1, PortStatusChangedHub p s = .ok s1 →
      traceSince s s1 = [Action.Acquire] ++ findLastTrace s.m_EventList ++
        [Action.InsertAfter (findLast s.m_EventList 0) (s.nAllocated + 1), Action.Release]) ∧
    (∀ s1, RemoveDevice E d s = .ok s1 → s.s_bPlugAndPlay = true →
      (E.ShutdownDevice d s.world).1 = false →
      traceSince s s1 = [Action.ShutdownDevice d false,
          Action.GetTicks (E.GetTicks (E.ShutdownDevice d s.world).2 % U32)] ++
        ([Action.Acquire] ++ findLastTrace s.m_EventList ++
          [Action.InsertAfter (findLast s.m_EventList 0) (s.nAllocated + 1),
            Action.Release])) ∧
    (∀ s1, RemoveDevice E d s = .ok s1 → lockRun false (traceSince s s1) = some false) ∧
    (∀ (l : CPtrList) (a b : Nat), lockRun false ([Action.Acquire] ++ findLastTrace l ++
      [Action.InsertAfter a b, Action.Release]) = some false) := by
  refine ⟨?_, ?_, ?_, ?_, ?_, lockRun_producer⟩
  · intro b s1 h
    obtain ⟨tr, h1, h2⟩ := UpdatePlugAndPlay_LockStep E fuel s b s1 h
    rw [traceSince_append s s1 tr h1]
    exact h2
  · intro s1 h
    unfold PortStatusChangedRootPort at h
    split at h
    · cases h
    · split at h
      · cases h
      · injection h with h
        subst h
        exact traceSince_append s _ _ (appendEvent_trace s _)
  · intro s1 h
    unfold PortStatusChangedHub at h
    split at h
    · cases h
    · split at h
      · cases h
      · injection h with h
        subst h
        exact traceSince_append s _ _ (appendEvent_trace s _)
  · intro s1 h hpnp hshut
    unfold RemoveDevice at h
    split at h
    · cases h
    · simp only [IsPlugAndPlay, hpnp, Bool.true_eq_false, if_false, callShutdownDevice,
        hshut] at h
      injection h with h
      subst h
      apply traceSince_append
      rw [appendEvent_trace]
      simp [callGetTicks, State.log, List.append_assoc]
  · intro s1 h
    obtain ⟨tr, h1, h2⟩ := RemoveDevice_LockStep E d s s1 h
    rw [traceSince_append s s1 tr h1]
    exact h2

/-- Witness for C16: the pass in which the handler of root port 7 calls
`PortStatusChanged` (which takes the lock itself) keeps the lock discipline. -/
theorem C16_lock_discipline_witness :
    ∃ b s1, UpdatePlugAndPlay demoReentrant 2
        (demoState false [⟨1, .PortStatusEventFromRootPort 7⟩] 1 ⟨0, 0⟩) = .ok (b, s1) ∧
      lockRun false (traceSince
        (demoState false [⟨1, .PortStatusEventFromRootPort 7⟩] 1 ⟨0, 0⟩) s1) = some false :=
  ⟨_, _, rfl, (C16_lock_discipline demoReentrant 2
    (demoState false [⟨1, .PortStatusEventFromRootPort 7⟩] 1 ⟨0, 0⟩) 7 9).1 _ _ rfl⟩

/-- C17 (dispatch order and termination): for a well-formed queue of `n` events and
handlers that enqueue nothing, a pass returns when it is given `n` loop iterations
and does not when it is given fewer, so it makes exactly `n` iterations.  Its trace
is the lock and list calls around `passTrace`: per queued node, in head-to-tail
order, `GetPtr`, `Release`, the collaborator calls of the dispatch, `Acquire`,
`GetNext` and, if judged handled, `Remove`.  So the collaborator serving each
queued event (`HandlePortStatusChange` of its root port or hub, `ShutdownDevice` of
its device) is called exactly once, in queue order, and the world at return is the
one the handlers leave, whatever was unlinked on the way.  The dispatch of a
root-port or hub event is one call of its handler; the dispatch of a device removal
calls `ShutdownDevice` exactly once and reads the timer once if that call returned
false and not at all if it returned true. -/
theorem C17_dispatch_order_termination {σ : Type} (E : Collaborators σ) (s : State σ)
    (hpnp : s.s_bPlugAndPlay = true) (hwf : WF s) (hq : NoEnqueue E) :
    (∀ fuel, s.m_EventList.length ≤ fuel →
      ∃ b s1, UpdatePlugAndPlay E fuel s = .ok (b, s1) ∧
        traceSince s s1 = [Action.Acquire, Action.GetFirst] ++
          passTrace E s.world s.m_EventList ++ [Action.Release] ∧
        s1.world = worldAfterPass E s.world s.m_EventList ∧
        served (traceSince s s1) = s.m_EventList.map (fun e => e.pPtr.served) ∧
        dispatched (traceSince s s1) = s.m_EventList.map TPtrListElement.pElement ∧
        (dispatched (traceSince s s1)).length = s.m_EventList.length ∧
        (∀ e ∈ s.m_EventList, (dispatched (traceSince s s1)).count e.pElement = 1)) ∧
    (∀ fuel, fuel < s.m_EventList.length → UpdatePlugAndPlay E fuel s = .outOfFuel) ∧
    (∀ (p : Nat) (s0 : State σ), p ≠ 0 →
      (∃ s2, dispatch E (.PortStatusEventFromRootPort p) s0 = .ok (true, s2) ∧
        traceSince s0 s2 = [Action.RootPortHandlePortStatusChange p] ∧
        s2.world = (E.RootPortHandlePortStatusChange p s0.world).1) ∧
      (∃ s2, dispatch E (.PortStatusEventFromHub p) s0 = .ok (true, s2) ∧
        traceSince s0 s2 = [Action.HubHandlePortStatusChange p] ∧
        s2.world = (E.HubHandlePortStatusChange p s0.world).1)) ∧
    (∀ (d t0 : Nat) (s0 : State σ), d ≠ 0 →
      ∃ bh s2, dispatch E (.PortStatusEventDeviceRemoved d t0) s0 = .ok (bh, s2) ∧
        served (traceSince s0 s2) = [Served.Device d] ∧
        shutdowns (traceSince s0 s2) = [(d, (E.ShutdownDevice d s0.world).1)] ∧
        tickReads (traceSince s0 s2) =
          (if (E.ShutdownDevice d s0.world).1 = true then []
           else [E.GetTicks (E.ShutdownDevice d s0.world).2 % U32])) := by
  refine ⟨?_, fun fuel hf => UpdatePlugAndPlay_quiet_outOfFuel E hq fuel s hpnp hwf hf, ?_, ?_⟩
  · intro fuel hf
    obtain ⟨b, s1, h1, _, h3, _, h5⟩ := UpdatePlugAndPlay_quiet_trace E hq fuel s hpnp hwf hf
    have hd : dispatched (traceSince s s1) = s.m_EventList.map TPtrListElement.pElement := by
      have d1 : dispatched [Action.Acquire, Action.GetFirst] = [] := rfl
      have d2 : dispatched [Action.Release] = [] := rfl
      rw [h5, dispatched_append, dispatched_append, d1, d2, dispatched_passTrace]
      simp
    have hs : served (traceSince s s1) = s.m_EventList.map (fun e => e.pPtr.served) := by
      have d1 : served [Action.Acquire, Action.GetFirst] = [] := rfl
      have d2 : served [Action.Release] = [] := rfl
      rw [h5, served_append, served_append, d1, d2, served_passTrace]
      simp
    refine ⟨b, s1, h1, h5, h3, hs, hd, by rw [hd, List.length_map], ?_⟩
    intro e he
    rw [hd]
    exact List.count_eq_one_of_mem hwf.1 (List.mem_map_of_mem _ he)
  · intro p s0 hp
    constructor
    · exact ⟨_, dispatch_quiet E hq (.PortStatusEventFromRootPort p) s0 hp,
        traceSince_append s0 _ _ rfl, rfl⟩
    · exact ⟨_, dispatch_quiet E hq (.PortStatusEventFromHub p) s0 hp,
        traceSince_append s0 _ _ rfl, rfl⟩
  · intro d t0 s0 hd
    have h := dispatch_quiet E hq (.PortStatusEventDeviceRemoved d t0) s0 hd
    refine ⟨_, _, h, ?_, ?_, ?_⟩
    · rw [traceSince_append s0 _ _ rfl]
      exact served_dispatchTrace E _ _
    · rw [traceSince_append s0 _ _ rfl]
      simp only [dispatchTrace]
      split
      · rename_i h1; simp [shutdowns, h1]
      · rename_i h1
        have h1f : (E.ShutdownDevice d s0.world).1 = false := by simpa using h1
        split <;> simp [shutdowns, h1f]
    · rw [traceSince_append s0 _ _ rfl]
      simp only [dispatchTrace]
      split
      · rfl
      · split <;> rfl

/-- Witness for C17: the pass over `[A, B, C]` needs exactly three iterations; it
calls `ShutdownDevice` of device 9, the handler of root port 7 and `ShutdownDevice`
of device 11, in this order, although node 2 is unlinked on the way. -/
theorem C17_dispatch_order_termination_witness :
    (∃ b s1, UpdatePlugAndPlay demoQuiet 3 (demoState false demoQueue 3 ⟨120, 0⟩) = .ok (b, s1) ∧
      dispatched (traceSince (demoState false demoQueue 3 ⟨120, 0⟩) s1) = [1, 2, 3] ∧
      served (traceSince (demoState false demoQueue 3 ⟨120, 0⟩) s1) =
        [Served.Device 9, Served.RootPort 7, Served.Device 11] ∧
      traceSince (demoState false demoQueue 3 ⟨120, 0⟩) s1 =
        [Action.Acquire, Action.GetFirst,
         Action.GetPtr 1, Action.Release, Action.ShutdownDevice 9 false, Action.GetTicks 120,
         Action.Acquire, Action.GetNext 1,
         Action.GetPtr 2, Action.Release, Action.RootPortHandlePortStatusChange 7,
         Action.Acquire, Action.GetNext 2, Action.Remove 2,
         Action.GetPtr 3, Action.Release, Action.ShutdownDevice 11 false, Action.GetTicks 120,
         Action.Acquire, Action.GetNext 3,
         Action.Release]) ∧
    UpdatePlugAndPlay demoQuiet 2 (demoState false demoQueue 3 ⟨120, 0⟩) = .outOfFuel := by
  have h := C17_dispatch_order_termination demoQuiet (demoState false demoQueue 3 ⟨120, 0⟩)
    rfl (demoState_WF _ _) demoQuiet_NoEnqueue
  obtain ⟨b, s1, h1, h2, _, h4, h5, _⟩ := h.1 3 (by decide)
  refine ⟨⟨b, s1, h1, h5, ?_, ?_⟩, h.2.1 2 (by decide)⟩
  · rw [h4]; rfl
  · rw [h2]; decide

/-- C18 (removal state machine, destroy-once), for handlers that enqueue nothing.
One dispatch of a device removal is judged handled exactly when `ShutdownDevice`
succeeded or the deadline has elapsed, and destroys the device exactly when it is
judged handled; the dispatch of a root-port or hub event destroys nothing.  In a
pass over a well-formed queue with at most one removal event per device, a removal
event is gone from the queue afterwards if and only if its device was destroyed in
the pass, and only devices with a queued removal event are destroyed.  In every
state reached from a new controller by public operations in which `RemoveDevice`
is called on pairwise distinct devices, no device has been destroyed twice, no
device has two queued removal events, and no queued removal event refers to a
destroyed device. -/
theorem C18_removal_destroy_once {σ : Type} (E : Collaborators σ) (hq : NoEnqueue E) :
    (∀ (s0 : State σ) (d t0 : Nat), d ≠ 0 →
      ∃ bh s2, dispatch E (.PortStatusEventDeviceRemoved d t0) s0 = .ok (bh, s2) ∧
        bh = ((E.ShutdownDevice d s0.world).1 ||
          deadlineElapsed (E.GetTicks (E.ShutdownDevice d s0.world).2 % U32) t0) ∧
        destroyed (traceSince s0 s2) = (if bh = true then [d] else [])) ∧
    (∀ (s0 : State σ) (p : Nat), p ≠ 0 →
      (∃ s2, dispatch E (.PortStatusEventFromRootPort p) s0 = .ok (true, s2) ∧
        destroyed (traceSince s0 s2) = []) ∧
      (∃ s2, dispatch E (.PortStatusEventFromHub p) s0 = .ok (true, s2) ∧
        destroyed (traceSince s0 s2) = [])) ∧
    (∀ (fuel : Nat) (s : State σ), s.s_bPlugAndPlay = true → WF s →
      (queuedDevices s.m_EventList).Nodup → s.m_EventList.length ≤ fuel →
      ∃ b s1, UpdatePlugAndPlay E fuel s = .ok (b, s1) ∧
        (∀ e ∈ s.m_EventList, ∀ d t0, e.pPtr = .PortStatusEventDeviceRemoved d t0 →
          (e ∉ s1.m_EventList ↔ d ∈ destroyed (traceSince s s1))) ∧
        (∀ x ∈ destroyed (traceSince s s1), x ∈ queuedDevices s.m_EventList)) ∧
    (∀ (bPlugAndPlay : Bool) (w : σ) (ops : List (Operation σ)) (s : State σ),
      (removedDevices ops).Nodup →
      runOperations E ops (CUSBHostController bPlugAndPlay w) = .ok s →
      (destroyed s.trace).Nodup ∧ (queuedDevices s.m_EventList).Nodup ∧
      (∀ e ∈ s.m_EventList, ∀ d t0, e.pPtr = .PortStatusEventDeviceRemoved d t0 →
        d ∉ destroyed s.trace)) := by
  refine ⟨?_, ?_, ?_, ?_⟩
  · intro s0 d t0 hd
    refine ⟨_, _, dispatch_quiet E hq (.PortStatusEventDeviceRemoved d t0) s0 hd, rfl, ?_⟩
    rw [traceSince_append s0 _ _ rfl, destroyed_dispatchTrace]
    simp [TPortStatusEvent.isDeviceRemoved, TPortStatusEvent.ref, judgedHandled]
  · intro s0 p hp
    constructor
    · exact ⟨_, dispatch_quiet E hq (.PortStatusEventFromRootPort p) s0 hp,
        by rw [traceSince_append s0 _ _ rfl]; rfl⟩
    · exact ⟨_, dispatch_quiet E hq (.PortStatusEventFromHub p) s0 hp,
        by rw [traceSince_append s0 _ _ rfl]; rfl⟩
  · intro fuel s hpnp hwf hnd hfuel
    obtain ⟨b, s1, h1, h2, _, _, h5⟩ := UpdatePlugAndPlay_quiet_trace E hq fuel s hpnp hwf hfuel
    have hdes : destroyed (traceSince s s1) = destroyed (passTrace E s.world s.m_EventList) := by
      have e1 : destroyed [Action.Acquire, Action.GetFirst] = [] := rfl
      have e2 : destroyed [Action.Release] = [] := rfl
      rw [h5, destroyed_append, destroyed_append, e1, e2]
      simp
    refine ⟨b, s1, h1, ?_, ?_⟩
    · intro e he d t0 hed
      rw [hdes, h2, remaining_iff_not_destroyed E d t0 _ s.world hnd e he hed]
      simp
    · intro x hx
      rw [hdes] at hx
      exact destroyed_passTrace_subset E _ _ x hx
  · intro bPnP w ops s hnd h
    obtain ⟨D1, ha⟩ := runOperations_Accounted E hq ops [] _ s (WF_new _ _) (Accounted_new _ _)
      hnd (fun _ _ hm => by simp at hm) h
    have hn := List.nodup_append.1 ha.1
    refine ⟨hn.1, hn.2.1, ?_⟩
    intro e he d t0 hed hm
    exact hn.2.2 hm ((mem_queuedDevices _ d).2 ⟨e, he, t0, hed⟩)

/-- Witness for C18: device 5 is removed at once, devices 9 and 11 refuse and are
queued at tick 120; a pass at tick 130 keeps both, a pass at tick 300 destroys
both.  Devices 5, 9 and 11 are each destroyed once and nothing is left queued. -/
theorem C18_removal_destroy_once_witness :
    ∃ s, runOperations demoQuiet
        [.RemoveDevice 9, .RemoveDevice 5, .RemoveDevice 11,
         .environment (fun w => { w with nTicks := 130 }), .UpdatePlugAndPlay 2,
         .environment (fun w => { w with nTicks := 300 }), .UpdatePlugAndPlay 2]
        (CUSBHostController true (⟨120, 0⟩ : DemoWorld)) = .ok s ∧
      destroyed s.trace = [5, 9, 11] ∧ s.m_EventList = [] ∧ (destroyed s.trace).Nodup := by
  refine ⟨_, rfl, rfl, rfl, ?_⟩
  exact ((C18_removal_destroy_once demoQuiet demoQuiet_NoEnqueue).2.2.2 true ⟨120, 0⟩
    [.RemoveDevice 9, .RemoveDevice 5, .RemoveDevice 11,
     .environment (fun w => { w with nTicks := 130 }), .UpdatePlugAndPlay 2,
     .environment (fun w => { w with nTicks := 300 }), .UpdatePlugAndPlay 2]
    _ (by decide) rfl).1

/-- C19 (tick wrap-around): let `created ≤ now` be the true tick counts at the
removal request and at the poll, fewer than `2^32` ticks apart, so that the code
sees `created % 2^32` and `now % 2^32`.  The 32-bit difference computed by the
deadline test is the true elapsed count, so for every threshold `D` the test
`GetTicks () - nCreatedTicks >= D` answers as `elapsed >= D` does, also when the
counter wrapped in between; in particular for the threshold `MSEC2HZ (150)`. -/
theorem C19_tick_wraparound (created now D : Nat) (hle : created ≤ now)
    (hlt : now - created < U32) :
    u32sub (now % U32) (created % U32) = now - created ∧
    (D ≤ u32sub (now % U32) (created % U32) ↔ D ≤ now - created) ∧
    deadlineElapsed (now % U32) (created % U32) = decide (MSEC2HZ 150 ≤ now - created) := by
  have h : u32sub (now % U32) (created % U32) = now - created := by
    unfold u32sub U32 at *
    omega
  exact ⟨h, by rw [h], by rw [deadlineElapsed, h]⟩

/-- Witness for C19: created 10 ticks before the counter wraps and polled 200 ticks
after it wrapped, the raw reading 200 is below the raw stamp `2^32 - 10`, and the
deadline test sees the 210 ticks that elapsed. -/
theorem C19_tick_wraparound_witness :
    (4294967296 + 200) % U32 < (4294967296 - 10) % U32 ∧
    u32sub ((4294967296 + 200) % U32) ((4294967296 - 10) % U32) = 210 ∧
    deadlineElapsed ((4294967296 + 200) % U32) ((4294967296 - 10) % U32) = true := by
  have h := C19_tick_wraparound (4294967296 - 10) (4294967296 + 200) 150 (by decide)
    (by decide)
  exact ⟨by decide, h.1, by rw [h.2.2]; decide⟩

/-- C20 (length truncation in `GetDescriptor`): `GetDescriptor` submits exactly one
request; for every `nBufSize` its setup descriptor has `wLength = nBufSize mod
65536` and its buffer length is `nBufSize mod 65536`, while the buffer pointer is
passed unchanged.  Both lengths equal `nBufSize` if and only if `nBufSize < 65536`. -/
theorem C20_get_descriptor_truncation {σ : Type} (E : Collaborators σ) (s : State σ)
    (pEndpoint ucType ucIndex pBuffer nBufSize ucRequestType wIndex : Nat) :
    submitted (traceSince s (GetDescriptor E pEndpoint ucType ucIndex pBuffer nBufSize
        ucRequestType wIndex s).2) =
      [(⟨pEndpoint, pBuffer, nBufSize % 65536,
          some ⟨ucRequestType % 256, GET_DESCRIPTOR,
            (((ucType % 256) <<< 8) ||| (ucIndex % 256)) % 65536, wIndex % 65536,
            nBufSize % 65536⟩⟩, none)] ∧
    (nBufSize % 65536 = nBufSize ↔ nBufSize < 65536) := by
  have e1 : nBufSize % U32 % 65536 = nBufSize % 65536 := by unfold U32; omega
  constructor
  · simp only [GetDescriptor]
    rw [traceSince_append s _ _ (ControlMessage_trace E s _ _ _ _ _ _ _)]
    simp only [controlURB, e1, Nat.mod_mod, GET_DESCRIPTOR]
    rfl
  · constructor
    · intro h; omega
    · intro h; exact Nat.mod_eq_of_lt h

/-- Witness for C20: a buffer size of 65536 is submitted with `wLength = 0` and an
empty buffer. -/
theorem C20_get_descriptor_truncation_witness :
    submitted (traceSince (demoState false [] 0 ⟨0, 0⟩)
      (GetDescriptor demoQuiet 1 1 0 4096 65536 128 0 (demoState false [] 0 ⟨0, 0⟩)).2) =
      [(⟨1, 4096, 0, some ⟨128, 6, 256, 0, 0⟩⟩, none)] := by
  rw [(C20_get_descriptor_truncation demoQuiet (demoState false [] 0 ⟨0, 0⟩)
    1 1 0 4096 65536 128 0).1]
  rfl

end USBHost
